import Mathlib

/-! JerboBot motion-control core: a shallow embedding of `jb_main.c`.

The C doubles are embedded as elements of an ordered field `K`: the definitions
are computable for any such field, and the statements that need square roots,
cosines or integrals are made over the reals.  The constants of the header
`jb_main_defs.h`, the C math library and the `rc_filter` library are parameters
of the embedding.  Calls into the motor and encoder drivers are recorded, in
order, in a trace.  A table read outside the allocated rows has no defined
result and is embedded as `none`.
-/

namespace Jerbobot

/-! ## Data model -/

/-- The enum `arm_state_t`. -/
inductive arm_state_t where
  | ARMED
  | DISARMED
  deriving DecidableEq, Repr

/-- The process state of the robot control library (`rc_get_state`, `rc_set_state`). -/
inductive rc_state_t where
  | UNINITIALIZED
  | RUNNING
  | PAUSED
  | EXITING
  deriving DecidableEq, Repr

/-- The struct `setpoint_t`. -/
structure setpoint_t (K : Type) where
  arm_state : arm_state_t
  wheelAngle1 : K
  wheelAngle4 : K
  wheelAngle2 : K
  wheelAngle3 : K
  wheelAngle5 : K
  x : K
  y : K
  z : K
  theta : K

/-- The struct `core_state_t`. -/
structure core_state_t (K : Type) where
  wheelAngle1 : K
  wheelAngle2 : K
  wheelAngle3 : K
  wheelAngle4 : K
  wheelAngle5 : K
  d1_u : K
  d4_u : K
  d2_u : K
  d3_u : K
  d5_u : K
  vBatt : K
  x : K
  y : K
  x_r : K
  y_r : K
  z : K
  theta : K
  step : Int
  t_1 : K
  t_2 : K
  t_curr : Nat
  v_xr_des : K
  v_yr_des : K
  v_z_des : K

/-- One row of `trajec_mat`: columns 0 to 3 (time, x_r, y_r, z). -/
structure traj_row (K : Type) where
  t : K
  xr : K
  yr : K
  z : K

/-- The constants of `jb_main_defs.h`, which the program includes and which
are taken as parameters. -/
structure jb_main_defs (K : Type) where
  ACCEL_MAX : K
  ACCEL_Z_U : K
  ACCEL_Z_D : K
  DT : K
  WHEEL_RADIUS_XY : K
  WHEEL_RADIUS_Z : K
  TRACK_WIDTH : K
  ANGLE_GLOBAL2OMNI : K
  GEARBOX_XY : K
  ENCODER_RES : K
  ENCODER_POLARITY_1 : K
  ENCODER_POLARITY_2 : K
  ENCODER_POLARITY_3 : K
  ENCODER_POLARITY_4 : K
  ENCODER_CHANNEL_1 : Int
  ENCODER_CHANNEL_2 : Int
  ENCODER_CHANNEL_3 : Int
  ENCODER_CHANNEL_4 : Int
  ENCODER_CHANNEL_5 : Int
  MOTOR_CHANNEL_1 : Int
  MOTOR_CHANNEL_2 : Int
  MOTOR_CHANNEL_3 : Int
  MOTOR_CHANNEL_4 : Int
  MOTOR_CHANNEL_5 : Int
  MOTOR_POLARITY_1 : K
  MOTOR_POLARITY_2 : K
  MOTOR_POLARITY_3 : K
  MOTOR_POLARITY_4 : K
  MOTOR_POLARITY_5 : K
  D1_GAIN : K
  D2_GAIN : K
  D3_GAIN : K
  D4_GAIN : K
  D5_GAIN : K
  V_NOMINAL : K

/-- The functions of the C math library the program calls: `pow(x, .5)` is
`sqrt`, and `M_PI`. -/
structure libm (K : Type) where
  sqrt : K → K
  cos : K → K
  sin : K → K
  M_PI : K

/-- An `rc_filter_t`: its public `gain` field and the rest of the filter
(coefficients and ring buffers), which only the filter library touches. -/
structure rc_filter_t (K M : Type) where
  gain : K
  mem : M

/-- The two `rc_filter` library calls of the program: `march gain mem input`
gives the new memory and the output, `reset` clears the memory. -/
structure rc_filter_lib (K M : Type) where
  march : K → M → K → M × K
  reset : M → M

/-- A call into the motor or encoder driver, with its arguments. -/
inductive hw_call (K : Type) where
  | jb_rc_motor_set (ch : Int) (duty : K)
  | jb_rc_motor_standby (en : Int)
  | jb_rc_motor_free_spin (ch : Int)
  | rc_encoder_write (ch : Int) (pos : Int)

/-- The global variables of `jb_main.c`, the process state, the static and
thread-local variables that live across calls (`inner_saturation_counter` is a C `int`,
every value stored in it going through `c_int`), and the trace of driver calls. -/
structure World (K M : Type) where
  cstate : core_state_t K
  setpoint : setpoint_t K
  D1 : rc_filter_t K M
  D4 : rc_filter_t K M
  D2 : rc_filter_t K M
  D3 : rc_filter_t K M
  D5 : rc_filter_t K M
  test_start : Nat
  trajec_mat : List (traj_row K)
  rc_state : rc_state_t
  inner_saturation_counter : Int
  e_stop_switch : K
  hw : List (hw_call K)

/-! ## Helpers for C arithmetic -/

/-- The modulus of `uint64_t`. -/
def U64 : Nat := 2 ^ 64

/-- The C expression `(double)(cstate.t_curr - test_start) / 1000`, the
subtraction being that of `uint64_t`. -/
def elapsed_s {K : Type} [LinearOrderedField K] (t_curr test_start : Nat) : K :=
  (((t_curr % U64 + U64 - test_start % U64) % U64 : Nat) : K) / 1000

/-- The C expression `(d > 0) - (d < 0)`. -/
def c_sign {K : Type} [LinearOrderedField K] (d : K) : Int :=
  (if d > 0 then 1 else 0) - (if d < 0 then 1 else 0)

/-- Row `i` of the table, `none` outside the allocated rows. -/
def row_at {K : Type} (tbl : List (traj_row K)) (i : Int) : Option (traj_row K) :=
  if 0 ≤ i then tbl[i.toNat]? else none

/-- The field `rows` of the matrix. -/
def rows {K : Type} (tbl : List (traj_row K)) : Int := (tbl.length : Int)

/-- The largest value of the C type `int`, 32 bits wide on the target. -/
def INT_MAX : Int := 2147483647

/-- The smallest value of the C type `int`. -/
def INT_MIN : Int := -2147483648

/-- The value an `int` variable holds after the arithmetic result `x` is stored in
it: `x` itself from `INT_MIN` to `INT_MAX`, and outside that range (where C leaves the
result of the overflow undefined) the two's complement value the target gives. -/
def c_int (x : Int) : Int := (x + 2147483648) % 4294967296 - 2147483648

/-! ## Arming -/

/-- The function `__disarm_controller`. -/
def disarm_controller {K M : Type} (w : World K M) : World K M :=
  { w with
    hw := w.hw ++ [hw_call.jb_rc_motor_standby 1, hw_call.jb_rc_motor_free_spin 0]
    setpoint := { w.setpoint with arm_state := arm_state_t.DISARMED } }

/-- The function `__zero_out_controller`. -/
def zero_out_controller {K M : Type} [LinearOrderedField K] (fl : rc_filter_lib K M)
    (w : World K M) : World K M :=
  { w with
    D1 := { w.D1 with mem := fl.reset w.D1.mem }
    D4 := { w.D4 with mem := fl.reset w.D4.mem }
    D2 := { w.D2 with mem := fl.reset w.D2.mem }
    D3 := { w.D3 with mem := fl.reset w.D3.mem }
    D5 := { w.D5 with mem := fl.reset w.D5.mem }
    hw := w.hw ++ [hw_call.jb_rc_motor_set 0 0, hw_call.jb_rc_motor_set 4 0,
      hw_call.jb_rc_motor_set 5 0] }

/-- The function `__arm_controller`. -/
def arm_controller {K M : Type} [LinearOrderedField K] (cfg : jb_main_defs K)
    (fl : rc_filter_lib K M) (w : World K M) : World K M :=
  let w1 := zero_out_controller fl w
  { w1 with
    hw := w1.hw ++ [hw_call.rc_encoder_write cfg.ENCODER_CHANNEL_1 0,
      hw_call.rc_encoder_write cfg.ENCODER_CHANNEL_4 0,
      hw_call.rc_encoder_write cfg.ENCODER_CHANNEL_2 0,
      hw_call.rc_encoder_write cfg.ENCODER_CHANNEL_3 0,
      hw_call.rc_encoder_write cfg.ENCODER_CHANNEL_5 0,
      hw_call.jb_rc_motor_standby 0]
    setpoint := { w1.setpoint with arm_state := arm_state_t.ARMED } }

/-! ## Trajectory planner: `__traject_new` -/

/-- Lines 359 to 366 of `__traject_new`: the clock read and the check of the
row count (which disarms and goes on). -/
def traject_clock {K M : Type} (nanos : Nat) (w : World K M) : World K M :=
  let w1 : World K M := { w with cstate := { w.cstate with t_curr := nanos % U64 / 1000000 } }
  if rows w1.trajec_mat < 2 then disarm_controller w1 else w1

/-- Lines 368 to 391 of `__traject_new`: the choice of the segment.  The
boolean is `true` when the function returns from the final-destination
branch. -/
def traject_select {K M : Type} [LinearOrderedField K] (w : World K M) :
    Option (Bool × World K M) :=
  match row_at w.trajec_mat (w.cstate.step + 1) with
  | none => none
  | some r1 =>
    if w.cstate.step + 2 < rows w.trajec_mat then
      if (elapsed_s w.cstate.t_curr w.test_start : K) ≥ r1.t then
        match row_at w.trajec_mat (w.cstate.step + 1),
            row_at w.trajec_mat (w.cstate.step + 1 + 1) with
        | some ra, some rb =>
          some (false, { w with cstate := { w.cstate with
            step := w.cstate.step + 1, t_1 := ra.t, t_2 := rb.t } })
        | _, _ => none
      else some (false, w)
    else
      if (elapsed_s w.cstate.t_curr w.test_start : K) ≥ r1.t then
        let w1 := disarm_controller w
        some (true, { w1 with
          cstate := { w1.cstate with v_xr_des := 0, v_yr_des := 0 }
          rc_state := rc_state_t.EXITING })
      else some (false, w)

/-- The acceleration time `(dt - pow(pow(dt, 2) - 4 * diff / a, .5)) / 2`. -/
def t_accel {K : Type} [LinearOrderedField K] (lm : libm K) (dt diff a : K) : K :=
  (dt - lm.sqrt (dt ^ 2 - 4 * diff / a)) / 2

/-- The three-branch velocity assignment, `c` being the signed acceleration
that multiplies the time in each branch. -/
def trapezoid {K : Type} [LinearOrderedField K] (c dt t_a t_test : K) : K :=
  if t_test ≤ t_a then c * t_test
  else if t_test ≥ dt - t_a then c * (dt - t_test)
  else c * t_a

/-- The desired velocity of the x_r (and y_r) axis, lines 403 to 436: sign and
magnitude of the displacement, acceleration time, trapezoid. -/
def v_xy_des {K : Type} [LinearOrderedField K] (lm : libm K) (a dt diff t_test : K) : K :=
  let sgn : Int := c_sign diff
  let mag : K := diff * (sgn : K)
  trapezoid ((sgn : K) * a) dt (t_accel lm dt mag a) t_test

/-- The desired velocity of the z axis, lines 409 to 482. -/
def v_z_des {K : Type} [LinearOrderedField K] (lm : libm K) (a_u a_d dt diff t_test : K) : K :=
  let sgn : Int := c_sign diff
  let mag : K := diff * (sgn : K)
  if sgn > 0 then trapezoid ((sgn : K) * a_u) dt (t_accel lm dt mag a_u) t_test
  else trapezoid (-a_d) dt (t_accel lm dt mag a_d) t_test

/-- Lines 403 to 489 of `__traject_new`, for the in-segment time `t_test` and
the rows `ra` (row `step`) and `rb` (row `step + 1`) of the table. -/
def traject_profile {K M : Type} [LinearOrderedField K] (cfg : jb_main_defs K) (lm : libm K)
    (w : World K M) (ra rb : traj_row K) (t_test : K) : World K M :=
  let dt := w.cstate.t_2 - w.cstate.t_1
  let vx := v_xy_des lm cfg.ACCEL_MAX dt (rb.xr - ra.xr) t_test
  let vy := v_xy_des lm cfg.ACCEL_MAX dt (rb.yr - ra.yr) t_test
  let vz := v_z_des lm cfg.ACCEL_Z_U cfg.ACCEL_Z_D dt (rb.z - ra.z) t_test
  { w with
    cstate := { w.cstate with v_xr_des := vx, v_yr_des := vy, v_z_des := vz }
    setpoint := { w.setpoint with
      wheelAngle1 := w.setpoint.wheelAngle1 + vx * cfg.DT
      wheelAngle4 := w.setpoint.wheelAngle4 + vx * cfg.DT
      wheelAngle2 := w.setpoint.wheelAngle2 + vy * cfg.DT
      wheelAngle3 := w.setpoint.wheelAngle3 + vy * cfg.DT
      wheelAngle5 := w.setpoint.wheelAngle5 + vz * cfg.DT } }

/-- Lines 393 to 489 of `__traject_new`: the time check, then the profile. -/
def traject_rest {K M : Type} [LinearOrderedField K] (cfg : jb_main_defs K) (lm : libm K)
    (w : World K M) : Option (World K M) :=
  if w.cstate.t_1 > w.cstate.t_2 then some w
  else
    match row_at w.trajec_mat (w.cstate.step + 1), row_at w.trajec_mat w.cstate.step with
    | some rb, some ra =>
      some (traject_profile cfg lm w ra rb
        (elapsed_s w.cstate.t_curr w.test_start - w.cstate.t_1))
    | _, _ => none

/-- The function `__traject_new`; `nanos` is the value `rc_nanos_since_boot()`
returns. -/
def traject_new {K M : Type} [LinearOrderedField K] (cfg : jb_main_defs K) (lm : libm K)
    (nanos : Nat) (w : World K M) : Option (World K M) :=
  match traject_select (traject_clock nanos w) with
  | none => none
  | some (true, w1) => some w1
  | some (false, w1) => traject_rest cfg lm w1

/-- A run of `__traject_new` calls, one per clock value, stopping at the first
call with no defined result. -/
def traject_run {K M : Type} [LinearOrderedField K] (cfg : jb_main_defs K) (lm : libm K) :
    List Nat → World K M → Option (World K M)
  | [], w => some w
  | n :: ns, w =>
    match traject_new cfg lm n w with
    | none => none
    | some w1 => traject_run cfg lm ns w1

/-- Waypoint times are non-decreasing along the table. -/
def times_nondecreasing {K : Type} [LinearOrderedField K] : List (traj_row K) → Prop
  | a :: b :: l => a.t ≤ b.t ∧ times_nondecreasing (b :: l)
  | _ => True

/-! ## Position controller: `__position_controller` -/

/-- The wheel angle `(count * 2.0 * M_PI) / (polarity * gearbox * resolution)`. -/
def wheel_angle {K : Type} [LinearOrderedField K] (lm : libm K) (count : Int)
    (pol gear res : K) : K :=
  ((count : K) * 2 * lm.M_PI) / (pol * gear * res)

/-- The yaw increment of one tick, line 560, from the four wheel deltas. -/
def yaw_increment {K : Type} [LinearOrderedField K] (cfg : jb_main_defs K)
    (dAngle1 dAngle2 dAngle3 dAngle4 : K) : K :=
  (2 * cfg.WHEEL_RADIUS_XY / (4 * cfg.TRACK_WIDTH)) * (dAngle4 - dAngle1 + dAngle2 - dAngle3)

/-- The correction for a full rotation, lines 575 to 580. -/
def wrap_theta {K : Type} [LinearOrderedField K] (lm : libm K) (theta : K) : K :=
  if theta > 2 * lm.M_PI then theta - 2 * lm.M_PI
  else if theta < -2 * lm.M_PI then theta + 2 * lm.M_PI
  else theta

/-- The state estimation of `__position_controller`, lines 519 to 580; `enc`
is what `rc_encoder_read` returns for each channel. -/
def state_estimation {K : Type} [LinearOrderedField K] (cfg : jb_main_defs K) (lm : libm K)
    (enc : Int → Int) (c : core_state_t K) : core_state_t K :=
  let a1 := wheel_angle lm (enc cfg.ENCODER_CHANNEL_1) cfg.ENCODER_POLARITY_1
    cfg.GEARBOX_XY cfg.ENCODER_RES
  let a2 := wheel_angle lm (enc cfg.ENCODER_CHANNEL_2) cfg.ENCODER_POLARITY_2
    cfg.GEARBOX_XY cfg.ENCODER_RES
  let a3 := wheel_angle lm (enc cfg.ENCODER_CHANNEL_3) cfg.ENCODER_POLARITY_3
    cfg.GEARBOX_XY cfg.ENCODER_RES
  let a4 := wheel_angle lm (enc cfg.ENCODER_CHANNEL_4) cfg.ENCODER_POLARITY_4
    cfg.GEARBOX_XY cfg.ENCODER_RES
  let a5 : K := 0
  let dAngle1 := a1 - c.wheelAngle1
  let dAngle4 := a4 - c.wheelAngle4
  let dAngle2 := a2 - c.wheelAngle2
  let dAngle3 := a3 - c.wheelAngle3
  let dAngle5 := a5 - c.wheelAngle5
  let dX_r := 0.5 * cfg.WHEEL_RADIUS_XY * (dAngle1 + dAngle4)
  let dY_r := 0.5 * cfg.WHEEL_RADIUS_XY * (dAngle2 + dAngle3)
  let theta1 := c.theta + yaw_increment cfg dAngle1 dAngle2 dAngle3 dAngle4
  { c with
    wheelAngle1 := a1
    wheelAngle2 := a2
    wheelAngle3 := a3
    wheelAngle4 := a4
    wheelAngle5 := a5
    x_r := c.x_r + dX_r
    y_r := c.y_r + dY_r
    x := c.x + (dX_r * lm.cos (cfg.ANGLE_GLOBAL2OMNI + theta1)
      - dY_r * lm.sin (cfg.ANGLE_GLOBAL2OMNI + theta1))
    y := c.y + (dX_r * lm.sin (cfg.ANGLE_GLOBAL2OMNI + theta1)
      + dY_r * lm.cos (cfg.ANGLE_GLOBAL2OMNI + theta1))
    z := c.z + cfg.WHEEL_RADIUS_Z * dAngle5
    theta := wrap_theta lm theta1 }

/-- The yaw increment the tick with encoder readings `enc` adds to `theta`
before the correction for a full rotation. -/
def tick_yaw {K : Type} [LinearOrderedField K] (cfg : jb_main_defs K) (lm : libm K)
    (enc : Int → Int) (c : core_state_t K) : K :=
  yaw_increment cfg
    (wheel_angle lm (enc cfg.ENCODER_CHANNEL_1) cfg.ENCODER_POLARITY_1
      cfg.GEARBOX_XY cfg.ENCODER_RES - c.wheelAngle1)
    (wheel_angle lm (enc cfg.ENCODER_CHANNEL_2) cfg.ENCODER_POLARITY_2
      cfg.GEARBOX_XY cfg.ENCODER_RES - c.wheelAngle2)
    (wheel_angle lm (enc cfg.ENCODER_CHANNEL_3) cfg.ENCODER_POLARITY_3
      cfg.GEARBOX_XY cfg.ENCODER_RES - c.wheelAngle3)
    (wheel_angle lm (enc cfg.ENCODER_CHANNEL_4) cfg.ENCODER_POLARITY_4
      cfg.GEARBOX_XY cfg.ENCODER_RES - c.wheelAngle4)

/-- The state estimation run over a sequence of encoder snapshots. -/
def estimation_run {K : Type} [LinearOrderedField K] (cfg : jb_main_defs K) (lm : libm K) :
    List (Int → Int) → core_state_t K → core_state_t K
  | [], c => c
  | e :: es, c => estimation_run cfg lm es (state_estimation cfg lm e c)

/-- The sum of the yaw increments of the ticks of a run. -/
def yaw_sum {K : Type} [LinearOrderedField K] (cfg : jb_main_defs K) (lm : libm K) :
    List (Int → Int) → core_state_t K → K
  | [], _ => 0
  | e :: es, c => tick_yaw cfg lm e c + yaw_sum cfg lm es (state_estimation cfg lm e c)

/-- Along a run the yaw stays inside the wrap limits: no tick takes a branch of
the correction for a full rotation. -/
def yaw_inside {K : Type} [LinearOrderedField K] (cfg : jb_main_defs K) (lm : libm K) :
    List (Int → Int) → core_state_t K → Prop
  | [], _ => True
  | e :: es, c =>
    (-2 * lm.M_PI ≤ c.theta + tick_yaw cfg lm e c ∧ c.theta + tick_yaw cfg lm e c ≤ 2 * lm.M_PI)
      ∧ yaw_inside cfg lm es (state_estimation cfg lm e c)

/-- The feedback part of `__position_controller`, lines 587 to 633: gains,
filters, saturation counter, motor commands. -/
def control {K M : Type} [LinearOrderedField K] (cfg : jb_main_defs K)
    (fl : rc_filter_lib K M) (w : World K M) : World K M :=
  let g1 := cfg.D1_GAIN * cfg.V_NOMINAL / w.cstate.vBatt
  let g2 := cfg.D2_GAIN * cfg.V_NOMINAL / w.cstate.vBatt
  let g3 := cfg.D3_GAIN * cfg.V_NOMINAL / w.cstate.vBatt
  let g4 := cfg.D4_GAIN * cfg.V_NOMINAL / w.cstate.vBatt
  let g5 := cfg.D5_GAIN * cfg.V_NOMINAL / w.cstate.vBatt
  let r1 := fl.march g1 w.D1.mem (w.setpoint.wheelAngle1 - w.cstate.wheelAngle1)
  let r4 := fl.march g4 w.D4.mem (w.setpoint.wheelAngle4 - w.cstate.wheelAngle4)
  let r2 := fl.march g2 w.D2.mem (w.setpoint.wheelAngle2 - w.cstate.wheelAngle2)
  let r3 := fl.march g3 w.D3.mem (w.setpoint.wheelAngle3 - w.cstate.wheelAngle3)
  let r5 := fl.march g5 w.D5.mem (w.setpoint.wheelAngle5 - w.cstate.wheelAngle5)
  { w with
    D1 := { gain := g1, mem := r1.1 }
    D2 := { gain := g2, mem := r2.1 }
    D3 := { gain := g3, mem := r3.1 }
    D4 := { gain := g4, mem := r4.1 }
    D5 := { gain := g5, mem := r5.1 }
    cstate := { w.cstate with
      d1_u := r1.2, d4_u := r4.2, d2_u := r2.2, d3_u := r3.2, d5_u := r5.2 }
    inner_saturation_counter :=
      if |r1.2| > 0.95 then c_int (w.inner_saturation_counter + 1) else 0
    hw := w.hw ++ [
      hw_call.jb_rc_motor_set cfg.MOTOR_CHANNEL_1 (cfg.MOTOR_POLARITY_1 * r1.2),
      hw_call.jb_rc_motor_set cfg.MOTOR_CHANNEL_4 (cfg.MOTOR_POLARITY_4 * r4.2),
      hw_call.jb_rc_motor_set cfg.MOTOR_CHANNEL_2 (cfg.MOTOR_POLARITY_2 * r2.2),
      hw_call.jb_rc_motor_set cfg.MOTOR_CHANNEL_3 (cfg.MOTOR_POLARITY_3 * r3.2),
      hw_call.jb_rc_motor_set cfg.MOTOR_CHANNEL_5 (cfg.MOTOR_POLARITY_5 * r5.2)] }

/-- Where an invocation of `__position_controller` stands in a given world.
`waiting`: it is in the arming loop at lines 504 to 507, sleeping, and nothing of the tick
has been done; the loop is left in the first later world in which another thread has
armed, and the invocation goes on from there as the tick taken in that world.
`undefined`: past the loop, the planner reads the table outside its rows.  `done`: past
the loop, the tick runs to its end. -/
inductive tick_result (W : Type) where
  | waiting
  | undefined
  | done (w : W)

/-- The function `__position_controller`, the part after the arming loop taken as
one atomic tick from the world in which the loop is left. -/
def position_controller {K M : Type} [LinearOrderedField K] (cfg : jb_main_defs K)
    (lm : libm K) (fl : rc_filter_lib K M) (nanos : Nat) (enc : Int → Int)
    (w : World K M) : tick_result (World K M) :=
  if w.setpoint.arm_state = arm_state_t.DISARMED then tick_result.waiting
  else
    match traject_new cfg lm nanos w with
    | none => tick_result.undefined
    | some w1 =>
      tick_result.done
        (control cfg fl { w1 with cstate := state_estimation cfg lm enc w1.cstate })

/-- The motor duties among a list of driver calls. -/
def duties_written {K : Type} : List (hw_call K) → List K
  | [] => []
  | hw_call.jb_rc_motor_set _ d :: cs => d :: duties_written cs
  | _ :: cs => duties_written cs

/-! ## Command and e-stop reader: `__estop_reader` -/

/-- The library function `rc_saturate_double`, for `lo ≤ hi`. -/
def rc_saturate_double {K : Type} [LinearOrderedField K] (v lo hi : K) : K :=
  if v > hi then hi else if v < lo then lo else v

/-- What the radio receiver and the clock return during one iteration of the
reader loop. -/
structure dsm_input where
  is_new_data : Int
  ch_raw : Int → Int
  is_connection_active : Int
  nanos : Nat

/-- One iteration of the loop of `__estop_reader`, lines 806 to 859, taken
atomically. -/
def estop_reader_iter {K M : Type} [LinearOrderedField K] (cfg : jb_main_defs K)
    (fl : rc_filter_lib K M) (inp : dsm_input) (w : World K M) : World K M :=
  let w1 : World K M :=
    if inp.is_new_data ≠ 0 then
      let e : K := rc_saturate_double ((inp.ch_raw 5 : Int) : K) 900 2100
      let w0 : World K M := { w with e_stop_switch := e }
      if w0.test_start > 999999999 ∧ e ≥ 1100 then
        arm_controller cfg fl { w0 with test_start := inp.nanos % U64 / 1000000 }
      else w0
    else if inp.is_connection_active = 0 then { w with e_stop_switch := 0 }
    else w
  if w1.e_stop_switch < 1100 ∧ w1.setpoint.arm_state = arm_state_t.ARMED then
    { disarm_controller w1 with rc_state := rc_state_t.EXITING }
  else w1

/-! ## Battery monitor and the system as a whole -/

/-- One iteration of the loop of `__battery_checker`, lines 786 to 789; `new_v`
is what `rc_adc_batt` returns. -/
def battery_checker_iter {K M : Type} [LinearOrderedField K] (cfg : jb_main_defs K)
    (new_v : K) (w : World K M) : World K M :=
  { w with cstate := { w.cstate with
    vBatt := if new_v > 13 ∨ new_v < 10 then cfg.V_NOMINAL else new_v } }

/-- The battery voltage is one `__battery_checker` or the fallback of `main` can
have written: a reading between 10 and 13, or `V_NOMINAL`. -/
def vbatt_written {K M : Type} [LinearOrderedField K] (cfg : jb_main_defs K)
    (w : World K M) : Prop :=
  (10 ≤ w.cstate.vBatt ∧ w.cstate.vBatt ≤ 13) ∨ w.cstate.vBatt = cfg.V_NOMINAL

/-- One atomic step of the running system: a Position Controller tick that runs
to its end, or an iteration of the reader loop or of the battery loop, both of which
iterate only while the process state is not EXITING. -/
inductive sys_step {K M : Type} [LinearOrderedField K] (cfg : jb_main_defs K) (lm : libm K)
    (fl : rc_filter_lib K M) : World K M → World K M → Prop where
  | tick (nanos : Nat) (enc : Int → Int) (w w1 : World K M)
      (h : position_controller cfg lm fl nanos enc w = tick_result.done w1) :
      sys_step cfg lm fl w w1
  | reader (inp : dsm_input) (w : World K M) (h : w.rc_state ≠ rc_state_t.EXITING) :
      sys_step cfg lm fl w (estop_reader_iter cfg fl inp w)
  | battery (new_v : K) (w : World K M) (h : w.rc_state ≠ rc_state_t.EXITING) :
      sys_step cfg lm fl w (battery_checker_iter cfg new_v w)

/-- A run of consecutive Position Controller ticks, each given its clock value
and encoder readings; `none` when a tick does not run to its end. -/
def tick_run {K M : Type} [LinearOrderedField K] (cfg : jb_main_defs K) (lm : libm K)
    (fl : rc_filter_lib K M) : List (Nat × (Int → Int)) → World K M → Option (World K M)
  | [], w => some w
  | t :: ts, w =>
    match position_controller cfg lm fl t.1 t.2 w with
    | tick_result.done w1 => tick_run cfg lm fl ts w1
    | _ => none

/-- A filter whose output is held at `u`. -/
def held_filter {K : Type} [LinearOrderedField K] (u : K) : rc_filter_lib K Unit where
  march := fun _ _ _ => ((), u)
  reset := fun _ => ()

/-! ## Invariants of the planner -/

/-- The index `step` designates a segment of the table: rows `step` and
`step + 1` exist. -/
def step_in_table {K M : Type} (w : World K M) : Prop :=
  0 ≤ w.cstate.step ∧ w.cstate.step + 2 ≤ rows w.trajec_mat

/-- The stored segment times are the times of rows `step` and `step + 1`. -/
def times_of_step {K M : Type} (w : World K M) : Prop :=
  ∃ ra rb, row_at w.trajec_mat w.cstate.step = some ra ∧
    row_at w.trajec_mat (w.cstate.step + 1) = some rb ∧
    w.cstate.t_1 = ra.t ∧ w.cstate.t_2 = rb.t

/-! ## Odometry round trip -/

/-- The stored wheel angles of `c` are those of the encoder snapshot `e`. -/
def matches_snapshot {K : Type} [LinearOrderedField K] (cfg : jb_main_defs K) (lm : libm K)
    (e : Int → Int) (c : core_state_t K) : Prop :=
  c.wheelAngle1 = wheel_angle lm (e cfg.ENCODER_CHANNEL_1) cfg.ENCODER_POLARITY_1
      cfg.GEARBOX_XY cfg.ENCODER_RES ∧
    c.wheelAngle2 = wheel_angle lm (e cfg.ENCODER_CHANNEL_2) cfg.ENCODER_POLARITY_2
      cfg.GEARBOX_XY cfg.ENCODER_RES ∧
    c.wheelAngle3 = wheel_angle lm (e cfg.ENCODER_CHANNEL_3) cfg.ENCODER_POLARITY_3
      cfg.GEARBOX_XY cfg.ENCODER_RES ∧
    c.wheelAngle4 = wheel_angle lm (e cfg.ENCODER_CHANNEL_4) cfg.ENCODER_POLARITY_4
      cfg.GEARBOX_XY cfg.ENCODER_RES

/-- The differential `angle4 - angle1 + angle2 - angle3` of the wheel angles of a
snapshot, which the yaw follows. -/
def snapshot_yaw {K : Type} [LinearOrderedField K] (cfg : jb_main_defs K) (lm : libm K)
    (e : Int → Int) : K :=
  wheel_angle lm (e cfg.ENCODER_CHANNEL_4) cfg.ENCODER_POLARITY_4 cfg.GEARBOX_XY cfg.ENCODER_RES
    - wheel_angle lm (e cfg.ENCODER_CHANNEL_1) cfg.ENCODER_POLARITY_1 cfg.GEARBOX_XY
      cfg.ENCODER_RES
    + wheel_angle lm (e cfg.ENCODER_CHANNEL_2) cfg.ENCODER_POLARITY_2 cfg.GEARBOX_XY
      cfg.ENCODER_RES
    - wheel_angle lm (e cfg.ENCODER_CHANNEL_3) cfg.ENCODER_POLARITY_3 cfg.GEARBOX_XY
      cfg.ENCODER_RES

/-- The snapshots `e_1 .. e_n` followed by `e_(n-1) .. e_0`. -/
def round_trip (e0 : Int → Int) (es : List (Int → Int)) : List (Int → Int) :=
  es ++ ((e0 :: es).reverse).tail

/-! ## Concrete inputs -/

/-- The constants that `jb_test_motorpid.c` defines under the same names, the
others set to plain values. -/
def test_defs (K : Type) [LinearOrderedField K] (pi : K) : jb_main_defs K where
  ACCEL_MAX := 10
  ACCEL_Z_U := 10
  ACCEL_Z_D := 10
  DT := 0.005
  WHEEL_RADIUS_XY := 0.0762
  WHEEL_RADIUS_Z := 0.01
  TRACK_WIDTH := 0.52
  ANGLE_GLOBAL2OMNI := pi / 4
  GEARBOX_XY := 26.851
  ENCODER_RES := 48
  ENCODER_POLARITY_1 := -1
  ENCODER_POLARITY_2 := -1
  ENCODER_POLARITY_3 := 1
  ENCODER_POLARITY_4 := 1
  ENCODER_CHANNEL_1 := 1
  ENCODER_CHANNEL_2 := 3
  ENCODER_CHANNEL_3 := 4
  ENCODER_CHANNEL_4 := 2
  ENCODER_CHANNEL_5 := 5
  MOTOR_CHANNEL_1 := 1
  MOTOR_CHANNEL_2 := 2
  MOTOR_CHANNEL_3 := 3
  MOTOR_CHANNEL_4 := 4
  MOTOR_CHANNEL_5 := 5
  MOTOR_POLARITY_1 := 1
  MOTOR_POLARITY_2 := 1
  MOTOR_POLARITY_3 := 1
  MOTOR_POLARITY_4 := 1
  MOTOR_POLARITY_5 := 1
  D1_GAIN := 0.5
  D2_GAIN := 0.5
  D3_GAIN := 0.5
  D4_GAIN := 0.5
  D5_GAIN := 0.5
  V_NOMINAL := 12

/-- The table of `jb_test_motorpid.c` (times 0, 10, 20, positions 0, 125, 75),
the position being the x_r column. -/
def test_table (K : Type) [LinearOrderedField K] : List (traj_row K) :=
  [⟨0, 0, 0, 0⟩, ⟨10, 125, 0, 0⟩, ⟨20, 75, 0, 0⟩]

/-- The zero-initialised `cstate`. -/
def cstate_zero (K : Type) [LinearOrderedField K] : core_state_t K where
  wheelAngle1 := 0
  wheelAngle2 := 0
  wheelAngle3 := 0
  wheelAngle4 := 0
  wheelAngle5 := 0
  d1_u := 0
  d4_u := 0
  d2_u := 0
  d3_u := 0
  d5_u := 0
  vBatt := 0
  x := 0
  y := 0
  x_r := 0
  y_r := 0
  z := 0
  theta := 0
  step := 0
  t_1 := 0
  t_2 := 0
  t_curr := 0
  v_xr_des := 0
  v_yr_des := 0
  v_z_des := 0

/-- An armed world on the first segment of `test_table`: battery at 12 V, the
trajectory clock started at 1000 ms, wheel targets at `sp`. -/
def armed_world (K M : Type) [LinearOrderedField K] (m : M) (sp : K) : World K M where
  cstate := { cstate_zero K with vBatt := 12, t_1 := 0, t_2 := 10 }
  setpoint := ⟨arm_state_t.ARMED, sp, sp, sp, sp, sp, 0, 0, 0, 0⟩
  D1 := ⟨0, m⟩
  D4 := ⟨0, m⟩
  D2 := ⟨0, m⟩
  D3 := ⟨0, m⟩
  D5 := ⟨0, m⟩
  test_start := 1000
  trajec_mat := test_table K
  rc_state := rc_state_t.RUNNING
  inner_saturation_counter := 0
  e_stop_switch := 1500
  hw := []

/-- A proportional filter without memory: the output is `gain * kp * input`. -/
def p_filter {K : Type} [LinearOrderedField K] (kp : K) : rc_filter_lib K Unit where
  march := fun g _ u => ((), g * kp * u)
  reset := fun _ => ()

/-- Radio input of one reader iteration with new data and the given e-stop
channel value. -/
def dsm_new_data (e_stop : Int) (nanos : Nat) : dsm_input where
  is_new_data := 1
  ch_raw := fun ch => if ch = 5 then e_stop else 1500
  is_connection_active := 1
  nanos := nanos

/-- Encoder readings: count `n` on channel `ch`, zero on the others. -/
def enc_single (ch : Int) (n : Int) : Int → Int := fun c => if c = ch then n else 0

/-- The zero-initialised `cstate` with `theta` set to `th`. -/
def cstate_theta (K : Type) [LinearOrderedField K] (th : K) : core_state_t K :=
  { cstate_zero K with theta := th }

/-- The armed world on the final segment of `test_table`, from 10 s to 20 s. -/
def armed_final (K M : Type) [LinearOrderedField K] (m : M) (sp : K) : World K M :=
  { armed_world K M m sp with
    cstate := { (armed_world K M m sp).cstate with step := 1, t_1 := 10, t_2 := 20 } }

/-- The world `w` with the three desired velocities set. -/
def with_v_des {K M : Type} (w : World K M) (vx vy vz : K) : World K M :=
  { w with cstate := { w.cstate with v_xr_des := vx, v_yr_des := vy, v_z_des := vz } }

/-- The armed world with a table of one row only. -/
def one_row_world (K M : Type) [LinearOrderedField K] (m : M) (sp : K) : World K M :=
  { armed_world K M m sp with trajec_mat := [⟨0, 0, 0, 0⟩] }

/-- An integrating filter: the memory is the sum of the inputs, the output is
`gain` times that sum, and the reset clears the sum. -/
def sum_filter {K : Type} [LinearOrderedField K] : rc_filter_lib K K where
  march := fun g m u => (m + u, g * (m + u))
  reset := fun _ => 0

/-- The loop of `__estop_reader` over the radio inputs of successive polls:
it stops iterating once the process state is EXITING. -/
def estop_reader {K M : Type} [LinearOrderedField K] (cfg : jb_main_defs K)
    (fl : rc_filter_lib K M) : List dsm_input → World K M → World K M
  | [], w => w
  | i :: is, w =>
    if w.rc_state = rc_state_t.EXITING then w
    else estop_reader cfg fl is (estop_reader_iter cfg fl i w)

/-- The world as `main` leaves it for the test table: disarmed, process state
RUNNING, `test_start` holding the boot clock in nanoseconds. -/
def main_world (K M : Type) [LinearOrderedField K] (m : M) (boot_ns : Nat) : World K M :=
  { armed_world K M m 0 with
    setpoint := ⟨arm_state_t.DISARMED, 0, 0, 0, 0, 0, 0, 0, 0, 0⟩
    test_start := boot_ns }

/-- The armed test world with stale segment times: `t_1 = 20` above `t_2 = 10`. -/
def stale_times_world (K M : Type) [LinearOrderedField K] (m : M) (sp : K) : World K M :=
  { armed_world K M m sp with
    cstate := { (armed_world K M m sp).cstate with t_1 := 20, t_2 := 10 } }

/-! ## The single-axis variant: `__traject_new` of `jb_test_motorpid.c` -/

namespace motorpid

/-- The struct `setpoint_t` of `jb_test_motorpid.c`. -/
structure setpoint_t (K : Type) where
  arm_state : arm_state_t
  wheelAngle1 : K
  x : K
  x_dot : K
  y : K
  y_dot : K
  z : K
  z_dot : K
  theta : K
  x_des : K

/-- The struct `core_state_t` of `jb_test_motorpid.c`. -/
structure core_state_t (K : Type) where
  wheelAngle1 : K
  wheelAngle2 : K
  wheelAngle3 : K
  wheelAngle4 : K
  wheelAngle5 : K
  d1_u : K
  x : K
  y : K
  x_r : K
  y_r : K
  z : K
  theta : K
  step : Int
  t_1 : K
  t_2 : K
  t_curr : Nat
  v_des : K

/-- One row of the two-column `trajec_mat`: time and position. -/
structure traj_row (K : Type) where
  t : K
  x : K

/-- The motor driver calls of `__disarm_controller`. -/
inductive hw_call where
  | rc_motor_standby (en : Int)
  | rc_motor_free_spin (ch : Int)

/-- The globals `__traject_new` reads or writes, the process state and the trace
of driver calls. -/
structure World (K : Type) where
  cstate : core_state_t K
  setpoint : setpoint_t K
  test_start : Nat
  trajec_mat : List (traj_row K)
  rc_state : rc_state_t
  hw : List hw_call

/-- The constant `ACCEL_MAX` of `jb_test_motorpid.c`. -/
def ACCEL_MAX (K : Type) [LinearOrderedField K] : K := 10

/-- The constant `DT` of `jb_test_motorpid.c`. -/
def DT (K : Type) [LinearOrderedField K] : K := 0.005

/-- Row `i` of the table, `none` outside the allocated rows. -/
def row_at {K : Type} (tbl : List (traj_row K)) (i : Int) : Option (traj_row K) :=
  if 0 ≤ i then tbl[i.toNat]? else none

/-- The field `rows` of the matrix. -/
def rows {K : Type} (tbl : List (traj_row K)) : Int := (tbl.length : Int)

/-- The function `__disarm_controller` of `jb_test_motorpid.c`. -/
def disarm_controller {K : Type} (w : World K) : World K :=
  { w with
    hw := w.hw ++ [hw_call.rc_motor_standby 1, hw_call.rc_motor_free_spin 0]
    setpoint := { w.setpoint with arm_state := arm_state_t.DISARMED } }

/-- Lines 356 to 363: the clock read and the check of the row count. -/
def traject_clock {K : Type} (nanos : Nat) (w : World K) : World K :=
  let w1 : World K := { w with cstate := { w.cstate with t_curr := nanos % U64 / 1000000 } }
  if rows w1.trajec_mat < 2 then disarm_controller w1 else w1

/-- The C expression `(cstate.t_curr - test_start) / 1000` of the segment
choice: subtraction and division are those of `uint64_t`, and the quotient is converted
for the comparison with a double. -/
def elapsed_whole_s {K : Type} [LinearOrderedField K] (t_curr test_start : Nat) : K :=
  ((((t_curr % U64 + U64 - test_start % U64) % U64) / 1000 : Nat) : K)

/-- Lines 365 to 387: the choice of the segment.  The boolean is `true` when the
function returns from the final-destination branch. -/
def traject_select {K : Type} [LinearOrderedField K] (w : World K) :
    Option (Bool × World K) :=
  match row_at w.trajec_mat (w.cstate.step + 1) with
  | none => none
  | some r1 =>
    if w.cstate.step + 2 < rows w.trajec_mat then
      if (elapsed_whole_s w.cstate.t_curr w.test_start : K) ≥ r1.t then
        match row_at w.trajec_mat (w.cstate.step + 1),
            row_at w.trajec_mat (w.cstate.step + 1 + 1) with
        | some ra, some rb =>
          some (false, { w with cstate := { w.cstate with
            step := w.cstate.step + 1, t_1 := ra.t, t_2 := rb.t } })
        | _, _ => none
      else some (false, w)
    else
      if (elapsed_whole_s w.cstate.t_curr w.test_start : K) ≥ r1.t then
        let w1 := disarm_controller w
        some (true, { w1 with
          cstate := { w1.cstate with v_des := 0 }
          rc_state := rc_state_t.EXITING })
      else some (false, w)

/-- The desired velocity, lines 401 to 417, from the stored segment times, the
signed displacement and the in-segment time. -/
def v_des {K : Type} [LinearOrderedField K] (lm : libm K) (t_1 t_2 x_diff t_test : K) : K :=
  let t_a := (t_2 - t_1 - lm.sqrt ((t_2 - t_1) ^ 2 - 4 * x_diff / ACCEL_MAX K)) / 2
  if t_test ≤ t_a then ACCEL_MAX K * t_test
  else if t_test ≥ t_2 - t_a then ACCEL_MAX K * (t_2 - t_test)
  else ACCEL_MAX K * t_a

/-- Lines 395 to 421, for the in-segment time `t_test` and the rows `ra`
(row `step`) and `rb` (row `step + 1`) of the table. -/
def traject_profile {K : Type} [LinearOrderedField K] (lm : libm K) (w : World K)
    (ra rb : traj_row K) (t_test : K) : World K :=
  let v := v_des lm w.cstate.t_1 w.cstate.t_2 (rb.x - ra.x) t_test
  { w with
    cstate := { w.cstate with v_des := v }
    setpoint := { w.setpoint with wheelAngle1 := w.setpoint.wheelAngle1 + v * DT K } }

/-- Lines 389 to 421: the time check, then the profile. -/
def traject_rest {K : Type} [LinearOrderedField K] (lm : libm K) (w : World K) :
    Option (World K) :=
  if w.cstate.t_1 > w.cstate.t_2 then some w
  else
    match row_at w.trajec_mat (w.cstate.step + 1), row_at w.trajec_mat w.cstate.step with
    | some rb, some ra =>
      some (traject_profile lm w ra rb (elapsed_s w.cstate.t_curr w.test_start - ra.t))
    | _, _ => none

/-- The function `__traject_new` of `jb_test_motorpid.c`. -/
def traject_new {K : Type} [LinearOrderedField K] (lm : libm K) (nanos : Nat) (w : World K) :
    Option (World K) :=
  match traject_select (traject_clock nanos w) with
  | none => none
  | some (true, w1) => some w1
  | some (false, w1) => traject_rest lm w1

/-- A world of `jb_test_motorpid.c` on the table `tbl`: armed, at `step` with the
stored times `t_1`, `t_2`, the clock origin at 1000 ms and the clock at `t_curr` ms. -/
def test_world (K : Type) [LinearOrderedField K] (tbl : List (traj_row K)) (step : Int)
    (t_1 t_2 : K) (t_curr : Nat) : World K where
  cstate := ⟨0, 0, 0, 0, 0, 0, 0, 0, 0, 0, 0, 0, step, t_1, t_2, t_curr, 0⟩
  setpoint := ⟨arm_state_t.ARMED, 0, 0, 0, 0, 0, 0, 0, 0, 0⟩
  test_start := 1000
  trajec_mat := tbl
  rc_state := rc_state_t.RUNNING
  hw := []

/-- The table `main` of `jb_test_motorpid.c` fills in: times 0, 10, 20 and
positions 0, 125, 75. -/
def test_table (K : Type) [LinearOrderedField K] : List (traj_row K) :=
  [⟨0, 0⟩, ⟨10, 125⟩, ⟨20, 75⟩]

end motorpid

/-! ## The segment decision of the two variants -/

/-- What the segment choice decides. -/
inductive seg_decision where
  | advance
  | terminate
  | hold
  deriving DecidableEq, Repr

/-- The decision of the segment choice of `jb_main.c`, read off its result. -/
def segment_decision {K M : Type} [LinearOrderedField K] (w : World K M) :
    Option seg_decision :=
  match traject_select w with
  | none => none
  | some (true, _) => some seg_decision.terminate
  | some (false, w1) =>
    if w1.cstate.step = w.cstate.step then some seg_decision.hold
    else some seg_decision.advance

/-- The decision of the segment choice of `jb_test_motorpid.c`, read off its
result. -/
def motorpid_decision {K : Type} [LinearOrderedField K] (w : motorpid.World K) :
    Option seg_decision :=
  match motorpid.traject_select w with
  | none => none
  | some (true, _) => some seg_decision.terminate
  | some (false, w1) =>
    if w1.cstate.step = w.cstate.step then some seg_decision.hold
    else some seg_decision.advance

/-- A world of `jb_main.c` on the table with times 0, 10.5 and 20, its clock at
`t_curr` ms. -/
def half_second_world (K M : Type) [LinearOrderedField K] (m : M) (t_curr : Nat) :
    World K M :=
  { armed_world K M m 0 with
    trajec_mat := [⟨0, 0, 0, 0⟩, ⟨10.5, 125, 0, 0⟩, ⟨20, 75, 0, 0⟩]
    cstate := { (armed_world K M m 0).cstate with t_2 := 10.5, t_curr := t_curr } }

/-- The armed test world with the saturation counter at `c`. -/
def armed_world_counting (K M : Type) [LinearOrderedField K] (m : M) (c : Int) : World K M :=
  { armed_world K M m 0 with inner_saturation_counter := c }

/-- The armed test world of `jb_main.c` with its clock at `t_curr` ms. -/
def armed_world_at (K M : Type) [LinearOrderedField K] (m : M) (t_curr : Nat) : World K M :=
  { armed_world K M m 0 with
    cstate := { (armed_world K M m 0).cstate with t_curr := t_curr } }

/-! # Theorems -/

/-! ## Table reads -/

theorem row_at_bounds {K : Type} {tbl : List (traj_row K)} {i : Int} {r : traj_row K}
    (h : row_at tbl i = some r) : 0 ≤ i ∧ i < rows tbl := by
  unfold row_at at h
  split at h
  · rename_i hi
    have hlt : i.toNat < tbl.length := by
      by_contra hc
      rw [List.getElem?_eq_none (Nat.le_of_not_lt hc)] at h
      exact Option.noConfusion h
    refine ⟨hi, ?_⟩
    unfold rows
    omega
  · exact Option.noConfusion h

theorem row_at_defined {K : Type} (tbl : List (traj_row K)) (i : Int)
    (h0 : 0 ≤ i) (h1 : i < rows tbl) : ∃ r, row_at tbl i = some r := by
  unfold rows at h1
  have hlt : i.toNat < tbl.length := by omega
  exact ⟨tbl[i.toNat], by simp [row_at, h0, List.getElem?_eq_getElem hlt]⟩

theorem traject_clock_of_rows {K M : Type} (nanos : Nat) (w : World K M)
    (h : 2 ≤ rows w.trajec_mat) :
    traject_clock nanos w =
      { w with cstate := { w.cstate with t_curr := nanos % U64 / 1000000 } } := by
  unfold traject_clock
  simp only
  rw [if_neg (by omega)]


theorem traject_rest_defined {K M : Type} [LinearOrderedField K] (cfg : jb_main_defs K)
    (lm : libm K) (w : World K M) (h0 : 0 ≤ w.cstate.step)
    (h1 : w.cstate.step + 1 < rows w.trajec_mat) :
    ∃ w1, traject_rest cfg lm w = some w1 ∧ w1.cstate.step = w.cstate.step ∧
      w1.cstate.t_1 = w.cstate.t_1 ∧ w1.cstate.t_2 = w.cstate.t_2 ∧
      w1.trajec_mat = w.trajec_mat ∧ w1.test_start = w.test_start ∧
      w1.setpoint.arm_state = w.setpoint.arm_state ∧ w1.rc_state = w.rc_state := by
  obtain ⟨ra, hra⟩ := row_at_defined w.trajec_mat w.cstate.step h0 (by omega)
  obtain ⟨rb, hrb⟩ := row_at_defined w.trajec_mat (w.cstate.step + 1) (by omega) h1
  unfold traject_rest
  by_cases ht : w.cstate.t_1 > w.cstate.t_2
  · rw [if_pos ht]
    exact ⟨w, rfl, rfl, rfl, rfl, rfl, rfl, rfl, rfl⟩
  · rw [if_neg ht, hra, hrb]
    exact ⟨_, rfl, rfl, rfl, rfl, rfl, rfl, rfl, rfl⟩

theorem traject_select_advance {K M : Type} [LinearOrderedField K] (w : World K M)
    (r1 r2 : traj_row K) (hr1 : row_at w.trajec_mat (w.cstate.step + 1) = some r1)
    (hr2 : row_at w.trajec_mat (w.cstate.step + 2) = some r2)
    (hnow : elapsed_s w.cstate.t_curr w.test_start ≥ r1.t) :
    traject_select w = some (false, { w with cstate := { w.cstate with
      step := w.cstate.step + 1, t_1 := r1.t, t_2 := r2.t } }) := by
  have hlt : w.cstate.step + 2 < rows w.trajec_mat := (row_at_bounds hr2).2
  have hr2b : row_at w.trajec_mat (w.cstate.step + 1 + 1) = some r2 := by
    rw [← hr2]; congr 1; ring
  unfold traject_select
  simp only [hr1, hr2b]
  rw [if_pos hlt, if_pos hnow]

theorem traject_select_final {K M : Type} [LinearOrderedField K] (w : World K M)
    (r1 : traj_row K) (hr1 : row_at w.trajec_mat (w.cstate.step + 1) = some r1)
    (hge : rows w.trajec_mat ≤ w.cstate.step + 2)
    (hnow : elapsed_s w.cstate.t_curr w.test_start ≥ r1.t) :
    traject_select w = some (true, { disarm_controller w with
      cstate := { w.cstate with v_xr_des := 0, v_yr_des := 0 }
      rc_state := rc_state_t.EXITING }) := by
  unfold traject_select
  simp only [hr1]
  rw [if_neg (by omega), if_pos hnow]
  rfl

theorem traject_select_hold {K M : Type} [LinearOrderedField K] (w : World K M)
    (r1 : traj_row K) (hr1 : row_at w.trajec_mat (w.cstate.step + 1) = some r1)
    (hnow : elapsed_s w.cstate.t_curr w.test_start < r1.t) :
    traject_select w = some (false, w) := by
  unfold traject_select
  simp only [hr1]
  rw [if_neg (not_le.mpr hnow), if_neg (not_le.mpr hnow)]
  simp

theorem times_nondecreasing_adjacent {K : Type} [LinearOrderedField K] :
    ∀ (tbl : List (traj_row K)) (i : Nat) (a b : traj_row K), times_nondecreasing tbl →
      tbl[i]? = some a → tbl[i + 1]? = some b → a.t ≤ b.t
  | [], _, _, _, _, ha, _ => by simp at ha
  | [_], i, _, _, _, _, hb => by simp at hb
  | x :: y :: l, 0, a, b, h, ha, hb => by
    simp only [List.getElem?_cons_zero, List.getElem?_cons_succ, Option.some.injEq] at ha hb
    rw [← ha, ← hb]
    exact h.1
  | x :: y :: l, i + 1, a, b, h, ha, hb => by
    rw [List.getElem?_cons_succ] at ha hb
    exact times_nondecreasing_adjacent (y :: l) i a b h.2 ha hb

theorem row_at_succ_le {K : Type} [LinearOrderedField K] (tbl : List (traj_row K)) (i : Int)
    (a b : traj_row K) (h : times_nondecreasing tbl) (ha : row_at tbl i = some a)
    (hb : row_at tbl (i + 1) = some b) : a.t ≤ b.t := by
  have h0 := (row_at_bounds ha).1
  unfold row_at at ha hb
  rw [if_pos h0] at ha
  rw [if_pos (by omega)] at hb
  have he : (i + 1).toNat = i.toNat + 1 := by omega
  rw [he] at hb
  exact times_nondecreasing_adjacent tbl i.toNat a b h ha hb

theorem traject_clock_frame {K M : Type} (nanos : Nat) (w : World K M)
    (h : 2 ≤ rows w.trajec_mat) :
    (traject_clock nanos w).trajec_mat = w.trajec_mat ∧
      (traject_clock nanos w).cstate.step = w.cstate.step ∧
      (traject_clock nanos w).cstate.t_1 = w.cstate.t_1 ∧
      (traject_clock nanos w).cstate.t_2 = w.cstate.t_2 := by
  rw [traject_clock_of_rows nanos w h]
  exact ⟨rfl, rfl, rfl, rfl⟩

/-- The segment choice on a valid `step`: it is defined, and it either keeps
`step`, `t_1`, `t_2` or moves all three to the next segment. -/
theorem traject_select_cases {K M : Type} [LinearOrderedField K] (w : World K M)
    (h : step_in_table w) :
    ∃ b w1, traject_select w = some (b, w1) ∧ w1.trajec_mat = w.trajec_mat ∧
      ((w1.cstate.step = w.cstate.step ∧ w1.cstate.t_1 = w.cstate.t_1 ∧
          w1.cstate.t_2 = w.cstate.t_2) ∨
        (b = false ∧ w1.cstate.step = w.cstate.step + 1 ∧
          w.cstate.step + 2 < rows w.trajec_mat ∧
          ∃ r1 r2, row_at w.trajec_mat (w.cstate.step + 1) = some r1 ∧
            row_at w.trajec_mat (w.cstate.step + 2) = some r2 ∧
            w1.cstate.t_1 = r1.t ∧ w1.cstate.t_2 = r2.t)) := by
  obtain ⟨h0, h2⟩ := h
  obtain ⟨r1, hr1⟩ := row_at_defined w.trajec_mat (w.cstate.step + 1) (by omega) (by omega)
  by_cases hnow : elapsed_s w.cstate.t_curr w.test_start ≥ r1.t
  · by_cases hlt : w.cstate.step + 2 < rows w.trajec_mat
    · obtain ⟨r2, hr2⟩ := row_at_defined w.trajec_mat (w.cstate.step + 2) (by omega) hlt
      exact ⟨false, _, traject_select_advance w r1 r2 hr1 hr2 hnow, rfl,
        Or.inr ⟨rfl, rfl, hlt, r1, r2, hr1, hr2, rfl, rfl⟩⟩
    · exact ⟨true, _, traject_select_final w r1 hr1 (by omega) hnow, rfl,
        Or.inl ⟨rfl, rfl, rfl⟩⟩
  · exact ⟨false, w, traject_select_hold w r1 hr1 (not_le.mp hnow), rfl,
      Or.inl ⟨rfl, rfl, rfl⟩⟩

/-- One call on a valid `step` in a table of at least 2 rows: it is defined,
and it either keeps `step`, `t_1`, `t_2` or moves all three to the next segment. -/
theorem traject_new_cases {K M : Type} [LinearOrderedField K] (cfg : jb_main_defs K)
    (lm : libm K) (nanos : Nat) (w : World K M) (h : step_in_table w) :
    ∃ w1, traject_new cfg lm nanos w = some w1 ∧ w1.trajec_mat = w.trajec_mat ∧
      ((w1.cstate.step = w.cstate.step ∧ w1.cstate.t_1 = w.cstate.t_1 ∧
          w1.cstate.t_2 = w.cstate.t_2) ∨
        (w1.cstate.step = w.cstate.step + 1 ∧ w.cstate.step + 2 < rows w.trajec_mat ∧
          ∃ r1 r2, row_at w.trajec_mat (w.cstate.step + 1) = some r1 ∧
            row_at w.trajec_mat (w.cstate.step + 2) = some r2 ∧
            w1.cstate.t_1 = r1.t ∧ w1.cstate.t_2 = r2.t)) := by
  have hrows : 2 ≤ rows w.trajec_mat := by
    have := h.1
    have := h.2
    omega
  obtain ⟨ft, fs, f1, f2⟩ := traject_clock_frame nanos w hrows
  have hc : step_in_table (traject_clock nanos w) := by
    unfold step_in_table
    rw [ft, fs]
    exact h
  obtain ⟨b, w1, hsel, htbl, hcase⟩ := traject_select_cases (traject_clock nanos w) hc
  have hcase1 : (w1.cstate.step = w.cstate.step ∧ w1.cstate.t_1 = w.cstate.t_1 ∧
          w1.cstate.t_2 = w.cstate.t_2) ∨
        (b = false ∧ w1.cstate.step = w.cstate.step + 1 ∧
          w.cstate.step + 2 < rows w.trajec_mat ∧
          ∃ r1 r2, row_at w.trajec_mat (w.cstate.step + 1) = some r1 ∧
            row_at w.trajec_mat (w.cstate.step + 2) = some r2 ∧
            w1.cstate.t_1 = r1.t ∧ w1.cstate.t_2 = r2.t) := by
    rw [ft, fs, f1, f2] at hcase
    exact hcase
  have hin1 : 0 ≤ w1.cstate.step ∧ w1.cstate.step + 1 < rows w1.trajec_mat := by
    rw [htbl, ft]
    have := h.1
    have := h.2
    rcases hcase1 with ⟨e, -, -⟩ | ⟨-, e, hlt, -⟩ <;> rw [e] <;> constructor <;> omega
  cases b with
  | true =>
    refine ⟨w1, ?_, htbl.trans ft, ?_⟩
    · unfold traject_new
      rw [hsel]
    · rcases hcase1 with hk | ⟨hb, -⟩
      · exact Or.inl hk
      · exact Bool.noConfusion hb
  | false =>
    obtain ⟨w2, hw2, g1, g2, g3, g4, -⟩ := traject_rest_defined cfg lm w1 hin1.1 hin1.2
    refine ⟨w2, ?_, ?_, ?_⟩
    · unfold traject_new
      rw [hsel]
      exact hw2
    · rw [g4, htbl, ft]
    · rw [g1, g2, g3]
      rcases hcase1 with hk | ⟨-, hk⟩
      · exact Or.inl hk
      · exact Or.inr hk

theorem traject_new_keeps_step_in_table {K M : Type} [LinearOrderedField K]
    (cfg : jb_main_defs K) (lm : libm K) (nanos : Nat) (w : World K M)
    (h : step_in_table w) :
    ∃ w1, traject_new cfg lm nanos w = some w1 ∧ w1.trajec_mat = w.trajec_mat ∧
      step_in_table w1 ∧ w.cstate.step ≤ w1.cstate.step ∧
      (times_of_step w → times_of_step w1) := by
  obtain ⟨w1, hw1, htbl, hcase⟩ := traject_new_cases cfg lm nanos w h
  refine ⟨w1, hw1, htbl, ?_, ?_, ?_⟩
  · unfold step_in_table
    rw [htbl]
    have := h.1
    have := h.2
    rcases hcase with ⟨e, -, -⟩ | ⟨e, hlt, -⟩ <;> rw [e] <;> constructor <;> omega
  · rcases hcase with ⟨e, -, -⟩ | ⟨e, -, -⟩ <;> omega
  · intro ht
    unfold times_of_step
    rw [htbl]
    rcases hcase with ⟨e, e1, e2⟩ | ⟨e, -, r1, r2, hr1, hr2, e1, e2⟩
    · rw [e, e1, e2]
      exact ht
    · rw [e, e1, e2]
      refine ⟨r1, r2, hr1, ?_, rfl, rfl⟩
      rw [← hr2]
      congr 1
      ring

theorem traject_run_keeps_step_in_table {K M : Type} [LinearOrderedField K]
    (cfg : jb_main_defs K) (lm : libm K) :
    ∀ (ns : List Nat) (w : World K M), step_in_table w →
      ∃ w1, traject_run cfg lm ns w = some w1 ∧ w1.trajec_mat = w.trajec_mat ∧
        step_in_table w1 ∧ w.cstate.step ≤ w1.cstate.step ∧
        (times_of_step w → times_of_step w1)
  | [], w, h => ⟨w, rfl, rfl, h, le_refl _, fun ht => ht⟩
  | n :: ns, w, h => by
    obtain ⟨w1, hw1, htbl1, hin1, hle1, ht1⟩ :=
      traject_new_keeps_step_in_table cfg lm n w h
    obtain ⟨w2, hw2, htbl2, hin2, hle2, ht2⟩ :=
      traject_run_keeps_step_in_table cfg lm ns w1 hin1
    refine ⟨w2, ?_, htbl2.trans htbl1, hin2, le_trans hle1 hle2, fun ht => ht2 (ht1 ht)⟩
    unfold traject_run
    rw [hw1]
    exact hw2

theorem times_of_step_le {K M : Type} [LinearOrderedField K] (w : World K M)
    (hs : times_nondecreasing w.trajec_mat) (ht : times_of_step w) :
    w.cstate.t_1 ≤ w.cstate.t_2 := by
  obtain ⟨ra, rb, hra, hrb, e1, e2⟩ := ht
  rw [e1, e2]
  exact row_at_succ_le w.trajec_mat w.cstate.step ra rb hs hra hrb


/-- C2: for a table of at least 2 rows and a valid `step`, with
`now = (t_curr - test_start) / 1000`: if `now ≥ time[step+1]` and `step + 2 < rows`, the call
advances `step` by one and sets `t_1 = time[step+1]`, `t_2 = time[step+2]`; if
`now ≥ time[step+1]` on the final segment, the call disarms, sets the process state to
EXITING and changes no setpoint wheel target; if `now < time[step+1]`, `step`, `t_1` and
`t_2` are unchanged. -/
theorem traject_new_segment_choice {K M : Type} [LinearOrderedField K] (cfg : jb_main_defs K) (lm : libm K)
    (nanos : Nat) (w : World K M) (r1 : traj_row K)
    (hrows : 2 ≤ rows w.trajec_mat) (hstep : 0 ≤ w.cstate.step)
    (hr1 : row_at w.trajec_mat (w.cstate.step + 1) = some r1) :
    (elapsed_s (nanos % U64 / 1000000) w.test_start ≥ r1.t →
      w.cstate.step + 2 < rows w.trajec_mat →
      ∃ w1 r2, traject_new cfg lm nanos w = some w1 ∧
        row_at w.trajec_mat (w.cstate.step + 2) = some r2 ∧
        w1.cstate.step = w.cstate.step + 1 ∧ w1.cstate.t_1 = r1.t ∧ w1.cstate.t_2 = r2.t) ∧
    (elapsed_s (nanos % U64 / 1000000) w.test_start ≥ r1.t →
      rows w.trajec_mat ≤ w.cstate.step + 2 →
      ∃ w1, traject_new cfg lm nanos w = some w1 ∧
        w1.setpoint.arm_state = arm_state_t.DISARMED ∧ w1.rc_state = rc_state_t.EXITING ∧
        w1.setpoint.wheelAngle1 = w.setpoint.wheelAngle1 ∧
        w1.setpoint.wheelAngle2 = w.setpoint.wheelAngle2 ∧
        w1.setpoint.wheelAngle3 = w.setpoint.wheelAngle3 ∧
        w1.setpoint.wheelAngle4 = w.setpoint.wheelAngle4 ∧
        w1.setpoint.wheelAngle5 = w.setpoint.wheelAngle5) ∧
    (elapsed_s (nanos % U64 / 1000000) w.test_start < r1.t →
      ∃ w1, traject_new cfg lm nanos w = some w1 ∧
        w1.cstate.step = w.cstate.step ∧ w1.cstate.t_1 = w.cstate.t_1 ∧
        w1.cstate.t_2 = w.cstate.t_2) := by
  have hb := (row_at_bounds hr1).2
  have hc := traject_clock_of_rows nanos w hrows
  refine ⟨?_, ?_, ?_⟩
  · intro hnow hlt
    obtain ⟨r2, hr2⟩ := row_at_defined w.trajec_mat (w.cstate.step + 2) (by omega) hlt
    have hs := traject_select_advance (traject_clock nanos w) r1 r2
      (by rw [hc]; exact hr1) (by rw [hc]; exact hr2) (by rw [hc]; exact hnow)
    obtain ⟨w1, hw1, h1, h2, h3, -⟩ := traject_rest_defined cfg lm
      { traject_clock nanos w with cstate := { (traject_clock nanos w).cstate with
        step := (traject_clock nanos w).cstate.step + 1, t_1 := r1.t, t_2 := r2.t } }
      (by rw [hc]; show 0 ≤ w.cstate.step + 1; omega)
      (by rw [hc]; show w.cstate.step + 1 + 1 < rows w.trajec_mat; omega)
    refine ⟨w1, r2, ?_, hr2, ?_, h2, h3⟩
    · unfold traject_new
      rw [hs]
      exact hw1
    · rw [h1, hc]
  · intro hnow hge
    have hs := traject_select_final (traject_clock nanos w) r1
      (by rw [hc]; exact hr1) (by rw [hc]; exact hge) (by rw [hc]; exact hnow)
    refine ⟨{ disarm_controller (traject_clock nanos w) with
      cstate := { (traject_clock nanos w).cstate with v_xr_des := 0, v_yr_des := 0 }
      rc_state := rc_state_t.EXITING }, ?_, ?_⟩
    · unfold traject_new
      rw [hs]
    · rw [hc]
      exact ⟨rfl, rfl, rfl, rfl, rfl, rfl, rfl⟩
  · intro hnow
    have hs := traject_select_hold (traject_clock nanos w) r1
      (by rw [hc]; exact hr1) (by rw [hc]; exact hnow)
    obtain ⟨w1, hw1, h1, h2, h3, -⟩ := traject_rest_defined cfg lm (traject_clock nanos w)
      (by rw [hc]; exact hstep) (by rw [hc]; exact hb)
    refine ⟨w1, ?_, ?_, ?_, ?_⟩
    · unfold traject_new
      rw [hs]
      exact hw1
    · rw [h1, hc]
    · rw [h2, hc]
    · rw [h3, hc]

/-- C2, at a concrete input: 4 s into the first segment of the test table the
call keeps `step = 0`, `t_1 = 0` and `t_2 = 10`. -/
theorem traject_new_segment_choice_witness : 2 ≤ rows (armed_world ℝ Unit () 0).trajec_mat ∧
    0 ≤ (armed_world ℝ Unit () 0).cstate.step ∧
    ∃ w1, traject_new (test_defs ℝ Real.pi) ⟨Real.sqrt, Real.cos, Real.sin, Real.pi⟩
        5000000000 (armed_world ℝ Unit () 0) = some w1 ∧
      w1.cstate.step = 0 ∧ w1.cstate.t_1 = 0 ∧ w1.cstate.t_2 = 10 :=
  ⟨by simp [rows, armed_world, test_table], by simp [armed_world, cstate_zero],
    (traject_new_segment_choice (test_defs ℝ Real.pi) ⟨Real.sqrt, Real.cos, Real.sin, Real.pi⟩
      5000000000 (armed_world ℝ Unit () 0) ⟨10, 125, 0, 0⟩
      (by simp [rows, armed_world, test_table]) (by simp [armed_world, cstate_zero])
      (by simp [row_at, armed_world, test_table, cstate_zero])).2.2
      (by norm_num [elapsed_s, U64, armed_world])⟩

/-- C3: an iteration of the reader loop that starts ARMED and either reads new
data with a clamped e-stop value below 1100, or reads no new data while the link is
inactive, ends with `arm_state` DISARMED and the process state EXITING. -/
theorem estop_reader_stops_when_armed {K M : Type} [LinearOrderedField K] (cfg : jb_main_defs K)
    (fl : rc_filter_lib K M) (inp : dsm_input) (w : World K M)
    (harmed : w.setpoint.arm_state = arm_state_t.ARMED)
    (hstop : (inp.is_new_data ≠ 0 ∧
        rc_saturate_double ((inp.ch_raw 5 : Int) : K) 900 2100 < 1100) ∨
      (inp.is_new_data = 0 ∧ inp.is_connection_active = 0)) :
    (estop_reader_iter cfg fl inp w).setpoint.arm_state = arm_state_t.DISARMED ∧
      (estop_reader_iter cfg fl inp w).rc_state = rc_state_t.EXITING := by
  rcases hstop with ⟨hnew, hlow⟩ | ⟨hold, hlink⟩
  · have hng : ¬ (rc_saturate_double ((inp.ch_raw 5 : Int) : K) 900 2100 ≥ 1100) :=
      not_le.mpr hlow
    simp [estop_reader_iter, hnew, hng, hlow, harmed, disarm_controller]
  · simp [estop_reader_iter, hold, hlink, harmed, disarm_controller]

/-- C3, at a concrete input: an e-stop channel value of 1000 while armed. -/
theorem estop_reader_stops_when_armed_witness :
    (estop_reader_iter (test_defs ℝ Real.pi) (p_filter 10) (dsm_new_data 1000 7000000000)
      (armed_world ℝ Unit () 0)).setpoint.arm_state = arm_state_t.DISARMED ∧
    (estop_reader_iter (test_defs ℝ Real.pi) (p_filter 10) (dsm_new_data 1000 7000000000)
      (armed_world ℝ Unit () 0)).rc_state = rc_state_t.EXITING :=
  estop_reader_stops_when_armed (test_defs ℝ Real.pi) (p_filter 10) (dsm_new_data 1000 7000000000)
    (armed_world ℝ Unit () 0) rfl
    (Or.inl ⟨by decide, by norm_num [rc_saturate_double, dsm_new_data]⟩)

/-- C5: for a table of at least 2 rows, along every sequence of `__traject_new`
calls from `step = 0` with any clock values, every call is defined (each row it reads
exists), `step` never decreases, and `0 ≤ step ≤ rows - 2` before and after the call. -/
theorem traject_step_monotone_bounded {K M : Type} [LinearOrderedField K]
    (cfg : jb_main_defs K) (lm : libm K) (w0 : World K M)
    (hrows : 2 ≤ rows w0.trajec_mat) (hstep : w0.cstate.step = 0)
    (ns : List Nat) (n : Nat) :
    ∃ w1 w2 ra rb, traject_run cfg lm ns w0 = some w1 ∧
      traject_new cfg lm n w1 = some w2 ∧
      w1.trajec_mat = w0.trajec_mat ∧ w2.trajec_mat = w0.trajec_mat ∧
      0 ≤ w1.cstate.step ∧ w1.cstate.step ≤ w2.cstate.step ∧
      w2.cstate.step ≤ rows w0.trajec_mat - 2 ∧
      row_at w0.trajec_mat w1.cstate.step = some ra ∧
      row_at w0.trajec_mat (w1.cstate.step + 1) = some rb := by
  have h0 : step_in_table w0 := by
    unfold step_in_table
    rw [hstep]
    constructor <;> omega
  obtain ⟨w1, hw1, htbl1, hin1, -, -⟩ := traject_run_keeps_step_in_table cfg lm ns w0 h0
  obtain ⟨w2, hw2, htbl2, hin2, hle2, -⟩ := traject_new_keeps_step_in_table cfg lm n w1 hin1
  have hb1 := hin1
  have hb2 := hin2
  unfold step_in_table at hb1 hb2
  rw [htbl1] at hb1
  rw [htbl2, htbl1] at hb2
  obtain ⟨ra, hra⟩ := row_at_defined w0.trajec_mat w1.cstate.step hb1.1 (by omega)
  obtain ⟨rb, hrb⟩ := row_at_defined w0.trajec_mat (w1.cstate.step + 1) (by omega) (by omega)
  exact ⟨w1, w2, ra, rb, hw1, hw2, htbl1, htbl2.trans htbl1, hb1.1, hle2, by omega, hra, hrb⟩

/-- C5, at a concrete input: three calls at 5 s, 12 s and 30 s on the test table,
then one more at 40 s. -/
theorem traject_step_monotone_bounded_witness :
    2 ≤ rows (armed_world ℝ Unit () 0).trajec_mat ∧
    ∃ w1 w2 ra rb, traject_run (test_defs ℝ Real.pi) ⟨Real.sqrt, Real.cos, Real.sin, Real.pi⟩
        [5000000000, 12000000000, 30000000000] (armed_world ℝ Unit () 0) = some w1 ∧
      traject_new (test_defs ℝ Real.pi) ⟨Real.sqrt, Real.cos, Real.sin, Real.pi⟩ 40000000000 w1
        = some w2 ∧
      w1.trajec_mat = (armed_world ℝ Unit () 0).trajec_mat ∧
      w2.trajec_mat = (armed_world ℝ Unit () 0).trajec_mat ∧
      0 ≤ w1.cstate.step ∧ w1.cstate.step ≤ w2.cstate.step ∧
      w2.cstate.step ≤ rows (armed_world ℝ Unit () 0).trajec_mat - 2 ∧
      row_at (armed_world ℝ Unit () 0).trajec_mat w1.cstate.step = some ra ∧
      row_at (armed_world ℝ Unit () 0).trajec_mat (w1.cstate.step + 1) = some rb :=
  ⟨by simp [rows, armed_world, test_table],
    traject_step_monotone_bounded (test_defs ℝ Real.pi) ⟨Real.sqrt, Real.cos, Real.sin, Real.pi⟩
      (armed_world ℝ Unit () 0) (by simp [rows, armed_world, test_table])
      (by simp [armed_world, cstate_zero]) [5000000000, 12000000000, 30000000000] 40000000000⟩

/-- C6: for a table with non-decreasing waypoint times, starting from `step = 0`,
`t_1 = time[0]`, `t_2 = time[1]`, after every sequence of `__traject_new` calls
`t_1 = time[step]`, `t_2 = time[step+1]` and `t_1 ≤ t_2`, and in the next call the test
`t_1 > t_2` of the time check is false. -/
theorem traject_times_ordered {K M : Type} [LinearOrderedField K]
    (cfg : jb_main_defs K) (lm : libm K) (w0 : World K M) (r0 r1 : traj_row K)
    (hsorted : times_nondecreasing w0.trajec_mat) (hstep : w0.cstate.step = 0)
    (h0 : row_at w0.trajec_mat 0 = some r0) (h1 : row_at w0.trajec_mat 1 = some r1)
    (ht1 : w0.cstate.t_1 = r0.t) (ht2 : w0.cstate.t_2 = r1.t)
    (ns : List Nat) (n : Nat) :
    ∃ w1 b w2, traject_run cfg lm ns w0 = some w1 ∧ times_of_step w1 ∧
      w1.cstate.t_1 ≤ w1.cstate.t_2 ∧
      traject_select (traject_clock n w1) = some (b, w2) ∧
      ¬ (w2.cstate.t_1 > w2.cstate.t_2) := by
  have hrows : 2 ≤ rows w0.trajec_mat := by
    have := (row_at_bounds h1).2
    omega
  have hin0 : step_in_table w0 := by
    unfold step_in_table
    rw [hstep]
    constructor <;> omega
  have hts0 : times_of_step w0 := by
    unfold times_of_step
    rw [hstep]
    exact ⟨r0, r1, h0, h1, ht1, ht2⟩
  obtain ⟨w1, hw1, htbl1, hin1, -, hts1⟩ := traject_run_keeps_step_in_table cfg lm ns w0 hin0
  have hs1 : times_nondecreasing w1.trajec_mat := by rw [htbl1]; exact hsorted
  have hle1 := times_of_step_le w1 hs1 (hts1 hts0)
  have hrows1 : 2 ≤ rows w1.trajec_mat := by rw [htbl1]; exact hrows
  obtain ⟨ft, fs, f1, f2⟩ := traject_clock_frame n w1 hrows1
  have hc : step_in_table (traject_clock n w1) := by
    unfold step_in_table
    rw [ft, fs]
    exact hin1
  obtain ⟨b, w2, hsel, -, hcase⟩ := traject_select_cases (traject_clock n w1) hc
  refine ⟨w1, b, w2, hw1, hts1 hts0, hle1, hsel, not_lt.mpr ?_⟩
  rw [ft, fs, f1, f2] at hcase
  rcases hcase with ⟨-, e1, e2⟩ | ⟨-, -, -, ra, rb, hra, hrb, e1, e2⟩
  · rw [e1, e2]
    exact hle1
  · rw [e1, e2]
    refine row_at_succ_le w1.trajec_mat (w1.cstate.step + 1) ra rb hs1 hra ?_
    rw [← hrb]
    congr 1
    ring

/-- C6, at a concrete input: the test table, whose times 0, 10, 20 are
non-decreasing, with calls at 5 s, 12 s and then 30 s. -/
theorem traject_times_ordered_witness :
    times_nondecreasing (armed_world ℝ Unit () 0).trajec_mat ∧
    ∃ w1 b w2, traject_run (test_defs ℝ Real.pi) ⟨Real.sqrt, Real.cos, Real.sin, Real.pi⟩
        [5000000000, 12000000000] (armed_world ℝ Unit () 0) = some w1 ∧
      times_of_step w1 ∧ w1.cstate.t_1 ≤ w1.cstate.t_2 ∧
      traject_select (traject_clock 30000000000 w1) = some (b, w2) ∧
      ¬ (w2.cstate.t_1 > w2.cstate.t_2) :=
  ⟨by norm_num [times_nondecreasing, armed_world, test_table],
    traject_times_ordered (test_defs ℝ Real.pi) ⟨Real.sqrt, Real.cos, Real.sin, Real.pi⟩
      (armed_world ℝ Unit () 0) ⟨0, 0, 0, 0⟩ ⟨10, 125, 0, 0⟩
      (by norm_num [times_nondecreasing, armed_world, test_table])
      (by simp [armed_world, cstate_zero])
      (by simp [row_at, armed_world, test_table])
      (by simp [row_at, armed_world, test_table])
      (by simp [armed_world, cstate_zero])
      (by simp [armed_world, cstate_zero])
      [5000000000, 12000000000] 30000000000⟩

/-! ## The trapezoidal profile -/

theorem c_sign_mul_abs {K : Type} [LinearOrderedField K] (d : K) :
    d * ((c_sign d : Int) : K) = |d| ∧ ((c_sign d : Int) : K) * |d| = d := by
  unfold c_sign
  rcases lt_trichotomy d 0 with h | h | h
  · have h2 : ¬ (d > 0) := not_lt.mpr h.le
    simp [h, h2, abs_of_neg h]
  · simp [h]
  · have h2 : ¬ (d < 0) := not_lt.mpr h.le
    simp [h, h2, abs_of_pos h]

theorem trapezoid_eq_min {K : Type} [LinearOrderedField K] (c dt t_a t : K)
    (h : t_a ≤ dt - t_a) : trapezoid c dt t_a t = c * min t (min t_a (dt - t)) := by
  unfold trapezoid
  split_ifs with h1 h2
  · rw [min_eq_left (le_min h1 (by linarith))]
  · have h3 : dt - t ≤ t_a := by linarith
    rw [min_eq_right h3, min_eq_right (by linarith)]
  · have h1b : t_a ≤ t := (not_le.mp h1).le
    have h2b : t_a ≤ dt - t := by linarith [not_le.mp h2]
    rw [min_eq_left h2b, min_eq_right h1b]

theorem t_accel_bounds (lm : libm ℝ) (hsqrt : lm.sqrt = Real.sqrt) (dt d a : ℝ)
    (ha : 0 < a) (hdt : 0 < dt) (hd : 0 ≤ d) (hf : dt ^ 2 ≥ 4 * d / a) :
    0 ≤ t_accel lm dt d a ∧ t_accel lm dt d a ≤ dt - t_accel lm dt d a ∧
      a * t_accel lm dt d a * (dt - t_accel lm dt d a) = d := by
  unfold t_accel
  rw [hsqrt]
  have hq : 0 ≤ 4 * d / a := by positivity
  have hs0 : 0 ≤ Real.sqrt (dt ^ 2 - 4 * d / a) := Real.sqrt_nonneg _
  have hsq : Real.sqrt (dt ^ 2 - 4 * d / a) ^ 2 = dt ^ 2 - 4 * d / a :=
    Real.sq_sqrt (by linarith)
  have hs1 : Real.sqrt (dt ^ 2 - 4 * d / a) ≤ dt := by
    apply Real.sqrt_le_iff.mpr
    exact ⟨hdt.le, by linarith⟩
  refine ⟨by linarith, by linarith, ?_⟩
  have : a * ((dt - Real.sqrt (dt ^ 2 - 4 * d / a)) / 2) *
      (dt - (dt - Real.sqrt (dt ^ 2 - 4 * d / a)) / 2) =
      a * (dt ^ 2 - Real.sqrt (dt ^ 2 - 4 * d / a) ^ 2) / 4 := by ring
  rw [this, hsq]
  field_simp

theorem continuous_min_profile (c dt t_a : ℝ) :
    Continuous (fun t : ℝ => c * min t (min t_a (dt - t))) :=
  continuous_const.mul
    (continuous_id.min (continuous_const.min (continuous_const.sub continuous_id)))

theorem integral_min_profile (c dt t_a : ℝ) (h0 : 0 ≤ t_a) (h1 : t_a ≤ dt - t_a) :
    ∫ t in (0 : ℝ)..dt, c * min t (min t_a (dt - t)) = c * t_a * (dt - t_a) := by
  have hc := continuous_min_profile c dt t_a
  have e1 : ∫ t in (0 : ℝ)..t_a, c * min t (min t_a (dt - t)) = ∫ t in (0 : ℝ)..t_a, c * t := by
    apply intervalIntegral.integral_congr
    intro t ht
    rw [Set.uIcc_of_le h0] at ht
    simp only
    rw [min_eq_left (le_min ht.2 (by linarith [ht.2]))]
  have e2 : ∫ t in t_a..(dt - t_a), c * min t (min t_a (dt - t)) =
      ∫ _ in t_a..(dt - t_a), c * t_a := by
    apply intervalIntegral.integral_congr
    intro t ht
    rw [Set.uIcc_of_le h1] at ht
    simp only
    rw [min_eq_left (show t_a ≤ dt - t by linarith [ht.2]), min_eq_right ht.1]
  have e3 : ∫ t in (dt - t_a)..dt, c * min t (min t_a (dt - t)) =
      ∫ t in (dt - t_a)..dt, c * (dt - t) := by
    apply intervalIntegral.integral_congr
    intro t ht
    rw [Set.uIcc_of_le (by linarith)] at ht
    simp only
    rw [min_eq_right (show dt - t ≤ t_a by linarith [ht.1]),
      min_eq_right (show dt - t ≤ t by linarith [ht.1])]
  rw [← intervalIntegral.integral_add_adjacent_intervals (hc.intervalIntegrable 0 (dt - t_a))
      (hc.intervalIntegrable (dt - t_a) dt),
    ← intervalIntegral.integral_add_adjacent_intervals (hc.intervalIntegrable 0 t_a)
      (hc.intervalIntegrable t_a (dt - t_a)), e1, e2, e3]
  have i1 : ∫ t in (0 : ℝ)..t_a, c * t = c * (t_a ^ 2 / 2) := by
    rw [intervalIntegral.integral_const_mul, integral_id]
    ring
  have i2 : ∫ _ in t_a..(dt - t_a), c * t_a = (dt - t_a - t_a) * (c * t_a) := by
    rw [intervalIntegral.integral_const, smul_eq_mul]
  have i3 : ∫ t in (dt - t_a)..dt, c * (dt - t) = c * (t_a ^ 2 / 2) := by
    rw [intervalIntegral.integral_const_mul,
      intervalIntegral.integral_sub intervalIntegrable_const
        intervalIntegral.intervalIntegrable_id,
      intervalIntegral.integral_const, integral_id, smul_eq_mul]
    ring
  rw [i1, i2, i3]
  ring

theorem v_xy_des_eq_min (lm : libm ℝ) (hsqrt : lm.sqrt = Real.sqrt) (a dt diff : ℝ)
    (ha : 0 < a) (hdt : 0 < dt) (hf : dt ^ 2 ≥ 4 * |diff| / a) (t : ℝ) :
    v_xy_des lm a dt diff t =
      ((c_sign diff : Int) : ℝ) * a * min t (min (t_accel lm dt |diff| a) (dt - t)) := by
  unfold v_xy_des
  simp only
  rw [(c_sign_mul_abs diff).1]
  exact trapezoid_eq_min _ dt _ t (t_accel_bounds lm hsqrt dt |diff| a ha hdt (abs_nonneg _) hf).2.1

theorem v_xy_des_integral (lm : libm ℝ) (hsqrt : lm.sqrt = Real.sqrt) (a dt diff : ℝ)
    (ha : 0 < a) (hdt : 0 < dt) (hf : dt ^ 2 ≥ 4 * |diff| / a) :
    ∫ t in (0 : ℝ)..dt, v_xy_des lm a dt diff t = diff := by
  obtain ⟨h0, h1, h2⟩ := t_accel_bounds lm hsqrt dt |diff| a ha hdt (abs_nonneg _) hf
  have he : (fun t => v_xy_des lm a dt diff t) = fun t =>
      ((c_sign diff : Int) : ℝ) * a * min t (min (t_accel lm dt |diff| a) (dt - t)) :=
    funext (v_xy_des_eq_min lm hsqrt a dt diff ha hdt hf)
  rw [he, integral_min_profile _ dt _ h0 h1]
  calc ((c_sign diff : Int) : ℝ) * a * t_accel lm dt |diff| a * (dt - t_accel lm dt |diff| a)
      = ((c_sign diff : Int) : ℝ) *
          (a * t_accel lm dt |diff| a * (dt - t_accel lm dt |diff| a)) := by ring
    _ = diff := by rw [h2, (c_sign_mul_abs diff).2]

theorem v_xy_des_continuous (lm : libm ℝ) (hsqrt : lm.sqrt = Real.sqrt) (a dt diff : ℝ)
    (ha : 0 < a) (hdt : 0 < dt) (hf : dt ^ 2 ≥ 4 * |diff| / a) :
    Continuous (fun t => v_xy_des lm a dt diff t) := by
  have he : (fun t => v_xy_des lm a dt diff t) = fun t =>
      ((c_sign diff : Int) : ℝ) * a * min t (min (t_accel lm dt |diff| a) (dt - t)) :=
    funext (v_xy_des_eq_min lm hsqrt a dt diff ha hdt hf)
  rw [he]
  exact continuous_min_profile _ dt _

theorem v_z_des_continuous (lm : libm ℝ) (hsqrt : lm.sqrt = Real.sqrt) (a_u a_d dt diff : ℝ)
    (hu : 0 < a_u) (hd : 0 < a_d) (hdt : 0 < dt)
    (hfu : 0 < diff → dt ^ 2 ≥ 4 * |diff| / a_u)
    (hfd : diff ≤ 0 → dt ^ 2 ≥ 4 * |diff| / a_d) :
    Continuous (fun t => v_z_des lm a_u a_d dt diff t) := by
  unfold v_z_des
  simp only
  rw [(c_sign_mul_abs diff).1]
  by_cases hpos : 0 < diff
  · have hs : c_sign diff > 0 := by
      unfold c_sign
      rw [if_pos hpos, if_neg (not_lt.mpr hpos.le)]
      decide
    simp only [hs, if_true]
    have he : (fun t => trapezoid (((c_sign diff : Int) : ℝ) * a_u) dt
        (t_accel lm dt |diff| a_u) t) = fun t =>
        ((c_sign diff : Int) : ℝ) * a_u * min t (min (t_accel lm dt |diff| a_u) (dt - t)) :=
      funext fun t => trapezoid_eq_min _ dt _ t
        (t_accel_bounds lm hsqrt dt |diff| a_u hu hdt (abs_nonneg _) (hfu hpos)).2.1
    rw [he]
    exact continuous_min_profile _ dt _
  · have hs : ¬ (c_sign diff > 0) := by
      unfold c_sign
      rw [if_neg hpos]
      split_ifs <;> decide
    simp only [hs, if_false]
    have he : (fun t => trapezoid (-a_d) dt (t_accel lm dt |diff| a_d) t) = fun t =>
        -a_d * min t (min (t_accel lm dt |diff| a_d) (dt - t)) :=
      funext fun t => trapezoid_eq_min _ dt _ t
        (t_accel_bounds lm hsqrt dt |diff| a_d hd hdt (abs_nonneg _)
          (hfd (not_lt.mp hpos))).2.1
    rw [he]
    exact continuous_min_profile _ dt _

/-- A call of `__traject_new` whose segment choice does not end the run and leaves
`t_1 ≤ t_2`, with `ra` and `rb` the rows `step` and `step + 1` of the segment chosen: the
call runs the profile part at the in-segment time `(t_curr - test_start) / 1000 - t_1`. -/
theorem traject_new_profile {K M : Type} [LinearOrderedField K] (cfg : jb_main_defs K)
    (lm : libm K) (nanos : Nat) (w w1 : World K M) (ra rb : traj_row K)
    (hsel : traject_select (traject_clock nanos w) = some (false, w1))
    (ht : w1.cstate.t_1 ≤ w1.cstate.t_2)
    (hra : row_at w1.trajec_mat w1.cstate.step = some ra)
    (hrb : row_at w1.trajec_mat (w1.cstate.step + 1) = some rb) :
    traject_new cfg lm nanos w = some (traject_profile cfg lm w1 ra rb
      (elapsed_s w1.cstate.t_curr w1.test_start - w1.cstate.t_1)) := by
  unfold traject_new
  rw [hsel]
  show traject_rest cfg lm w1 = _
  unfold traject_rest
  rw [if_neg (not_lt.mpr ht), hrb, hra]

/-- C1: take a call of `__traject_new` whose segment choice does not end the run, `w1`
being the state that choice leaves, `ra` and `rb` the rows `step` and `step + 1` of the
table there, and `dt = t_2 - t_1 > 0`, with `ACCEL_MAX > 0`.  The call returns the state
the profile part computes at the in-segment time `t_test = (t_curr - test_start) / 1000 - t_1`,
so the `v_xr_des` and `v_yr_des` it stores are the values at `t_test` of the velocity as a
function of the in-segment time; and for the x_r displacement `diff` (likewise y_r) with
`dt ^ 2 ≥ 4 * |diff| / ACCEL_MAX` that function has integral `diff` over `[0, dt]`. -/
theorem traject_profile_integral {M : Type} (cfg : jb_main_defs ℝ) (lm : libm ℝ)
    (nanos : Nat) (w w1 : World ℝ M) (ra rb : traj_row ℝ) (hsqrt : lm.sqrt = Real.sqrt)
    (ha : 0 < cfg.ACCEL_MAX)
    (hsel : traject_select (traject_clock nanos w) = some (false, w1))
    (hra : row_at w1.trajec_mat w1.cstate.step = some ra)
    (hrb : row_at w1.trajec_mat (w1.cstate.step + 1) = some rb)
    (hdt : 0 < w1.cstate.t_2 - w1.cstate.t_1) :
    traject_new cfg lm nanos w = some (traject_profile cfg lm w1 ra rb
      (elapsed_s w1.cstate.t_curr w1.test_start - w1.cstate.t_1)) ∧
    ((w1.cstate.t_2 - w1.cstate.t_1) ^ 2 ≥ 4 * |rb.xr - ra.xr| / cfg.ACCEL_MAX →
      ∫ t in (0 : ℝ)..(w1.cstate.t_2 - w1.cstate.t_1),
        (traject_profile cfg lm w1 ra rb t).cstate.v_xr_des = rb.xr - ra.xr) ∧
    ((w1.cstate.t_2 - w1.cstate.t_1) ^ 2 ≥ 4 * |rb.yr - ra.yr| / cfg.ACCEL_MAX →
      ∫ t in (0 : ℝ)..(w1.cstate.t_2 - w1.cstate.t_1),
        (traject_profile cfg lm w1 ra rb t).cstate.v_yr_des = rb.yr - ra.yr) :=
  ⟨traject_new_profile cfg lm nanos w w1 ra rb hsel (by linarith) hra hrb,
    fun hf => v_xy_des_integral lm hsqrt cfg.ACCEL_MAX _ _ ha hdt hf,
    fun hf => v_xy_des_integral lm hsqrt cfg.ACCEL_MAX _ _ ha hdt hf⟩

/-- C1, at a concrete input: the call at 12 s on the test table, from the first
segment.  The segment choice advances to the second segment (10 s to 20 s, x_r from 125
to 75); the call stores the profile at the in-segment time 1 s, and the velocity
integrates to -50 over the 10 s of the segment. -/
theorem traject_profile_integral_witness :
    ∃ w1 : World ℝ Unit,
      traject_select (traject_clock 12000000000 (armed_world ℝ Unit () 0)) = some (false, w1) ∧
      w1.cstate.step = 1 ∧ w1.cstate.t_1 = 10 ∧ w1.cstate.t_2 = 20 ∧
      elapsed_s w1.cstate.t_curr w1.test_start - w1.cstate.t_1 = 1 ∧
      traject_new (test_defs ℝ Real.pi) ⟨Real.sqrt, Real.cos, Real.sin, Real.pi⟩ 12000000000
          (armed_world ℝ Unit () 0) =
        some (traject_profile (test_defs ℝ Real.pi) ⟨Real.sqrt, Real.cos, Real.sin, Real.pi⟩
          w1 ⟨10, 125, 0, 0⟩ ⟨20, 75, 0, 0⟩
          (elapsed_s w1.cstate.t_curr w1.test_start - w1.cstate.t_1)) ∧
      ∫ t in (0 : ℝ)..(w1.cstate.t_2 - w1.cstate.t_1),
        (traject_profile (test_defs ℝ Real.pi) ⟨Real.sqrt, Real.cos, Real.sin, Real.pi⟩
          w1 ⟨10, 125, 0, 0⟩ ⟨20, 75, 0, 0⟩ t).cstate.v_xr_des = 75 - 125 := by
  have hrows : 2 ≤ rows (armed_world ℝ Unit () 0).trajec_mat := by
    simp [rows, armed_world, test_table]
  have hc := traject_clock_of_rows 12000000000 (armed_world ℝ Unit () 0) hrows
  have hsel := traject_select_advance (traject_clock 12000000000 (armed_world ℝ Unit () 0))
    ⟨10, 125, 0, 0⟩ ⟨20, 75, 0, 0⟩
    (by rw [hc]; simp [row_at, armed_world, test_table, cstate_zero])
    (by rw [hc]; simp [row_at, armed_world, test_table, cstate_zero])
    (by rw [hc]; norm_num [elapsed_s, U64, armed_world])
  have h := traject_profile_integral (test_defs ℝ Real.pi)
    ⟨Real.sqrt, Real.cos, Real.sin, Real.pi⟩ 12000000000 (armed_world ℝ Unit () 0) _
    ⟨10, 125, 0, 0⟩ ⟨20, 75, 0, 0⟩ rfl (by norm_num [test_defs]) hsel
    (by rw [hc]; simp [row_at, armed_world, test_table, cstate_zero])
    (by rw [hc]; simp [row_at, armed_world, test_table, cstate_zero])
    (by norm_num)
  refine ⟨_, hsel, ?_, rfl, rfl, ?_, h.1, h.2.1 (by norm_num [test_defs])⟩
  · rw [hc]
    simp [armed_world, cstate_zero]
  · rw [hc]
    norm_num [elapsed_s, U64, armed_world]

/-- C10: for a feasible segment (`dt > 0`, positive accelerations,
`dt ^ 2 ≥ 4 * |diff| / a` on each axis, `a` being the acceleration the code uses for
that axis and direction), the desired x_r, y_r and z velocities are continuous functions
of the in-segment time `t_test` on `[0, dt]`: the three branches agree where they meet. -/
theorem traject_profile_continuous {M : Type} (cfg : jb_main_defs ℝ) (lm : libm ℝ)
    (w : World ℝ M) (ra rb : traj_row ℝ) (hsqrt : lm.sqrt = Real.sqrt)
    (ha : 0 < cfg.ACCEL_MAX) (hu : 0 < cfg.ACCEL_Z_U) (hd : 0 < cfg.ACCEL_Z_D)
    (hdt : 0 < w.cstate.t_2 - w.cstate.t_1)
    (hx : (w.cstate.t_2 - w.cstate.t_1) ^ 2 ≥ 4 * |rb.xr - ra.xr| / cfg.ACCEL_MAX)
    (hy : (w.cstate.t_2 - w.cstate.t_1) ^ 2 ≥ 4 * |rb.yr - ra.yr| / cfg.ACCEL_MAX)
    (hzu : 0 < rb.z - ra.z →
      (w.cstate.t_2 - w.cstate.t_1) ^ 2 ≥ 4 * |rb.z - ra.z| / cfg.ACCEL_Z_U)
    (hzd : rb.z - ra.z ≤ 0 →
      (w.cstate.t_2 - w.cstate.t_1) ^ 2 ≥ 4 * |rb.z - ra.z| / cfg.ACCEL_Z_D) :
    ContinuousOn (fun t => (traject_profile cfg lm w ra rb t).cstate.v_xr_des)
        (Set.Icc 0 (w.cstate.t_2 - w.cstate.t_1)) ∧
      ContinuousOn (fun t => (traject_profile cfg lm w ra rb t).cstate.v_yr_des)
        (Set.Icc 0 (w.cstate.t_2 - w.cstate.t_1)) ∧
      ContinuousOn (fun t => (traject_profile cfg lm w ra rb t).cstate.v_z_des)
        (Set.Icc 0 (w.cstate.t_2 - w.cstate.t_1)) :=
  ⟨(v_xy_des_continuous lm hsqrt cfg.ACCEL_MAX _ _ ha hdt hx).continuousOn,
    (v_xy_des_continuous lm hsqrt cfg.ACCEL_MAX _ _ ha hdt hy).continuousOn,
    (v_z_des_continuous lm hsqrt cfg.ACCEL_Z_U cfg.ACCEL_Z_D _ _ hu hd hdt hzu hzd).continuousOn⟩

/-- C10, at a concrete input: the first segment of the test table. -/
theorem traject_profile_continuous_witness :
    ContinuousOn (fun t => (traject_profile (test_defs ℝ Real.pi)
        ⟨Real.sqrt, Real.cos, Real.sin, Real.pi⟩ (armed_world ℝ Unit () 0)
        ⟨0, 0, 0, 0⟩ ⟨10, 125, 0, 0⟩ t).cstate.v_xr_des)
      (Set.Icc 0 ((armed_world ℝ Unit () 0).cstate.t_2 - (armed_world ℝ Unit () 0).cstate.t_1)) :=
  (traject_profile_continuous (test_defs ℝ Real.pi) ⟨Real.sqrt, Real.cos, Real.sin, Real.pi⟩
    (armed_world ℝ Unit () 0) ⟨0, 0, 0, 0⟩ ⟨10, 125, 0, 0⟩ rfl
    (by norm_num [test_defs]) (by norm_num [test_defs]) (by norm_num [test_defs])
    (by norm_num [armed_world, cstate_zero])
    (by norm_num [test_defs, armed_world, cstate_zero])
    (by norm_num [test_defs, armed_world, cstate_zero])
    (by norm_num [test_defs, armed_world, cstate_zero])
    (by norm_num [test_defs, armed_world, cstate_zero])).1

/-! ## State estimation -/

theorem state_estimation_theta {K : Type} [LinearOrderedField K] (cfg : jb_main_defs K)
    (lm : libm K) (enc : Int → Int) (c : core_state_t K) :
    (state_estimation cfg lm enc c).theta = wrap_theta lm (c.theta + tick_yaw cfg lm enc c) :=
  rfl

theorem wrap_theta_of_inside {K : Type} [LinearOrderedField K] (lm : libm K) (theta : K)
    (h1 : -2 * lm.M_PI ≤ theta) (h2 : theta ≤ 2 * lm.M_PI) : wrap_theta lm theta = theta := by
  unfold wrap_theta
  rw [if_neg (not_lt.mpr h2), if_neg (not_lt.mpr h1)]

theorem wrap_theta_cases {K : Type} [LinearOrderedField K] (lm : libm K) (theta : K) :
    ∃ n : Int, wrap_theta lm theta = theta + (n : K) * (2 * lm.M_PI) := by
  unfold wrap_theta
  split_ifs
  · exact ⟨-1, by push_cast; ring⟩
  · exact ⟨1, by push_cast; ring⟩
  · exact ⟨0, by push_cast; ring⟩

/-- C9: after every sequence of state-estimation ticks the stored `theta` differs
from the initial `theta` plus the sum of the per-tick yaw increments by an integer
multiple of `2 * M_PI`. -/
theorem yaw_wrapped_mod_two_pi {K : Type} [LinearOrderedField K] (cfg : jb_main_defs K)
    (lm : libm K) : ∀ (es : List (Int → Int)) (c : core_state_t K),
      ∃ n : Int, (estimation_run cfg lm es c).theta =
        c.theta + yaw_sum cfg lm es c + (n : K) * (2 * lm.M_PI)
  | [], c => ⟨0, by simp [estimation_run, yaw_sum]⟩
  | e :: es, c => by
    obtain ⟨n, hn⟩ := yaw_wrapped_mod_two_pi cfg lm es (state_estimation cfg lm e c)
    obtain ⟨m, hm⟩ := wrap_theta_cases lm (c.theta + tick_yaw cfg lm e c)
    refine ⟨n + m, ?_⟩
    show (estimation_run cfg lm es (state_estimation cfg lm e c)).theta = _
    rw [hn, state_estimation_theta, hm]
    simp only [yaw_sum]
    push_cast
    ring

/-- C8, as the code has it: from `theta` in `(-2π, 2π)`, a tick whose yaw
increment `d` has `|d| ≤ 2π` stores a `theta` in the closed interval `[-2π, 2π]`, and
in the open interval when `theta + d` is neither `2π` nor `-2π`. -/
theorem theta_wrap_one_tick {K : Type} [LinearOrderedField K] (cfg : jb_main_defs K)
    (lm : libm K) (enc : Int → Int) (c : core_state_t K) (hpi : 0 < lm.M_PI)
    (hlo : -2 * lm.M_PI < c.theta) (hhi : c.theta < 2 * lm.M_PI)
    (hd : |tick_yaw cfg lm enc c| ≤ 2 * lm.M_PI) :
    (-2 * lm.M_PI ≤ (state_estimation cfg lm enc c).theta ∧
      (state_estimation cfg lm enc c).theta ≤ 2 * lm.M_PI) ∧
    (c.theta + tick_yaw cfg lm enc c ≠ 2 * lm.M_PI →
      c.theta + tick_yaw cfg lm enc c ≠ -2 * lm.M_PI →
      -2 * lm.M_PI < (state_estimation cfg lm enc c).theta ∧
        (state_estimation cfg lm enc c).theta < 2 * lm.M_PI) := by
  rw [state_estimation_theta]
  obtain ⟨hd1, hd2⟩ := abs_le.mp hd
  unfold wrap_theta
  split_ifs with h1 h2
  · exact ⟨⟨by linarith, by linarith⟩, fun _ _ => ⟨by linarith, by linarith⟩⟩
  · exact ⟨⟨by linarith, by linarith⟩, fun _ _ => ⟨by linarith, by linarith⟩⟩
  · have g1 := not_lt.mp h1
    have g2 := not_lt.mp h2
    exact ⟨⟨g2, g1⟩, fun n1 n2 => ⟨lt_of_le_of_ne g2 (Ne.symm n2), lt_of_le_of_ne g1 n1⟩⟩

theorem tick_yaw_wheel4 (n : Int) (th : ℝ) :
    tick_yaw (test_defs ℝ Real.pi) ⟨Real.sqrt, Real.cos, Real.sin, Real.pi⟩
      (enc_single 2 n) (cstate_theta ℝ th) =
      (0.1524 / 2.08 * (2 * (n : ℝ) / 1288.848)) * Real.pi := by
  simp only [tick_yaw, yaw_increment, wheel_angle, test_defs, enc_single, cstate_theta,
    cstate_zero]
  norm_num
  ring

/-- C8, at a concrete input: from `theta = π`, a snapshot with 10000 counts on
wheel 4, a yaw increment of about `1.137 π`.  The sum exceeds `2π`, so the correction for
a full rotation subtracts `2π`, and the stored `theta` lies in the open interval. -/
theorem theta_wrap_one_tick_witness :
    2 * Real.pi < (cstate_theta ℝ Real.pi).theta + tick_yaw (test_defs ℝ Real.pi)
        ⟨Real.sqrt, Real.cos, Real.sin, Real.pi⟩ (enc_single 2 10000) (cstate_theta ℝ Real.pi) ∧
    -2 * Real.pi < (state_estimation (test_defs ℝ Real.pi)
        ⟨Real.sqrt, Real.cos, Real.sin, Real.pi⟩ (enc_single 2 10000)
        (cstate_theta ℝ Real.pi)).theta ∧
    (state_estimation (test_defs ℝ Real.pi)
        ⟨Real.sqrt, Real.cos, Real.sin, Real.pi⟩ (enc_single 2 10000)
        (cstate_theta ℝ Real.pi)).theta < 2 * Real.pi := by
  have hpi := Real.pi_pos
  have hval := tick_yaw_wheel4 10000 Real.pi
  have hc1 : (1 : ℝ) < 0.1524 / 2.08 * (2 * ((10000 : Int) : ℝ) / 1288.848) := by norm_num
  have hc2 : 0.1524 / 2.08 * (2 * ((10000 : Int) : ℝ) / 1288.848) < (2 : ℝ) := by norm_num
  have h1 := mul_lt_mul_of_pos_right hc1 hpi
  have h2 := mul_lt_mul_of_pos_right hc2 hpi
  have hth : (cstate_theta ℝ Real.pi).theta = Real.pi := rfl
  have hsum : 2 * Real.pi < (cstate_theta ℝ Real.pi).theta + tick_yaw (test_defs ℝ Real.pi)
      ⟨Real.sqrt, Real.cos, Real.sin, Real.pi⟩ (enc_single 2 10000) (cstate_theta ℝ Real.pi) := by
    rw [hval, hth]
    linarith
  exact ⟨hsum, (theta_wrap_one_tick (test_defs ℝ Real.pi)
    ⟨Real.sqrt, Real.cos, Real.sin, Real.pi⟩ (enc_single 2 10000) (cstate_theta ℝ Real.pi) hpi
    (by rw [hth]; show -2 * Real.pi < Real.pi; linarith)
    (by rw [hth]; show Real.pi < 2 * Real.pi; linarith)
    (by
      rw [hval, abs_of_pos (lt_trans (by linarith) h1)]
      show _ ≤ 2 * Real.pi
      linarith)).2
    (ne_of_gt hsum)
    (by
      rw [hval, hth]
      intro he
      show False
      have he2 : Real.pi + 0.1524 / 2.08 * (2 * ((10000 : Int) : ℝ) / 1288.848) * Real.pi
        = -2 * Real.pi := he
      linarith)⟩

/-- C8 fails as stated.  From `theta = 0`, a snapshot with 40000 counts on wheel 4
stores a `theta` above `2π`; and from `theta = (2 - r) π` with `r π` the yaw increment of
one count on wheel 4, the stored `theta` is exactly `2π`. -/
theorem theta_wrap_one_tick_counterexample :
    (-2 * Real.pi < (cstate_theta ℝ 0).theta ∧ (cstate_theta ℝ 0).theta < 2 * Real.pi ∧
      2 * Real.pi < (state_estimation (test_defs ℝ Real.pi)
        ⟨Real.sqrt, Real.cos, Real.sin, Real.pi⟩ (enc_single 2 40000)
        (cstate_theta ℝ 0)).theta) ∧
    (-2 * Real.pi < (cstate_theta ℝ ((2 - 0.1524 / 2.08 * (2 / 1288.848)) * Real.pi)).theta ∧
      (cstate_theta ℝ ((2 - 0.1524 / 2.08 * (2 / 1288.848)) * Real.pi)).theta < 2 * Real.pi ∧
      (state_estimation (test_defs ℝ Real.pi)
        ⟨Real.sqrt, Real.cos, Real.sin, Real.pi⟩ (enc_single 2 1)
        (cstate_theta ℝ ((2 - 0.1524 / 2.08 * (2 / 1288.848)) * Real.pi))).theta
        = 2 * Real.pi) := by
  have hpi := Real.pi_pos
  refine ⟨⟨by simp [cstate_theta, hpi], by simp [cstate_theta, hpi], ?_⟩, ?_, ?_, ?_⟩
  · rw [state_estimation_theta, tick_yaw_wheel4]
    have hq : (cstate_theta ℝ 0).theta + 0.1524 / 2.08 * (2 * ((40000 : Int) : ℝ) / 1288.848)
        * Real.pi > 2 * Real.pi := by
      simp only [cstate_theta]
      norm_num
      nlinarith
    simp only [wrap_theta]
    rw [if_pos hq]
    simp only [cstate_theta]
    norm_num
    nlinarith
  · show -2 * Real.pi < (2 - 0.1524 / 2.08 * (2 / 1288.848)) * Real.pi
    have : (-2 : ℝ) < 2 - 0.1524 / 2.08 * (2 / 1288.848) := by norm_num
    nlinarith
  · show (2 - 0.1524 / 2.08 * (2 / 1288.848)) * Real.pi < 2 * Real.pi
    have : (2 - 0.1524 / 2.08 * (2 / 1288.848) : ℝ) < 2 := by norm_num
    nlinarith
  · rw [state_estimation_theta, tick_yaw_wheel4]
    have he : (cstate_theta ℝ ((2 - 0.1524 / 2.08 * (2 / 1288.848)) * Real.pi)).theta +
        0.1524 / 2.08 * (2 * ((1 : Int) : ℝ) / 1288.848) * Real.pi = 2 * Real.pi := by
      simp only [cstate_theta]
      push_cast
      ring
    rw [he]
    exact wrap_theta_of_inside _ _ (by simp only []; linarith) (le_refl _)

theorem estimation_run_append {K : Type} [LinearOrderedField K] (cfg : jb_main_defs K)
    (lm : libm K) : ∀ (l1 l2 : List (Int → Int)) (c : core_state_t K),
      estimation_run cfg lm (l1 ++ l2) c = estimation_run cfg lm l2 (estimation_run cfg lm l1 c)
  | [], _, _ => rfl
  | e :: l1, l2, c => estimation_run_append cfg lm l1 l2 (state_estimation cfg lm e c)

theorem state_estimation_matches {K : Type} [LinearOrderedField K] (cfg : jb_main_defs K)
    (lm : libm K) (e : Int → Int) (c : core_state_t K) :
    matches_snapshot cfg lm e (state_estimation cfg lm e c) :=
  ⟨rfl, rfl, rfl, rfl⟩

/-- After the round trip the stored wheel angles are those of `e0` again. -/
theorem round_trip_matches {K : Type} [LinearOrderedField K] (cfg : jb_main_defs K)
    (lm : libm K) (e0 : Int → Int) (es : List (Int → Int)) (c : core_state_t K)
    (h : matches_snapshot cfg lm e0 c) :
    matches_snapshot cfg lm e0 (estimation_run cfg lm (round_trip e0 es) c) := by
  unfold round_trip
  rw [List.reverse_cons]
  rcases List.eq_nil_or_concat es with hnil | ⟨l, e, hl⟩
  · subst hnil
    exact h
  · have hne : es.reverse ≠ [] := by
      rw [hl]
      simp
    rw [List.tail_append_of_ne_nil hne, ← List.append_assoc, estimation_run_append]
    exact state_estimation_matches cfg lm e0 _

/-- A tick inside the wrap limits preserves `theta - κ (w4 - w1 + w2 - w3)`,
`x_r - (R / 2) (w1 + w4)` and `y_r - (R / 2) (w2 + w3)`. -/
theorem state_estimation_conserved {K : Type} [LinearOrderedField K] (cfg : jb_main_defs K)
    (lm : libm K) (e : Int → Int) (c : core_state_t K)
    (h1 : -2 * lm.M_PI ≤ c.theta + tick_yaw cfg lm e c)
    (h2 : c.theta + tick_yaw cfg lm e c ≤ 2 * lm.M_PI) :
    (state_estimation cfg lm e c).theta - (2 * cfg.WHEEL_RADIUS_XY / (4 * cfg.TRACK_WIDTH)) *
        ((state_estimation cfg lm e c).wheelAngle4 - (state_estimation cfg lm e c).wheelAngle1
          + (state_estimation cfg lm e c).wheelAngle2
          - (state_estimation cfg lm e c).wheelAngle3) =
      c.theta - (2 * cfg.WHEEL_RADIUS_XY / (4 * cfg.TRACK_WIDTH)) *
        (c.wheelAngle4 - c.wheelAngle1 + c.wheelAngle2 - c.wheelAngle3) ∧
    (state_estimation cfg lm e c).x_r - 0.5 * cfg.WHEEL_RADIUS_XY *
        ((state_estimation cfg lm e c).wheelAngle1 + (state_estimation cfg lm e c).wheelAngle4) =
      c.x_r - 0.5 * cfg.WHEEL_RADIUS_XY * (c.wheelAngle1 + c.wheelAngle4) ∧
    (state_estimation cfg lm e c).y_r - 0.5 * cfg.WHEEL_RADIUS_XY *
        ((state_estimation cfg lm e c).wheelAngle2 + (state_estimation cfg lm e c).wheelAngle3) =
      c.y_r - 0.5 * cfg.WHEEL_RADIUS_XY * (c.wheelAngle2 + c.wheelAngle3) := by
  refine ⟨?_, ?_, ?_⟩
  · rw [state_estimation_theta, wrap_theta_of_inside lm _ h1 h2]
    simp only [state_estimation, tick_yaw, yaw_increment]
    ring
  · simp only [state_estimation]
    ring
  · simp only [state_estimation]
    ring

theorem estimation_run_conserved {K : Type} [LinearOrderedField K] (cfg : jb_main_defs K)
    (lm : libm K) : ∀ (es : List (Int → Int)) (c : core_state_t K), yaw_inside cfg lm es c →
      (estimation_run cfg lm es c).theta - (2 * cfg.WHEEL_RADIUS_XY / (4 * cfg.TRACK_WIDTH)) *
          ((estimation_run cfg lm es c).wheelAngle4 - (estimation_run cfg lm es c).wheelAngle1
            + (estimation_run cfg lm es c).wheelAngle2
            - (estimation_run cfg lm es c).wheelAngle3) =
        c.theta - (2 * cfg.WHEEL_RADIUS_XY / (4 * cfg.TRACK_WIDTH)) *
          (c.wheelAngle4 - c.wheelAngle1 + c.wheelAngle2 - c.wheelAngle3) ∧
      (estimation_run cfg lm es c).x_r - 0.5 * cfg.WHEEL_RADIUS_XY *
          ((estimation_run cfg lm es c).wheelAngle1 + (estimation_run cfg lm es c).wheelAngle4) =
        c.x_r - 0.5 * cfg.WHEEL_RADIUS_XY * (c.wheelAngle1 + c.wheelAngle4) ∧
      (estimation_run cfg lm es c).y_r - 0.5 * cfg.WHEEL_RADIUS_XY *
          ((estimation_run cfg lm es c).wheelAngle2 + (estimation_run cfg lm es c).wheelAngle3) =
        c.y_r - 0.5 * cfg.WHEEL_RADIUS_XY * (c.wheelAngle2 + c.wheelAngle3)
  | [], _, _ => ⟨rfl, rfl, rfl⟩
  | e :: es, c, h => by
    obtain ⟨a1, a2, a3⟩ := state_estimation_conserved cfg lm e c h.1.1 h.1.2
    obtain ⟨b1, b2, b3⟩ := estimation_run_conserved cfg lm es (state_estimation cfg lm e c) h.2
    exact ⟨b1.trans a1, b2.trans a2, b3.trans a3⟩

theorem tick_yaw_eq {K : Type} [LinearOrderedField K] (cfg : jb_main_defs K) (lm : libm K)
    (e : Int → Int) (c : core_state_t K) :
    tick_yaw cfg lm e c = (2 * cfg.WHEEL_RADIUS_XY / (4 * cfg.TRACK_WIDTH)) *
      (snapshot_yaw cfg lm e -
        (c.wheelAngle4 - c.wheelAngle1 + c.wheelAngle2 - c.wheelAngle3)) := by
  simp only [tick_yaw, yaw_increment, snapshot_yaw]
  ring

theorem state_estimation_xy {K : Type} [LinearOrderedField K] (cfg : jb_main_defs K)
    (lm : libm K) (e : Int → Int) (c : core_state_t K) :
    (state_estimation cfg lm e c).x = c.x +
        (0.5 * cfg.WHEEL_RADIUS_XY *
            ((state_estimation cfg lm e c).wheelAngle1 - c.wheelAngle1
              + ((state_estimation cfg lm e c).wheelAngle4 - c.wheelAngle4))
            * lm.cos (cfg.ANGLE_GLOBAL2OMNI + (c.theta + tick_yaw cfg lm e c))
          - 0.5 * cfg.WHEEL_RADIUS_XY *
            ((state_estimation cfg lm e c).wheelAngle2 - c.wheelAngle2
              + ((state_estimation cfg lm e c).wheelAngle3 - c.wheelAngle3))
            * lm.sin (cfg.ANGLE_GLOBAL2OMNI + (c.theta + tick_yaw cfg lm e c))) ∧
    (state_estimation cfg lm e c).y = c.y +
        (0.5 * cfg.WHEEL_RADIUS_XY *
            ((state_estimation cfg lm e c).wheelAngle1 - c.wheelAngle1
              + ((state_estimation cfg lm e c).wheelAngle4 - c.wheelAngle4))
            * lm.sin (cfg.ANGLE_GLOBAL2OMNI + (c.theta + tick_yaw cfg lm e c))
          + 0.5 * cfg.WHEEL_RADIUS_XY *
            ((state_estimation cfg lm e c).wheelAngle2 - c.wheelAngle2
              + ((state_estimation cfg lm e c).wheelAngle3 - c.wheelAngle3))
            * lm.cos (cfg.ANGLE_GLOBAL2OMNI + (c.theta + tick_yaw cfg lm e c))) :=
  ⟨rfl, rfl⟩

/-- Along a run inside the wrap limits whose snapshots all have the yaw
differential of the stored wheel angles, `theta` does not move and the global position
follows the wheel angles through one fixed rotation. -/
theorem estimation_run_constant_yaw {K : Type} [LinearOrderedField K] (cfg : jb_main_defs K)
    (lm : libm K) : ∀ (es : List (Int → Int)) (c : core_state_t K), yaw_inside cfg lm es c →
      (∀ e ∈ es, snapshot_yaw cfg lm e =
        c.wheelAngle4 - c.wheelAngle1 + c.wheelAngle2 - c.wheelAngle3) →
      (estimation_run cfg lm es c).x -
          (0.5 * cfg.WHEEL_RADIUS_XY * ((estimation_run cfg lm es c).wheelAngle1
              + (estimation_run cfg lm es c).wheelAngle4)
              * lm.cos (cfg.ANGLE_GLOBAL2OMNI + c.theta)
            - 0.5 * cfg.WHEEL_RADIUS_XY * ((estimation_run cfg lm es c).wheelAngle2
              + (estimation_run cfg lm es c).wheelAngle3)
              * lm.sin (cfg.ANGLE_GLOBAL2OMNI + c.theta)) =
        c.x - (0.5 * cfg.WHEEL_RADIUS_XY * (c.wheelAngle1 + c.wheelAngle4)
              * lm.cos (cfg.ANGLE_GLOBAL2OMNI + c.theta)
            - 0.5 * cfg.WHEEL_RADIUS_XY * (c.wheelAngle2 + c.wheelAngle3)
              * lm.sin (cfg.ANGLE_GLOBAL2OMNI + c.theta)) ∧
      (estimation_run cfg lm es c).y -
          (0.5 * cfg.WHEEL_RADIUS_XY * ((estimation_run cfg lm es c).wheelAngle1
              + (estimation_run cfg lm es c).wheelAngle4)
              * lm.sin (cfg.ANGLE_GLOBAL2OMNI + c.theta)
            + 0.5 * cfg.WHEEL_RADIUS_XY * ((estimation_run cfg lm es c).wheelAngle2
              + (estimation_run cfg lm es c).wheelAngle3)
              * lm.cos (cfg.ANGLE_GLOBAL2OMNI + c.theta)) =
        c.y - (0.5 * cfg.WHEEL_RADIUS_XY * (c.wheelAngle1 + c.wheelAngle4)
              * lm.sin (cfg.ANGLE_GLOBAL2OMNI + c.theta)
            + 0.5 * cfg.WHEEL_RADIUS_XY * (c.wheelAngle2 + c.wheelAngle3)
              * lm.cos (cfg.ANGLE_GLOBAL2OMNI + c.theta))
  | [], _, _, _ => ⟨rfl, rfl⟩
  | e :: es, c, h, hy => by
    have hz : tick_yaw cfg lm e c = 0 := by
      rw [tick_yaw_eq, hy e (List.mem_cons_self e es)]
      ring
    have hin := h.1
    rw [hz, add_zero] at hin
    have hth : (state_estimation cfg lm e c).theta = c.theta := by
      rw [state_estimation_theta, hz, add_zero]
      exact wrap_theta_of_inside lm _ hin.1 hin.2
    have hm := state_estimation_matches cfg lm e c
    have hy1 : ∀ e1 ∈ es, snapshot_yaw cfg lm e1 =
        (state_estimation cfg lm e c).wheelAngle4 - (state_estimation cfg lm e c).wheelAngle1
          + (state_estimation cfg lm e c).wheelAngle2
          - (state_estimation cfg lm e c).wheelAngle3 := by
      intro e1 he1
      rw [hy e1 (List.mem_cons_of_mem e he1), ← hy e (List.mem_cons_self e es)]
      rfl
    obtain ⟨b1, b2⟩ :=
      estimation_run_constant_yaw cfg lm es (state_estimation cfg lm e c) h.2 hy1
    obtain ⟨s1, s2⟩ := state_estimation_xy cfg lm e c
    rw [hz, add_zero] at s1 s2
    rw [hth] at b1 b2
    refine ⟨b1.trans ?_, b2.trans ?_⟩
    · rw [s1]
      ring
    · rw [s2]
      ring

/-- C7, as the code has it: with the yaw inside the wrap limits, feeding
`e_1 .. e_n` and then `e_(n-1) .. e_0` to the state estimation returns `theta`, `x_r` and
`y_r` to their starting values; `x` and `y` return to their starting values when every
snapshot has the yaw differential of `e_0`, so that no tick changes `theta`. -/
theorem odometry_round_trip {K : Type} [LinearOrderedField K] (cfg : jb_main_defs K)
    (lm : libm K) (c0 : core_state_t K) (e0 : Int → Int) (es : List (Int → Int))
    (hmatch : matches_snapshot cfg lm e0 c0)
    (hin : yaw_inside cfg lm (round_trip e0 es) c0) :
    (estimation_run cfg lm (round_trip e0 es) c0).theta = c0.theta ∧
    (estimation_run cfg lm (round_trip e0 es) c0).x_r = c0.x_r ∧
    (estimation_run cfg lm (round_trip e0 es) c0).y_r = c0.y_r ∧
    ((∀ e ∈ es, snapshot_yaw cfg lm e = snapshot_yaw cfg lm e0) →
      (estimation_run cfg lm (round_trip e0 es) c0).x = c0.x ∧
      (estimation_run cfg lm (round_trip e0 es) c0).y = c0.y) := by
  obtain ⟨m1, m2, m3, m4⟩ := round_trip_matches cfg lm e0 es c0 hmatch
  obtain ⟨n1, n2, n3, n4⟩ := hmatch
  obtain ⟨k1, k2, k3⟩ := estimation_run_conserved cfg lm (round_trip e0 es) c0 hin
  have e1 := m1.trans n1.symm
  have e2 := m2.trans n2.symm
  have e3 := m3.trans n3.symm
  have e4 := m4.trans n4.symm
  rw [e1, e2, e3, e4] at k1
  rw [e1, e4] at k2
  rw [e2, e3] at k3
  refine ⟨sub_left_injective k1, sub_left_injective k2, sub_left_injective k3, ?_⟩
  intro hy
  have hy0 : snapshot_yaw cfg lm e0 =
      c0.wheelAngle4 - c0.wheelAngle1 + c0.wheelAngle2 - c0.wheelAngle3 := by
    rw [n1, n2, n3, n4]
    rfl
  have hall : ∀ e ∈ round_trip e0 es, snapshot_yaw cfg lm e =
      c0.wheelAngle4 - c0.wheelAngle1 + c0.wheelAngle2 - c0.wheelAngle3 := by
    intro e he
    rw [← hy0]
    unfold round_trip at he
    rcases List.mem_append.mp he with h1 | h2
    · exact hy e h1
    · have h3 := List.mem_reverse.mp (List.mem_of_mem_tail h2)
      rcases List.mem_cons.mp h3 with h4 | h4
      · rw [h4]
      · exact hy e h4
  obtain ⟨x1, y1⟩ := estimation_run_constant_yaw cfg lm (round_trip e0 es) c0 hin hall
  rw [e1, e2, e3, e4] at x1 y1
  exact ⟨sub_left_injective x1, sub_left_injective y1⟩

theorem wheel_angles_enc_single (n : Int) (c : core_state_t ℝ) :
    (state_estimation (test_defs ℝ Real.pi) ⟨Real.sqrt, Real.cos, Real.sin, Real.pi⟩
        (enc_single 2 n) c).wheelAngle1 = 0 ∧
      (state_estimation (test_defs ℝ Real.pi) ⟨Real.sqrt, Real.cos, Real.sin, Real.pi⟩
        (enc_single 2 n) c).wheelAngle2 = 0 ∧
      (state_estimation (test_defs ℝ Real.pi) ⟨Real.sqrt, Real.cos, Real.sin, Real.pi⟩
        (enc_single 2 n) c).wheelAngle3 = 0 ∧
      (state_estimation (test_defs ℝ Real.pi) ⟨Real.sqrt, Real.cos, Real.sin, Real.pi⟩
        (enc_single 2 n) c).wheelAngle4 = (n : ℝ) * (2 / 1288.848) * Real.pi := by
  refine ⟨?_, ?_, ?_, ?_⟩
  · simp [state_estimation, wheel_angle, test_defs, enc_single]
  · simp [state_estimation, wheel_angle, test_defs, enc_single]
  · simp [state_estimation, wheel_angle, test_defs, enc_single]
  · simp only [state_estimation, wheel_angle, test_defs, enc_single]
    norm_num
    ring

/-- The round trip over one snapshot with 1000 counts on wheel 4, from the zero
pose. -/
theorem wheel4_round_trip :
    matches_snapshot (test_defs ℝ Real.pi) ⟨Real.sqrt, Real.cos, Real.sin, Real.pi⟩
      (enc_single 2 0) (cstate_theta ℝ 0) ∧
    yaw_inside (test_defs ℝ Real.pi) ⟨Real.sqrt, Real.cos, Real.sin, Real.pi⟩
      (round_trip (enc_single 2 0) [enc_single 2 1000]) (cstate_theta ℝ 0) ∧
    (estimation_run (test_defs ℝ Real.pi) ⟨Real.sqrt, Real.cos, Real.sin, Real.pi⟩
      (round_trip (enc_single 2 0) [enc_single 2 1000]) (cstate_theta ℝ 0)).x
      < (cstate_theta ℝ 0).x := by
  have hpi := Real.pi_pos
  have hlist : round_trip (enc_single 2 0) [enc_single 2 1000] =
      [enc_single 2 1000, enc_single 2 0] := rfl
  obtain ⟨a1, a2, a3, a4⟩ := wheel_angles_enc_single 1000 (cstate_theta ℝ 0)
  have ty1 := tick_yaw_wheel4 1000 0
  have th1 : (state_estimation (test_defs ℝ Real.pi) ⟨Real.sqrt, Real.cos, Real.sin, Real.pi⟩
      (enc_single 2 1000) (cstate_theta ℝ 0)).theta =
      (0.1524 / 2.08 * (2 * ((1000 : Int) : ℝ) / 1288.848)) * Real.pi := by
    rw [state_estimation_theta, ty1]
    have h0 : (cstate_theta ℝ 0).theta = 0 := rfl
    rw [h0, zero_add]
    apply wrap_theta_of_inside
    · show -2 * Real.pi ≤ _
      push_cast
      nlinarith
    · show _ ≤ 2 * Real.pi
      push_cast
      nlinarith
  have ty2 : tick_yaw (test_defs ℝ Real.pi) ⟨Real.sqrt, Real.cos, Real.sin, Real.pi⟩
      (enc_single 2 0) (state_estimation (test_defs ℝ Real.pi)
        ⟨Real.sqrt, Real.cos, Real.sin, Real.pi⟩ (enc_single 2 1000) (cstate_theta ℝ 0)) =
      -((0.1524 / 2.08 * (2 * ((1000 : Int) : ℝ) / 1288.848)) * Real.pi) := by
    rw [tick_yaw_eq, a1, a2, a3, a4]
    simp only [snapshot_yaw, wheel_angle, test_defs, enc_single]
    norm_num
    ring
  refine ⟨?_, ?_, ?_⟩
  · simp [matches_snapshot, wheel_angle, test_defs, enc_single, cstate_theta, cstate_zero]
  · rw [hlist]
    refine ⟨⟨?_, ?_⟩, ⟨?_, ?_⟩, trivial⟩
    · rw [ty1]
      show -2 * Real.pi ≤ 0 + _
      push_cast
      nlinarith
    · rw [ty1]
      show 0 + _ ≤ 2 * Real.pi
      push_cast
      nlinarith
    · rw [th1, ty2]
      show -2 * Real.pi ≤ _
      linarith
    · rw [th1, ty2]
      show _ ≤ 2 * Real.pi
      linarith
  · rw [hlist]
    show (state_estimation _ _ (enc_single 2 0) (state_estimation _ _ (enc_single 2 1000)
      (cstate_theta ℝ 0))).x < 0
    obtain ⟨b1, b2, b3, b4⟩ := wheel_angles_enc_single 0
      (state_estimation (test_defs ℝ Real.pi) ⟨Real.sqrt, Real.cos, Real.sin, Real.pi⟩
        (enc_single 2 1000) (cstate_theta ℝ 0))
    rw [(state_estimation_xy _ _ _ _).1, (state_estimation_xy _ _ (enc_single 2 1000) _).1,
      b1, b2, b3, b4, a1, a2, a3, a4, th1, ty1, ty2]
    have h0 : (cstate_theta ℝ 0).theta = 0 := rfl
    have hx : (cstate_theta ℝ 0).x = 0 := rfl
    have hw1 : (cstate_theta ℝ 0).wheelAngle1 = 0 := rfl
    have hw2 : (cstate_theta ℝ 0).wheelAngle2 = 0 := rfl
    have hw3 : (cstate_theta ℝ 0).wheelAngle3 = 0 := rfl
    have hw4 : (cstate_theta ℝ 0).wheelAngle4 = 0 := rfl
    rw [h0, hx, hw1, hw2, hw3, hw4]
    have hA : (test_defs ℝ Real.pi).ANGLE_GLOBAL2OMNI = Real.pi / 4 := rfl
    have hR : (test_defs ℝ Real.pi).WHEEL_RADIUS_XY = 0.0762 := rfl
    rw [hA, hR]
    have hcos : Real.cos (Real.pi / 4 +
        (0 + 0.1524 / 2.08 * (2 * ((1000 : Int) : ℝ) / 1288.848) * Real.pi)) <
        Real.cos (Real.pi / 4) := by
      apply Real.cos_lt_cos_of_nonneg_of_le_pi
      · positivity
      · push_cast
        nlinarith
      · push_cast
        nlinarith
    have hsum : 0.1524 / 2.08 * (2 * ((1000 : Int) : ℝ) / 1288.848) * Real.pi +
        -(0.1524 / 2.08 * (2 * ((1000 : Int) : ℝ) / 1288.848) * Real.pi) = 0 := by ring
    rw [hsum, add_zero]
    push_cast at hcos ⊢
    nlinarith

/-- C7 fails as stated.  From the zero pose, the snapshot with 1000 counts on
wheel 4 followed by the zero snapshot again keeps the yaw inside the wrap limits and
brings `theta` back, but leaves `x` below its starting value: the forward tick rotates
its displacement by the yaw after the tick, the backward tick by the starting yaw. -/
theorem odometry_round_trip_counterexample :
    matches_snapshot (test_defs ℝ Real.pi) ⟨Real.sqrt, Real.cos, Real.sin, Real.pi⟩
      (enc_single 2 0) (cstate_theta ℝ 0) ∧
    yaw_inside (test_defs ℝ Real.pi) ⟨Real.sqrt, Real.cos, Real.sin, Real.pi⟩
      (round_trip (enc_single 2 0) [enc_single 2 1000]) (cstate_theta ℝ 0) ∧
    (estimation_run (test_defs ℝ Real.pi) ⟨Real.sqrt, Real.cos, Real.sin, Real.pi⟩
      (round_trip (enc_single 2 0) [enc_single 2 1000]) (cstate_theta ℝ 0)).x
      < (cstate_theta ℝ 0).x :=
  wheel4_round_trip

/-- C7, at a concrete input: the round trip over one snapshot with 1000 counts on
wheel 4 brings `theta`, `x_r` and `y_r` back to zero. -/
theorem odometry_round_trip_witness :
    (estimation_run (test_defs ℝ Real.pi) ⟨Real.sqrt, Real.cos, Real.sin, Real.pi⟩
        (round_trip (enc_single 2 0) [enc_single 2 1000]) (cstate_theta ℝ 0)).theta
        = (cstate_theta ℝ 0).theta ∧
      (estimation_run (test_defs ℝ Real.pi) ⟨Real.sqrt, Real.cos, Real.sin, Real.pi⟩
        (round_trip (enc_single 2 0) [enc_single 2 1000]) (cstate_theta ℝ 0)).x_r
        = (cstate_theta ℝ 0).x_r :=
  ⟨(odometry_round_trip (test_defs ℝ Real.pi) ⟨Real.sqrt, Real.cos, Real.sin, Real.pi⟩
      (cstate_theta ℝ 0) (enc_single 2 0) [enc_single 2 1000]
      wheel4_round_trip.1 wheel4_round_trip.2.1).1,
    (odometry_round_trip (test_defs ℝ Real.pi) ⟨Real.sqrt, Real.cos, Real.sin, Real.pi⟩
      (cstate_theta ℝ 0) (enc_single 2 0) [enc_single 2 1000]
      wheel4_round_trip.1 wheel4_round_trip.2.1).2.1⟩

/-! ## The tick in which the planner disarms -/

theorem control_frame {K M : Type} [LinearOrderedField K] (cfg : jb_main_defs K)
    (fl : rc_filter_lib K M) (w : World K M) :
    (control cfg fl w).setpoint = w.setpoint ∧ (control cfg fl w).rc_state = w.rc_state ∧
    (control cfg fl w).hw = w.hw ++ [
      hw_call.jb_rc_motor_set cfg.MOTOR_CHANNEL_1
        (cfg.MOTOR_POLARITY_1 * (control cfg fl w).cstate.d1_u),
      hw_call.jb_rc_motor_set cfg.MOTOR_CHANNEL_4
        (cfg.MOTOR_POLARITY_4 * (control cfg fl w).cstate.d4_u),
      hw_call.jb_rc_motor_set cfg.MOTOR_CHANNEL_2
        (cfg.MOTOR_POLARITY_2 * (control cfg fl w).cstate.d2_u),
      hw_call.jb_rc_motor_set cfg.MOTOR_CHANNEL_3
        (cfg.MOTOR_POLARITY_3 * (control cfg fl w).cstate.d3_u),
      hw_call.jb_rc_motor_set cfg.MOTOR_CHANNEL_5
        (cfg.MOTOR_POLARITY_5 * (control cfg fl w).cstate.d5_u)] ∧
    (control cfg fl w).cstate.d1_u = (fl.march (cfg.D1_GAIN * cfg.V_NOMINAL / w.cstate.vBatt)
      w.D1.mem (w.setpoint.wheelAngle1 - w.cstate.wheelAngle1)).2 ∧
    (control cfg fl w).cstate.d4_u = (fl.march (cfg.D4_GAIN * cfg.V_NOMINAL / w.cstate.vBatt)
      w.D4.mem (w.setpoint.wheelAngle4 - w.cstate.wheelAngle4)).2 ∧
    (control cfg fl w).cstate.d2_u = (fl.march (cfg.D2_GAIN * cfg.V_NOMINAL / w.cstate.vBatt)
      w.D2.mem (w.setpoint.wheelAngle2 - w.cstate.wheelAngle2)).2 ∧
    (control cfg fl w).cstate.d3_u = (fl.march (cfg.D3_GAIN * cfg.V_NOMINAL / w.cstate.vBatt)
      w.D3.mem (w.setpoint.wheelAngle3 - w.cstate.wheelAngle3)).2 ∧
    (control cfg fl w).cstate.d5_u = (fl.march (cfg.D5_GAIN * cfg.V_NOMINAL / w.cstate.vBatt)
      w.D5.mem (w.setpoint.wheelAngle5 - w.cstate.wheelAngle5)).2 :=
  ⟨rfl, rfl, rfl, rfl, rfl, rfl, rfl, rfl⟩

/-- The tick that starts ARMED on the final segment with the final waypoint
time reached: the planner disarms and the tick runs on to the motor commands. -/
theorem position_controller_final_tick {K M : Type} [LinearOrderedField K]
    (cfg : jb_main_defs K) (lm : libm K) (fl : rc_filter_lib K M) (nanos : Nat)
    (enc : Int → Int) (w : World K M) (r1 : traj_row K)
    (harmed : w.setpoint.arm_state = arm_state_t.ARMED) (hrows : 2 ≤ rows w.trajec_mat)
    (hr1 : row_at w.trajec_mat (w.cstate.step + 1) = some r1)
    (hlast : rows w.trajec_mat ≤ w.cstate.step + 2)
    (hnow : elapsed_s (nanos % U64 / 1000000) w.test_start ≥ r1.t) :
    ∃ w1, position_controller cfg lm fl nanos enc w = tick_result.done w1 ∧
      w1.setpoint.arm_state = arm_state_t.DISARMED ∧ w1.rc_state = rc_state_t.EXITING ∧
      w1.hw = w.hw ++ [hw_call.jb_rc_motor_standby 1, hw_call.jb_rc_motor_free_spin 0,
        hw_call.jb_rc_motor_set cfg.MOTOR_CHANNEL_1 (cfg.MOTOR_POLARITY_1 * w1.cstate.d1_u),
        hw_call.jb_rc_motor_set cfg.MOTOR_CHANNEL_4 (cfg.MOTOR_POLARITY_4 * w1.cstate.d4_u),
        hw_call.jb_rc_motor_set cfg.MOTOR_CHANNEL_2 (cfg.MOTOR_POLARITY_2 * w1.cstate.d2_u),
        hw_call.jb_rc_motor_set cfg.MOTOR_CHANNEL_3 (cfg.MOTOR_POLARITY_3 * w1.cstate.d3_u),
        hw_call.jb_rc_motor_set cfg.MOTOR_CHANNEL_5 (cfg.MOTOR_POLARITY_5 * w1.cstate.d5_u)] ∧
      w1.cstate.d1_u = (fl.march (cfg.D1_GAIN * cfg.V_NOMINAL / w.cstate.vBatt) w.D1.mem
        (w.setpoint.wheelAngle1 - wheel_angle lm (enc cfg.ENCODER_CHANNEL_1)
          cfg.ENCODER_POLARITY_1 cfg.GEARBOX_XY cfg.ENCODER_RES)).2 ∧
      w1.cstate.d4_u = (fl.march (cfg.D4_GAIN * cfg.V_NOMINAL / w.cstate.vBatt) w.D4.mem
        (w.setpoint.wheelAngle4 - wheel_angle lm (enc cfg.ENCODER_CHANNEL_4)
          cfg.ENCODER_POLARITY_4 cfg.GEARBOX_XY cfg.ENCODER_RES)).2 ∧
      w1.cstate.d2_u = (fl.march (cfg.D2_GAIN * cfg.V_NOMINAL / w.cstate.vBatt) w.D2.mem
        (w.setpoint.wheelAngle2 - wheel_angle lm (enc cfg.ENCODER_CHANNEL_2)
          cfg.ENCODER_POLARITY_2 cfg.GEARBOX_XY cfg.ENCODER_RES)).2 ∧
      w1.cstate.d3_u = (fl.march (cfg.D3_GAIN * cfg.V_NOMINAL / w.cstate.vBatt) w.D3.mem
        (w.setpoint.wheelAngle3 - wheel_angle lm (enc cfg.ENCODER_CHANNEL_3)
          cfg.ENCODER_POLARITY_3 cfg.GEARBOX_XY cfg.ENCODER_RES)).2 ∧
      w1.cstate.d5_u = (fl.march (cfg.D5_GAIN * cfg.V_NOMINAL / w.cstate.vBatt) w.D5.mem
        (w.setpoint.wheelAngle5 - 0)).2 := by
  have hc := traject_clock_of_rows nanos w hrows
  have hs := traject_select_final (traject_clock nanos w) r1
    (by rw [hc]; exact hr1) (by rw [hc]; exact hlast) (by rw [hc]; exact hnow)
  have hnew : traject_new cfg lm nanos w = some { disarm_controller (traject_clock nanos w) with
      cstate := { (traject_clock nanos w).cstate with v_xr_des := 0, v_yr_des := 0 }
      rc_state := rc_state_t.EXITING } := by
    unfold traject_new
    rw [hs]
  have hna : ¬ (w.setpoint.arm_state = arm_state_t.DISARMED) := by
    rw [harmed]
    decide
  unfold position_controller
  rw [if_neg hna, hnew, hc]
  refine ⟨_, rfl, rfl, rfl, ?_, rfl, rfl, rfl, rfl, rfl⟩
  rw [(control_frame cfg fl _).2.2.1]
  simp only [disarm_controller, List.append_assoc, List.cons_append, List.nil_append]

/-- C4, the code at the failing input: the tick at 30 s on the final segment of the
test table, entered ARMED (the arming loop is passed at once), with the five wheel targets
at 0.3 rad, zero encoder counts and proportional filters whose output is 0.5 times the
error.  The planner finds the final waypoint time reached and disarms; the tick does not
return: after the standby and free-spin calls of the disarm, with `arm_state` DISARMED
and the process state EXITING, it goes through the state estimation and the filters and
writes the duty 0.15 to each of the five motors. -/
theorem position_controller_disarmed_tick :
    (armed_final ℝ Unit () 0.3).setpoint.arm_state = arm_state_t.ARMED ∧
    ∃ w1, position_controller (test_defs ℝ Real.pi) ⟨Real.sqrt, Real.cos, Real.sin, Real.pi⟩
        (p_filter 1) 30000000000 (enc_single 2 0) (armed_final ℝ Unit () 0.3)
        = tick_result.done w1 ∧
      w1.setpoint.arm_state = arm_state_t.DISARMED ∧ w1.rc_state = rc_state_t.EXITING ∧
      w1.hw = [hw_call.jb_rc_motor_standby 1, hw_call.jb_rc_motor_free_spin 0,
        hw_call.jb_rc_motor_set 1 0.15, hw_call.jb_rc_motor_set 4 0.15,
        hw_call.jb_rc_motor_set 2 0.15, hw_call.jb_rc_motor_set 3 0.15,
        hw_call.jb_rc_motor_set 5 0.15] := by
  obtain ⟨w1, h1, h2, h3, hhw, d1, d4, d2, d3, d5⟩ :=
    position_controller_final_tick (test_defs ℝ Real.pi)
      ⟨Real.sqrt, Real.cos, Real.sin, Real.pi⟩ (p_filter 1) 30000000000 (enc_single 2 0)
      (armed_final ℝ Unit () 0.3) ⟨20, 75, 0, 0⟩ rfl
      (by simp [rows, armed_final, armed_world, test_table])
      (by simp [row_at, armed_final, armed_world, test_table, cstate_zero])
      (by simp [rows, armed_final, armed_world, test_table, cstate_zero])
      (by norm_num [elapsed_s, U64, armed_final, armed_world])
  refine ⟨rfl, w1, h1, h2, h3, ?_⟩
  rw [hhw, d1, d4, d2, d3, d5]
  simp only [armed_final, armed_world, cstate_zero, List.nil_append,
    p_filter, test_defs, wheel_angle, enc_single]
  norm_num

/-! ## Shape of the profile -/

theorem c_sign_abs_le_one {K : Type} [LinearOrderedField K] (d : K) :
    |((c_sign d : Int) : K)| ≤ 1 := by
  unfold c_sign
  split_ifs <;> simp

/-- The x_r (and y_r) velocity of a feasible segment at an in-segment time
`t` in `[0, dt]`: the three pieces, the sign and the bound. -/
theorem v_xy_des_shape (lm : libm ℝ) (hsqrt : lm.sqrt = Real.sqrt) (a dt diff : ℝ)
    (ha : 0 < a) (hdt : 0 < dt) (hf : dt ^ 2 ≥ 4 * |diff| / a) (t : ℝ)
    (ht0 : 0 ≤ t) (ht1 : t ≤ dt) :
    (t ≤ t_accel lm dt |diff| a →
      v_xy_des lm a dt diff t = ((c_sign diff : Int) : ℝ) * a * t) ∧
    (t_accel lm dt |diff| a ≤ t → t ≤ dt - t_accel lm dt |diff| a →
      v_xy_des lm a dt diff t = ((c_sign diff : Int) : ℝ) * a * t_accel lm dt |diff| a) ∧
    (dt - t_accel lm dt |diff| a ≤ t →
      v_xy_des lm a dt diff t = ((c_sign diff : Int) : ℝ) * a * (dt - t)) ∧
    0 ≤ v_xy_des lm a dt diff t * diff ∧
    |v_xy_des lm a dt diff t| ≤ a * t_accel lm dt |diff| a ∧
    a * t_accel lm dt |diff| a ≤ a * dt / 2 := by
  obtain ⟨h0, h1, -⟩ := t_accel_bounds lm hsqrt dt |diff| a ha hdt (abs_nonneg _) hf
  have hv := v_xy_des_eq_min lm hsqrt a dt diff ha hdt hf t
  have hm0 : 0 ≤ min t (min (t_accel lm dt |diff| a) (dt - t)) :=
    le_min ht0 (le_min h0 (by linarith))
  have hm1 : min t (min (t_accel lm dt |diff| a) (dt - t)) ≤ t_accel lm dt |diff| a :=
    le_trans (min_le_right _ _) (min_le_left _ _)
  refine ⟨?_, ?_, ?_, ?_, ?_, ?_⟩
  · intro h
    rw [hv, min_eq_left (le_min h (by linarith))]
  · intro ha1 ha2
    rw [hv, min_eq_left (show t_accel lm dt |diff| a ≤ dt - t by linarith), min_eq_right ha1]
  · intro h
    rw [hv, min_eq_right (show dt - t ≤ t_accel lm dt |diff| a by linarith),
      min_eq_right (show dt - t ≤ t by linarith)]
  · rw [hv]
    have e : ((c_sign diff : Int) : ℝ) * a * min t (min (t_accel lm dt |diff| a) (dt - t)) * diff
        = a * min t (min (t_accel lm dt |diff| a) (dt - t)) * (diff * ((c_sign diff : Int) : ℝ)) := by
      ring
    rw [e, (c_sign_mul_abs diff).1]
    exact mul_nonneg (mul_nonneg ha.le hm0) (abs_nonneg _)
  · rw [hv, abs_mul, abs_mul, abs_of_pos ha, abs_of_nonneg hm0]
    have hs := c_sign_abs_le_one diff
    have hs0 : 0 ≤ |((c_sign diff : Int) : ℝ)| := abs_nonneg _
    calc |((c_sign diff : Int) : ℝ)| * a * min t (min (t_accel lm dt |diff| a) (dt - t))
        ≤ 1 * a * min t (min (t_accel lm dt |diff| a) (dt - t)) := by
          apply mul_le_mul_of_nonneg_right _ hm0
          exact mul_le_mul_of_nonneg_right hs ha.le
      _ ≤ a * t_accel lm dt |diff| a := by
          rw [one_mul]
          exact mul_le_mul_of_nonneg_left hm1 ha.le
  · have : t_accel lm dt |diff| a ≤ dt / 2 := by linarith
    calc a * t_accel lm dt |diff| a ≤ a * (dt / 2) := mul_le_mul_of_nonneg_left this ha.le
      _ = a * dt / 2 := by ring

/-- C11: take a call of `__traject_new` whose segment choice does not end the run,
`w1` being the state that choice leaves, `ra` and `rb` the rows `step` and `step + 1` of the
table there, `dt = t_2 - t_1 > 0` and `ACCEL_MAX > 0`.  The call returns the state the
profile part computes at the in-segment time `(t_curr - test_start) / 1000 - t_1`; and for
a feasible displacement and every `t_test` in `[0, dt]` the x_r (and y_r) velocity the
profile part computes is `sign(diff) * a_max * t_test` on `[0, t_a]`,
`sign(diff) * a_max * t_a` on the plateau and `sign(diff) * a_max * (dt - t_test)` on the
last `t_a`; it never has the sign opposite to the displacement and its magnitude is at
most `a_max * t_a`, which is at most `a_max * dt / 2`. -/
theorem traject_profile_shape {M : Type} (cfg : jb_main_defs ℝ) (lm : libm ℝ)
    (nanos : Nat) (w w1 : World ℝ M) (ra rb : traj_row ℝ) (t : ℝ)
    (hsqrt : lm.sqrt = Real.sqrt) (ha : 0 < cfg.ACCEL_MAX)
    (hsel : traject_select (traject_clock nanos w) = some (false, w1))
    (hra : row_at w1.trajec_mat w1.cstate.step = some ra)
    (hrb : row_at w1.trajec_mat (w1.cstate.step + 1) = some rb)
    (hdt : 0 < w1.cstate.t_2 - w1.cstate.t_1)
    (ht0 : 0 ≤ t) (ht1 : t ≤ w1.cstate.t_2 - w1.cstate.t_1) :
    traject_new cfg lm nanos w = some (traject_profile cfg lm w1 ra rb
      (elapsed_s w1.cstate.t_curr w1.test_start - w1.cstate.t_1)) ∧
    ((w1.cstate.t_2 - w1.cstate.t_1) ^ 2 ≥ 4 * |rb.xr - ra.xr| / cfg.ACCEL_MAX →
      (t ≤ t_accel lm (w1.cstate.t_2 - w1.cstate.t_1) |rb.xr - ra.xr| cfg.ACCEL_MAX →
        (traject_profile cfg lm w1 ra rb t).cstate.v_xr_des =
          ((c_sign (rb.xr - ra.xr) : Int) : ℝ) * cfg.ACCEL_MAX * t) ∧
      (t_accel lm (w1.cstate.t_2 - w1.cstate.t_1) |rb.xr - ra.xr| cfg.ACCEL_MAX ≤ t →
        t ≤ w1.cstate.t_2 - w1.cstate.t_1
          - t_accel lm (w1.cstate.t_2 - w1.cstate.t_1) |rb.xr - ra.xr| cfg.ACCEL_MAX →
        (traject_profile cfg lm w1 ra rb t).cstate.v_xr_des =
          ((c_sign (rb.xr - ra.xr) : Int) : ℝ) * cfg.ACCEL_MAX
            * t_accel lm (w1.cstate.t_2 - w1.cstate.t_1) |rb.xr - ra.xr| cfg.ACCEL_MAX) ∧
      (w1.cstate.t_2 - w1.cstate.t_1
          - t_accel lm (w1.cstate.t_2 - w1.cstate.t_1) |rb.xr - ra.xr| cfg.ACCEL_MAX ≤ t →
        (traject_profile cfg lm w1 ra rb t).cstate.v_xr_des =
          ((c_sign (rb.xr - ra.xr) : Int) : ℝ) * cfg.ACCEL_MAX
            * (w1.cstate.t_2 - w1.cstate.t_1 - t)) ∧
      0 ≤ (traject_profile cfg lm w1 ra rb t).cstate.v_xr_des * (rb.xr - ra.xr) ∧
      |(traject_profile cfg lm w1 ra rb t).cstate.v_xr_des| ≤ cfg.ACCEL_MAX
        * t_accel lm (w1.cstate.t_2 - w1.cstate.t_1) |rb.xr - ra.xr| cfg.ACCEL_MAX ∧
      cfg.ACCEL_MAX * t_accel lm (w1.cstate.t_2 - w1.cstate.t_1) |rb.xr - ra.xr| cfg.ACCEL_MAX
        ≤ cfg.ACCEL_MAX * (w1.cstate.t_2 - w1.cstate.t_1) / 2) ∧
    ((w1.cstate.t_2 - w1.cstate.t_1) ^ 2 ≥ 4 * |rb.yr - ra.yr| / cfg.ACCEL_MAX →
      (t ≤ t_accel lm (w1.cstate.t_2 - w1.cstate.t_1) |rb.yr - ra.yr| cfg.ACCEL_MAX →
        (traject_profile cfg lm w1 ra rb t).cstate.v_yr_des =
          ((c_sign (rb.yr - ra.yr) : Int) : ℝ) * cfg.ACCEL_MAX * t) ∧
      (t_accel lm (w1.cstate.t_2 - w1.cstate.t_1) |rb.yr - ra.yr| cfg.ACCEL_MAX ≤ t →
        t ≤ w1.cstate.t_2 - w1.cstate.t_1
          - t_accel lm (w1.cstate.t_2 - w1.cstate.t_1) |rb.yr - ra.yr| cfg.ACCEL_MAX →
        (traject_profile cfg lm w1 ra rb t).cstate.v_yr_des =
          ((c_sign (rb.yr - ra.yr) : Int) : ℝ) * cfg.ACCEL_MAX
            * t_accel lm (w1.cstate.t_2 - w1.cstate.t_1) |rb.yr - ra.yr| cfg.ACCEL_MAX) ∧
      (w1.cstate.t_2 - w1.cstate.t_1
          - t_accel lm (w1.cstate.t_2 - w1.cstate.t_1) |rb.yr - ra.yr| cfg.ACCEL_MAX ≤ t →
        (traject_profile cfg lm w1 ra rb t).cstate.v_yr_des =
          ((c_sign (rb.yr - ra.yr) : Int) : ℝ) * cfg.ACCEL_MAX
            * (w1.cstate.t_2 - w1.cstate.t_1 - t)) ∧
      0 ≤ (traject_profile cfg lm w1 ra rb t).cstate.v_yr_des * (rb.yr - ra.yr) ∧
      |(traject_profile cfg lm w1 ra rb t).cstate.v_yr_des| ≤ cfg.ACCEL_MAX
        * t_accel lm (w1.cstate.t_2 - w1.cstate.t_1) |rb.yr - ra.yr| cfg.ACCEL_MAX ∧
      cfg.ACCEL_MAX * t_accel lm (w1.cstate.t_2 - w1.cstate.t_1) |rb.yr - ra.yr| cfg.ACCEL_MAX
        ≤ cfg.ACCEL_MAX * (w1.cstate.t_2 - w1.cstate.t_1) / 2) :=
  ⟨traject_new_profile cfg lm nanos w w1 ra rb hsel (by linarith) hra hrb,
    fun hf => v_xy_des_shape lm hsqrt cfg.ACCEL_MAX _ _ ha hdt hf t ht0 ht1,
    fun hf => v_xy_des_shape lm hsqrt cfg.ACCEL_MAX _ _ ha hdt hf t ht0 ht1⟩

/-- C11, at a concrete input: the call at 15.5 s on the test table, from the second
segment (10 s to 20 s, x_r from 125 to 75), in-segment time 4.5 s: the `v_xr_des` the call
stores does not have the sign opposite to the displacement -50, and its magnitude is at
most `ACCEL_MAX * dt / 2 = 50`. -/
theorem traject_profile_shape_witness :
    ∃ w2, traject_new (test_defs ℝ Real.pi) ⟨Real.sqrt, Real.cos, Real.sin, Real.pi⟩
        15500000000 (armed_final ℝ Unit () 0) = some w2 ∧
      0 ≤ w2.cstate.v_xr_des * (75 - 125) ∧ |w2.cstate.v_xr_des| ≤ 50 := by
  have hrows : 2 ≤ rows (armed_final ℝ Unit () 0).trajec_mat := by
    simp [rows, armed_final, armed_world, test_table]
  have hc := traject_clock_of_rows 15500000000 (armed_final ℝ Unit () 0) hrows
  have hsel := traject_select_hold (traject_clock 15500000000 (armed_final ℝ Unit () 0))
    ⟨20, 75, 0, 0⟩
    (by rw [hc]; simp [row_at, armed_final, armed_world, test_table, cstate_zero])
    (by rw [hc]; norm_num [elapsed_s, U64, armed_final, armed_world])
  have h := traject_profile_shape (test_defs ℝ Real.pi)
    ⟨Real.sqrt, Real.cos, Real.sin, Real.pi⟩ 15500000000 (armed_final ℝ Unit () 0) _
    ⟨10, 125, 0, 0⟩ ⟨20, 75, 0, 0⟩
    (elapsed_s (traject_clock 15500000000 (armed_final ℝ Unit () 0)).cstate.t_curr
      (traject_clock 15500000000 (armed_final ℝ Unit () 0)).test_start
      - (traject_clock 15500000000 (armed_final ℝ Unit () 0)).cstate.t_1)
    rfl (by norm_num [test_defs]) hsel
    (by rw [hc]; simp [row_at, armed_final, armed_world, test_table, cstate_zero])
    (by rw [hc]; simp [row_at, armed_final, armed_world, test_table, cstate_zero])
    (by rw [hc]; norm_num [armed_final, armed_world])
    (by rw [hc]; norm_num [elapsed_s, U64, armed_final, armed_world])
    (by rw [hc]; norm_num [elapsed_s, U64, armed_final, armed_world])
  obtain ⟨hnew, hx, -⟩ := h
  have hfeas : ((traject_clock 15500000000 (armed_final ℝ Unit () 0)).cstate.t_2
      - (traject_clock 15500000000 (armed_final ℝ Unit () 0)).cstate.t_1) ^ 2
      ≥ 4 * |(75 : ℝ) - 125| / (test_defs ℝ Real.pi).ACCEL_MAX := by
    rw [hc]
    norm_num [armed_final, armed_world, test_defs, abs_of_neg]
  obtain ⟨-, -, -, hsgn, hmag, hhalf⟩ := hx hfeas
  refine ⟨_, hnew, hsgn, le_trans hmag (le_trans hhalf ?_)⟩
  rw [hc]
  norm_num [armed_final, armed_world, test_defs]

/-! ## Termination and refusal of the planner -/

/-- The call on the final segment with the final waypoint time reached. -/
theorem traject_new_final {K M : Type} [LinearOrderedField K] (cfg : jb_main_defs K)
    (lm : libm K) (nanos : Nat) (w : World K M) (r1 : traj_row K)
    (hrows : 2 ≤ rows w.trajec_mat)
    (hr1 : row_at w.trajec_mat (w.cstate.step + 1) = some r1)
    (hlast : rows w.trajec_mat ≤ w.cstate.step + 2)
    (hnow : elapsed_s (nanos % U64 / 1000000) w.test_start ≥ r1.t) :
    traject_new cfg lm nanos w = some { disarm_controller (traject_clock nanos w) with
      cstate := { (traject_clock nanos w).cstate with v_xr_des := 0, v_yr_des := 0 }
      rc_state := rc_state_t.EXITING } := by
  have hc := traject_clock_of_rows nanos w hrows
  have hs := traject_select_final (traject_clock nanos w) r1
    (by rw [hc]; exact hr1) (by rw [hc]; exact hlast) (by rw [hc]; exact hnow)
  unfold traject_new
  rw [hs]

/-- The call on a table of fewer than 2 rows, from a non-negative `step`: after
the disarm the segment choice reads row `step + 1`, which does not exist. -/
theorem traject_new_short_table {K M : Type} [LinearOrderedField K] (cfg : jb_main_defs K)
    (lm : libm K) (nanos : Nat) (w : World K M) (hrows : rows w.trajec_mat < 2)
    (hstep : 0 ≤ w.cstate.step) :
    (traject_clock nanos w).setpoint.arm_state = arm_state_t.DISARMED ∧
      traject_new cfg lm nanos w = none := by
  have hc : traject_clock nanos w = disarm_controller
      { w with cstate := { w.cstate with t_curr := nanos % U64 / 1000000 } } := by
    unfold traject_clock
    simp only
    rw [if_pos hrows]
  have hnone : row_at w.trajec_mat (w.cstate.step + 1) = none := by
    cases hr : row_at w.trajec_mat (w.cstate.step + 1) with
    | none => rfl
    | some r =>
      have := (row_at_bounds hr).2
      omega
  refine ⟨by rw [hc]; rfl, ?_⟩
  have hsel : traject_select (traject_clock nanos w) = none := by
    unfold traject_select
    rw [hc]
    show (match row_at w.trajec_mat (w.cstate.step + 1) with
      | none => none
      | some r1 => _) = none
    rw [hnone]
  unfold traject_new
  rw [hsel]

/-- C12, the code at the failing input: on the final segment of the test table
at 30 s, with desired velocities 0.05, 0 and -0.05 left by the previous tick, the call
terminates the run, zeroes `v_xr_des` and `v_yr_des` and leaves `v_z_des` at -0.05. -/
theorem traject_new_final_keeps_v_z_des :
    ∃ w1, traject_new (test_defs ℝ Real.pi) ⟨Real.sqrt, Real.cos, Real.sin, Real.pi⟩
        30000000000 (with_v_des (armed_final ℝ Unit () 0) 0.05 0 (-0.05)) = some w1 ∧
      w1.setpoint.arm_state = arm_state_t.DISARMED ∧ w1.rc_state = rc_state_t.EXITING ∧
      w1.cstate.v_xr_des = 0 ∧ w1.cstate.v_yr_des = 0 ∧ w1.cstate.v_z_des = -0.05 := by
  have h := traject_new_final (test_defs ℝ Real.pi) ⟨Real.sqrt, Real.cos, Real.sin, Real.pi⟩
    30000000000 (with_v_des (armed_final ℝ Unit () 0) 0.05 0 (-0.05)) ⟨20, 75, 0, 0⟩
    (by simp [rows, with_v_des, armed_final, armed_world, test_table])
    (by simp [row_at, with_v_des, armed_final, armed_world, test_table, cstate_zero])
    (by simp [rows, with_v_des, armed_final, armed_world, test_table, cstate_zero])
    (by norm_num [elapsed_s, U64, with_v_des, armed_final, armed_world])
  refine ⟨_, h, rfl, rfl, rfl, rfl, ?_⟩
  rw [traject_clock_of_rows _ _ (by simp [rows, with_v_des, armed_final, armed_world,
    test_table])]
  rfl

/-- C13, the code at the failing input: on a table of one row the call sets
`arm_state` to DISARMED and then, instead of returning, reads row 1 of the table, which
does not exist. -/
theorem traject_new_one_row_reads_outside :
    (traject_clock 5000000000 (one_row_world ℝ Unit () 0)).setpoint.arm_state
        = arm_state_t.DISARMED ∧
      row_at (one_row_world ℝ Unit () 0).trajec_mat
        ((one_row_world ℝ Unit () 0).cstate.step + 1) = none ∧
      traject_new (test_defs ℝ Real.pi) ⟨Real.sqrt, Real.cos, Real.sin, Real.pi⟩
        5000000000 (one_row_world ℝ Unit () 0) = none := by
  have h := traject_new_short_table (test_defs ℝ Real.pi)
    ⟨Real.sqrt, Real.cos, Real.sin, Real.pi⟩ 5000000000 (one_row_world ℝ Unit () 0)
    (by simp [rows, one_row_world]) (by simp [one_row_world, armed_world, cstate_zero])
  exact ⟨h.1, by simp [row_at, one_row_world, armed_world, cstate_zero], h.2⟩

/-! ## Arming -/

theorem arm_controller_effect {K M : Type} [LinearOrderedField K] (cfg : jb_main_defs K)
    (fl : rc_filter_lib K M) (w : World K M) :
    (arm_controller cfg fl w).D1 = ⟨w.D1.gain, fl.reset w.D1.mem⟩ ∧
    (arm_controller cfg fl w).D4 = ⟨w.D4.gain, fl.reset w.D4.mem⟩ ∧
    (arm_controller cfg fl w).D2 = ⟨w.D2.gain, fl.reset w.D2.mem⟩ ∧
    (arm_controller cfg fl w).D3 = ⟨w.D3.gain, fl.reset w.D3.mem⟩ ∧
    (arm_controller cfg fl w).D5 = ⟨w.D5.gain, fl.reset w.D5.mem⟩ ∧
    (arm_controller cfg fl w).hw = w.hw ++ [hw_call.jb_rc_motor_set 0 0,
      hw_call.jb_rc_motor_set 4 0, hw_call.jb_rc_motor_set 5 0,
      hw_call.rc_encoder_write cfg.ENCODER_CHANNEL_1 0,
      hw_call.rc_encoder_write cfg.ENCODER_CHANNEL_4 0,
      hw_call.rc_encoder_write cfg.ENCODER_CHANNEL_2 0,
      hw_call.rc_encoder_write cfg.ENCODER_CHANNEL_3 0,
      hw_call.rc_encoder_write cfg.ENCODER_CHANNEL_5 0,
      hw_call.jb_rc_motor_standby 0] ∧
    (arm_controller cfg fl w).setpoint.arm_state = arm_state_t.ARMED := by
  refine ⟨rfl, rfl, rfl, rfl, rfl, ?_, rfl⟩
  simp only [arm_controller, zero_out_controller, List.append_assoc, List.cons_append,
    List.nil_append]

/-- C14, as the code has it: `__arm_controller` does not look at `arm_state`;
called while already ARMED it resets the memory of the five filters as it does from
DISARMED, and leaves their gains. -/
theorem arm_controller_resets_when_armed {K M : Type} [LinearOrderedField K]
    (cfg : jb_main_defs K) (fl : rc_filter_lib K M) (w : World K M)
    (_harmed : w.setpoint.arm_state = arm_state_t.ARMED) :
    (arm_controller cfg fl w).D1.mem = fl.reset w.D1.mem ∧
    (arm_controller cfg fl w).D2.mem = fl.reset w.D2.mem ∧
    (arm_controller cfg fl w).D3.mem = fl.reset w.D3.mem ∧
    (arm_controller cfg fl w).D4.mem = fl.reset w.D4.mem ∧
    (arm_controller cfg fl w).D5.mem = fl.reset w.D5.mem ∧
    (arm_controller cfg fl w).D1.gain = w.D1.gain ∧
    (arm_controller cfg fl w).D2.gain = w.D2.gain ∧
    (arm_controller cfg fl w).D3.gain = w.D3.gain ∧
    (arm_controller cfg fl w).D4.gain = w.D4.gain ∧
    (arm_controller cfg fl w).D5.gain = w.D5.gain :=
  ⟨rfl, rfl, rfl, rfl, rfl, rfl, rfl, rfl, rfl, rfl⟩

/-- C14, at a concrete input: the armed world with integrating filters whose
sums are 3. -/
theorem arm_controller_resets_when_armed_witness :
    (armed_world ℝ ℝ 3 0).setpoint.arm_state = arm_state_t.ARMED ∧
      (arm_controller (test_defs ℝ Real.pi) sum_filter (armed_world ℝ ℝ 3 0)).D1.mem
        = sum_filter.reset (armed_world ℝ ℝ 3 0).D1.mem :=
  ⟨rfl, (arm_controller_resets_when_armed (test_defs ℝ Real.pi) sum_filter
    (armed_world ℝ ℝ 3 0) rfl).1⟩

/-- C14 fails as stated.  In the armed world with integrating filters whose
sums are 3, a call to `__arm_controller` leaves the sum of D1 at 0. -/
theorem arm_controller_resets_when_armed_counterexample :
    (armed_world ℝ ℝ 3 0).setpoint.arm_state = arm_state_t.ARMED ∧
      (armed_world ℝ ℝ 3 0).D1.mem = 3 ∧
      (arm_controller (test_defs ℝ Real.pi) sum_filter (armed_world ℝ ℝ 3 0)).D1.mem = 0 ∧
      (arm_controller (test_defs ℝ Real.pi) sum_filter (armed_world ℝ ℝ 3 0)).D1.mem
        ≠ (armed_world ℝ ℝ 3 0).D1.mem := by
  refine ⟨rfl, rfl, rfl, ?_⟩
  show (0 : ℝ) ≠ 3
  norm_num

/-- C15: from DISARMED, `__arm_controller` resets the memory of the five
filters, writes 0 to the five encoder channels, takes the motors out of standby (after
zeroing the motor commands) and leaves `arm_state` ARMED. -/
theorem arm_controller_from_disarmed {K M : Type} [LinearOrderedField K]
    (cfg : jb_main_defs K) (fl : rc_filter_lib K M) (w : World K M)
    (_hdis : w.setpoint.arm_state = arm_state_t.DISARMED) :
    (arm_controller cfg fl w).D1.mem = fl.reset w.D1.mem ∧
    (arm_controller cfg fl w).D2.mem = fl.reset w.D2.mem ∧
    (arm_controller cfg fl w).D3.mem = fl.reset w.D3.mem ∧
    (arm_controller cfg fl w).D4.mem = fl.reset w.D4.mem ∧
    (arm_controller cfg fl w).D5.mem = fl.reset w.D5.mem ∧
    (arm_controller cfg fl w).hw = w.hw ++ [hw_call.jb_rc_motor_set 0 0,
      hw_call.jb_rc_motor_set 4 0, hw_call.jb_rc_motor_set 5 0,
      hw_call.rc_encoder_write cfg.ENCODER_CHANNEL_1 0,
      hw_call.rc_encoder_write cfg.ENCODER_CHANNEL_4 0,
      hw_call.rc_encoder_write cfg.ENCODER_CHANNEL_2 0,
      hw_call.rc_encoder_write cfg.ENCODER_CHANNEL_3 0,
      hw_call.rc_encoder_write cfg.ENCODER_CHANNEL_5 0,
      hw_call.jb_rc_motor_standby 0] ∧
    (arm_controller cfg fl w).setpoint.arm_state = arm_state_t.ARMED :=
  ⟨rfl, rfl, rfl, rfl, rfl, (arm_controller_effect cfg fl w).2.2.2.2.2.1, rfl⟩

/-- C15, at a concrete input: the disarmed test world with integrating filters
whose sums are 3. -/
theorem arm_controller_from_disarmed_witness :
    (disarm_controller (armed_world ℝ ℝ 3 0)).setpoint.arm_state = arm_state_t.DISARMED ∧
      (arm_controller (test_defs ℝ Real.pi) sum_filter
        (disarm_controller (armed_world ℝ ℝ 3 0))).setpoint.arm_state = arm_state_t.ARMED ∧
      (arm_controller (test_defs ℝ Real.pi) sum_filter
        (disarm_controller (armed_world ℝ ℝ 3 0))).D1.mem = 0 :=
  ⟨rfl, (arm_controller_from_disarmed (test_defs ℝ Real.pi) sum_filter
      (disarm_controller (armed_world ℝ ℝ 3 0)) rfl).2.2.2.2.2.2,
    (arm_controller_from_disarmed (test_defs ℝ Real.pi) sum_filter
      (disarm_controller (armed_world ℝ ℝ 3 0)) rfl).1⟩

/-! ## The start gesture -/

/-- A poll with new data, e-stop value at least 1100 and `test_start` above
999999999 sets `test_start` to the clock in milliseconds and arms. -/
theorem estop_reader_iter_start {K M : Type} [LinearOrderedField K] (cfg : jb_main_defs K)
    (fl : rc_filter_lib K M) (inp : dsm_input) (w : World K M)
    (hnew : inp.is_new_data ≠ 0)
    (he : rc_saturate_double ((inp.ch_raw 5 : Int) : K) 900 2100 ≥ 1100)
    (hts : w.test_start > 999999999) :
    estop_reader_iter cfg fl inp w = arm_controller cfg fl { w with
      e_stop_switch := rc_saturate_double ((inp.ch_raw 5 : Int) : K) 900 2100
      test_start := inp.nanos % U64 / 1000000 } := by
  unfold estop_reader_iter
  simp only [hnew, ne_eq, not_false_eq_true, if_true, hts, he, and_self]
  rw [if_neg]
  intro h
  exact absurd h.1 (not_lt.mpr he)

/-- A poll that finds `test_start` at most 999999999 neither changes
`test_start` nor touches the filters. -/
theorem estop_reader_iter_no_start {K M : Type} [LinearOrderedField K] (cfg : jb_main_defs K)
    (fl : rc_filter_lib K M) (inp : dsm_input) (w : World K M)
    (hts : w.test_start ≤ 999999999) :
    (estop_reader_iter cfg fl inp w).test_start = w.test_start ∧
      (estop_reader_iter cfg fl inp w).D1 = w.D1 ∧ (estop_reader_iter cfg fl inp w).D2 = w.D2 ∧
      (estop_reader_iter cfg fl inp w).D3 = w.D3 ∧ (estop_reader_iter cfg fl inp w).D4 = w.D4 ∧
      (estop_reader_iter cfg fl inp w).D5 = w.D5 := by
  have hn : ¬ (w.test_start > 999999999) := by omega
  unfold estop_reader_iter
  simp only [hn, false_and, if_false]
  split_ifs <;> exact ⟨rfl, rfl, rfl, rfl, rfl, rfl⟩

/-- C16, the code at the failing input: with the boot clock at 10^15 ns (about
11.6 days) the first poll arms and sets `test_start` to 1000000000 ms, which is still
above 999999999; the poll 100 ms later, with new data and e-stop value 1500, sets
`test_start` again (to 1000000100) and calls `__arm_controller` again. -/
theorem estop_reader_start_twice :
    (estop_reader (test_defs ℝ Real.pi) sum_filter [dsm_new_data 1500 1000000000000000]
        (main_world ℝ ℝ 3 5000000000)).setpoint.arm_state = arm_state_t.ARMED ∧
    (estop_reader (test_defs ℝ Real.pi) sum_filter [dsm_new_data 1500 1000000000000000]
        (main_world ℝ ℝ 3 5000000000)).test_start = 1000000000 ∧
    (estop_reader (test_defs ℝ Real.pi) sum_filter
        [dsm_new_data 1500 1000000000000000, dsm_new_data 1500 1000000100000000]
        (main_world ℝ ℝ 3 5000000000)).test_start = 1000000100 ∧
    (estop_reader (test_defs ℝ Real.pi) sum_filter
        [dsm_new_data 1500 1000000000000000, dsm_new_data 1500 1000000100000000]
        (main_world ℝ ℝ 3 5000000000)).hw =
      (estop_reader (test_defs ℝ Real.pi) sum_filter [dsm_new_data 1500 1000000000000000]
        (main_world ℝ ℝ 3 5000000000)).hw ++
        [hw_call.jb_rc_motor_set 0 0, hw_call.jb_rc_motor_set 4 0,
          hw_call.jb_rc_motor_set 5 0,
          hw_call.rc_encoder_write 1 0, hw_call.rc_encoder_write 2 0,
          hw_call.rc_encoder_write 3 0, hw_call.rc_encoder_write 4 0,
          hw_call.rc_encoder_write 5 0, hw_call.jb_rc_motor_standby 0] := by
  have he : ∀ n : Nat, rc_saturate_double
      (((dsm_new_data 1500 n).ch_raw 5 : Int) : ℝ) 900 2100 ≥ 1100 := by
    intro n
    norm_num [rc_saturate_double, dsm_new_data]
  have h1 := estop_reader_iter_start (test_defs ℝ Real.pi) sum_filter
    (dsm_new_data 1500 1000000000000000) (main_world ℝ ℝ 3 5000000000)
    (by decide) (he _) (by norm_num [main_world])
  have hrun : (main_world ℝ ℝ 3 5000000000).rc_state ≠ rc_state_t.EXITING := by
    simp [main_world, armed_world]
  have e1 : estop_reader (test_defs ℝ Real.pi) sum_filter [dsm_new_data 1500 1000000000000000]
      (main_world ℝ ℝ 3 5000000000) = estop_reader_iter (test_defs ℝ Real.pi) sum_filter
        (dsm_new_data 1500 1000000000000000) (main_world ℝ ℝ 3 5000000000) := by
    simp only [estop_reader, hrun, if_false]
  have ts1 : (estop_reader_iter (test_defs ℝ Real.pi) sum_filter
      (dsm_new_data 1500 1000000000000000) (main_world ℝ ℝ 3 5000000000)).test_start
      = 1000000000 := by
    rw [h1]
    show 1000000000000000 % U64 / 1000000 = 1000000000
    norm_num [U64]
  have hrun1 : (estop_reader_iter (test_defs ℝ Real.pi) sum_filter
      (dsm_new_data 1500 1000000000000000) (main_world ℝ ℝ 3 5000000000)).rc_state
      ≠ rc_state_t.EXITING := by
    rw [h1]
    exact hrun
  have h2 := estop_reader_iter_start (test_defs ℝ Real.pi) sum_filter
    (dsm_new_data 1500 1000000100000000) (estop_reader_iter (test_defs ℝ Real.pi) sum_filter
      (dsm_new_data 1500 1000000000000000) (main_world ℝ ℝ 3 5000000000))
    (by decide) (he _) (by rw [ts1]; norm_num)
  have e2 : estop_reader (test_defs ℝ Real.pi) sum_filter
      [dsm_new_data 1500 1000000000000000, dsm_new_data 1500 1000000100000000]
      (main_world ℝ ℝ 3 5000000000) = estop_reader_iter (test_defs ℝ Real.pi) sum_filter
        (dsm_new_data 1500 1000000100000000) (estop_reader_iter (test_defs ℝ Real.pi)
          sum_filter (dsm_new_data 1500 1000000000000000) (main_world ℝ ℝ 3 5000000000)) := by
    simp only [estop_reader, hrun, hrun1, if_false]
  rw [e2, e1]
  refine ⟨?_, ts1, ?_, ?_⟩
  · rw [h1]
    rfl
  · rw [h2]
    show 1000000100000000 % U64 / 1000000 = 1000000100
    norm_num [U64]
  · rw [h2, (arm_controller_effect _ _ _).2.2.2.2.2.1]
    rfl

/-! ## What a call and a tick leave unchanged -/

theorem traject_clock_keeps {K M : Type} (nanos : Nat) (w : World K M) :
    (traject_clock nanos w).cstate.vBatt = w.cstate.vBatt ∧
      (traject_clock nanos w).inner_saturation_counter = w.inner_saturation_counter ∧
      (traject_clock nanos w).rc_state = w.rc_state ∧
      ((traject_clock nanos w).setpoint.arm_state = w.setpoint.arm_state ∨
        (traject_clock nanos w).setpoint.arm_state = arm_state_t.DISARMED) := by
  unfold traject_clock
  simp only
  split_ifs
  · exact ⟨rfl, rfl, rfl, Or.inr rfl⟩
  · exact ⟨rfl, rfl, rfl, Or.inl rfl⟩

theorem traject_select_keeps {K M : Type} [LinearOrderedField K] (w w1 : World K M)
    (b : Bool) (h : traject_select w = some (b, w1)) :
    w1.cstate.vBatt = w.cstate.vBatt ∧
      w1.inner_saturation_counter = w.inner_saturation_counter ∧
      ((w1.rc_state = w.rc_state ∧ w1.setpoint.arm_state = w.setpoint.arm_state) ∨
        (w1.rc_state = rc_state_t.EXITING ∧
          w1.setpoint.arm_state = arm_state_t.DISARMED)) := by
  unfold traject_select at h
  cases hr1 : row_at w.trajec_mat (w.cstate.step + 1) with
  | none =>
    rw [hr1] at h
    exact Option.noConfusion h
  | some r1 =>
    rw [hr1] at h
    simp only at h
    by_cases hlt : w.cstate.step + 2 < rows w.trajec_mat
    · rw [if_pos hlt] at h
      by_cases hnow : elapsed_s w.cstate.t_curr w.test_start ≥ r1.t
      · rw [if_pos hnow] at h
        cases hr2 : row_at w.trajec_mat (w.cstate.step + 1 + 1) with
        | none =>
          rw [hr2] at h
          exact Option.noConfusion h
        | some r2 =>
          rw [hr2] at h
          simp only [Option.some.injEq, Prod.mk.injEq] at h
          obtain ⟨-, rfl⟩ := h
          exact ⟨rfl, rfl, Or.inl ⟨rfl, rfl⟩⟩
      · rw [if_neg hnow] at h
        simp only [Option.some.injEq, Prod.mk.injEq] at h
        obtain ⟨-, rfl⟩ := h
        exact ⟨rfl, rfl, Or.inl ⟨rfl, rfl⟩⟩
    · rw [if_neg hlt] at h
      by_cases hnow : elapsed_s w.cstate.t_curr w.test_start ≥ r1.t
      · rw [if_pos hnow] at h
        simp only [Option.some.injEq, Prod.mk.injEq] at h
        obtain ⟨-, rfl⟩ := h
        exact ⟨rfl, rfl, Or.inr ⟨rfl, rfl⟩⟩
      · rw [if_neg hnow] at h
        simp only [Option.some.injEq, Prod.mk.injEq] at h
        obtain ⟨-, rfl⟩ := h
        exact ⟨rfl, rfl, Or.inl ⟨rfl, rfl⟩⟩

theorem traject_rest_keeps {K M : Type} [LinearOrderedField K] (cfg : jb_main_defs K)
    (lm : libm K) (w w1 : World K M) (h : traject_rest cfg lm w = some w1) :
    w1.cstate.vBatt = w.cstate.vBatt ∧
      w1.inner_saturation_counter = w.inner_saturation_counter ∧
      w1.rc_state = w.rc_state ∧ w1.setpoint.arm_state = w.setpoint.arm_state := by
  unfold traject_rest at h
  by_cases ht : w.cstate.t_1 > w.cstate.t_2
  · rw [if_pos ht] at h
    simp only [Option.some.injEq] at h
    subst h
    exact ⟨rfl, rfl, rfl, rfl⟩
  · rw [if_neg ht] at h
    cases hrb : row_at w.trajec_mat (w.cstate.step + 1) with
    | none =>
      rw [hrb] at h
      exact Option.noConfusion h
    | some rb =>
      cases hra : row_at w.trajec_mat w.cstate.step with
      | none =>
        rw [hrb, hra] at h
        exact Option.noConfusion h
      | some ra =>
        rw [hrb, hra] at h
        simp only [Option.some.injEq] at h
        subst h
        exact ⟨rfl, rfl, rfl, rfl⟩

/-- What every defined call of `__traject_new` keeps: the battery voltage, the
saturation counter, and either the process state (the arm state being kept or set to
DISARMED) or, when it sets EXITING, a DISARMED arm state. -/
theorem traject_new_keeps {K M : Type} [LinearOrderedField K] (cfg : jb_main_defs K)
    (lm : libm K) (nanos : Nat) (w w1 : World K M)
    (h : traject_new cfg lm nanos w = some w1) :
    w1.cstate.vBatt = w.cstate.vBatt ∧
      w1.inner_saturation_counter = w.inner_saturation_counter ∧
      ((w1.rc_state = w.rc_state ∧ (w1.setpoint.arm_state = w.setpoint.arm_state ∨
          w1.setpoint.arm_state = arm_state_t.DISARMED)) ∨
        (w1.rc_state = rc_state_t.EXITING ∧
          w1.setpoint.arm_state = arm_state_t.DISARMED)) := by
  obtain ⟨c1, c2, c3, c4⟩ := traject_clock_keeps nanos w
  unfold traject_new at h
  cases hs : traject_select (traject_clock nanos w) with
  | none =>
    rw [hs] at h
    exact Option.noConfusion h
  | some p =>
    obtain ⟨b, w2⟩ := p
    obtain ⟨s1, s2, s3⟩ := traject_select_keeps _ _ _ hs
    rw [hs] at h
    have key : w2.cstate.vBatt = w.cstate.vBatt ∧
        w2.inner_saturation_counter = w.inner_saturation_counter ∧
        ((w2.rc_state = w.rc_state ∧ (w2.setpoint.arm_state = w.setpoint.arm_state ∨
            w2.setpoint.arm_state = arm_state_t.DISARMED)) ∨
          (w2.rc_state = rc_state_t.EXITING ∧
            w2.setpoint.arm_state = arm_state_t.DISARMED)) := by
      refine ⟨s1.trans c1, s2.trans c2, ?_⟩
      rcases s3 with ⟨r, a⟩ | ⟨r, a⟩
      · refine Or.inl ⟨r.trans c3, ?_⟩
        rcases c4 with c | c
        · exact Or.inl (a.trans c)
        · exact Or.inr (a.trans c)
      · exact Or.inr ⟨r, a⟩
    cases b with
    | true =>
      simp only [Option.some.injEq] at h
      subst h
      exact key
    | false =>
      simp only at h
      obtain ⟨r1, r2, r3, r4⟩ := traject_rest_keeps cfg lm w2 w1 h
      rw [r1, r2, r3, r4]
      exact key

/-- A tick that runs to its end started armed, and is the planner call followed
by the state estimation and the feedback part. -/
theorem position_controller_done {K M : Type} [LinearOrderedField K] (cfg : jb_main_defs K)
    (lm : libm K) (fl : rc_filter_lib K M) (nanos : Nat) (enc : Int → Int)
    (w w1 : World K M) (h : position_controller cfg lm fl nanos enc w = tick_result.done w1) :
    w.setpoint.arm_state ≠ arm_state_t.DISARMED ∧
      ∃ wp, traject_new cfg lm nanos w = some wp ∧
        w1 = control cfg fl { wp with cstate := state_estimation cfg lm enc wp.cstate } := by
  unfold position_controller at h
  by_cases hd : w.setpoint.arm_state = arm_state_t.DISARMED
  · rw [if_pos hd] at h
    exact tick_result.noConfusion h
  · rw [if_neg hd] at h
    cases hp : traject_new cfg lm nanos w with
    | none =>
      rw [hp] at h
      exact tick_result.noConfusion h
    | some wp =>
      rw [hp] at h
      simp only [tick_result.done.injEq] at h
      exact ⟨hd, wp, rfl, h.symm⟩

/-! ## Battery voltage and gains -/

/-- C18: one iteration of `__battery_checker` on the reading `v` stores
`vBatt = v` when `10 ≤ v ≤ 13` and `vBatt = V_NOMINAL` otherwise, and changes nothing else
in the world. -/
theorem battery_checker_iter_stores {K M : Type} [LinearOrderedField K]
    (cfg : jb_main_defs K) (v : K) (w : World K M) :
    (10 ≤ v → v ≤ 13 → (battery_checker_iter cfg v w).cstate.vBatt = v) ∧
    (¬ (10 ≤ v ∧ v ≤ 13) → (battery_checker_iter cfg v w).cstate.vBatt = cfg.V_NOMINAL) ∧
    battery_checker_iter cfg v w = { w with cstate := { w.cstate with
      vBatt := (battery_checker_iter cfg v w).cstate.vBatt } } ∧
    (battery_checker_iter cfg v w).setpoint = w.setpoint := by
  refine ⟨?_, ?_, rfl, rfl⟩
  · intro h1 h2
    show (if v > 13 ∨ v < 10 then cfg.V_NOMINAL else v) = v
    rw [if_neg]
    rintro (h | h)
    · exact absurd h (not_lt.mpr h2)
    · exact absurd h (not_lt.mpr h1)
  · intro h
    show (if v > 13 ∨ v < 10 then cfg.V_NOMINAL else v) = cfg.V_NOMINAL
    rw [if_pos]
    by_contra hc
    push_neg at hc
    exact h ⟨hc.2, hc.1⟩

/-- C18, at concrete inputs: a reading of 11.5 V is stored, a reading of 3 V is
replaced by `V_NOMINAL`. -/
theorem battery_checker_iter_stores_witness :
    (battery_checker_iter (test_defs ℝ Real.pi) 11.5 (armed_world ℝ Unit () 0)).cstate.vBatt
        = 11.5 ∧
      (battery_checker_iter (test_defs ℝ Real.pi) 3 (armed_world ℝ Unit () 0)).cstate.vBatt
        = (test_defs ℝ Real.pi).V_NOMINAL :=
  ⟨(battery_checker_iter_stores (test_defs ℝ Real.pi) 11.5 (armed_world ℝ Unit () 0)).1
      (by norm_num) (by norm_num),
    (battery_checker_iter_stores (test_defs ℝ Real.pi) 3 (armed_world ℝ Unit () 0)).2.1
      (by norm_num)⟩

theorem battery_checker_iter_written {K M : Type} [LinearOrderedField K]
    (cfg : jb_main_defs K) (v : K) (w : World K M) :
    vbatt_written cfg (battery_checker_iter cfg v w) := by
  unfold vbatt_written
  show (10 ≤ (if v > 13 ∨ v < 10 then cfg.V_NOMINAL else v) ∧
    (if v > 13 ∨ v < 10 then cfg.V_NOMINAL else v) ≤ 13) ∨
    (if v > 13 ∨ v < 10 then cfg.V_NOMINAL else v) = cfg.V_NOMINAL
  by_cases h : v > 13 ∨ v < 10
  · rw [if_pos h]
    exact Or.inr rfl
  · rw [if_neg h]
    push_neg at h
    exact Or.inl ⟨h.2, h.1⟩

theorem sys_step_keeps_vbatt_written {K M : Type} [LinearOrderedField K]
    (cfg : jb_main_defs K) (lm : libm K) (fl : rc_filter_lib K M) (w w1 : World K M)
    (hs : sys_step cfg lm fl w w1) (h : vbatt_written cfg w) : vbatt_written cfg w1 := by
  cases hs with
  | tick nanos enc _ _ ht =>
    obtain ⟨-, wp, hp, rfl⟩ := position_controller_done cfg lm fl nanos enc w w1 ht
    have hv := (traject_new_keeps cfg lm nanos w wp hp).1
    unfold vbatt_written at h ⊢
    have e : (control cfg fl { wp with
        cstate := state_estimation cfg lm enc wp.cstate }).cstate.vBatt = w.cstate.vBatt := hv
    rw [e]
    exact h
  | reader inp _ _ =>
    unfold vbatt_written at h ⊢
    have e : (estop_reader_iter cfg fl inp w).cstate.vBatt = w.cstate.vBatt := by
      unfold estop_reader_iter
      simp only
      split_ifs <;> rfl
    rw [e]
    exact h
  | battery v _ _ => exact battery_checker_iter_written cfg v w

theorem reachable_vbatt_written {K M : Type} [LinearOrderedField K]
    (cfg : jb_main_defs K) (lm : libm K) (fl : rc_filter_lib K M) (w0 w : World K M)
    (h0 : vbatt_written cfg w0) (hr : Relation.ReflTransGen (sys_step cfg lm fl) w0 w) :
    vbatt_written cfg w := by
  induction hr with
  | refl => exact h0
  | tail _ hs ih => exact sys_step_keeps_vbatt_written cfg lm fl _ _ hs ih

/-- C19: with `V_NOMINAL > 0`, from a state whose `vBatt` was written by the
battery checker or by the fallback of `main`, in every state reached by ticks, reader
iterations and battery iterations `vBatt` is strictly positive, and a tick from that
state sets the gain of each filter to its configured gain times `V_NOMINAL` divided by
`vBatt`. -/
theorem vbatt_positive_and_gains {K M : Type} [LinearOrderedField K]
    (cfg : jb_main_defs K) (lm : libm K) (fl : rc_filter_lib K M) (w0 w : World K M)
    (hnom : 0 < cfg.V_NOMINAL) (h0 : vbatt_written cfg w0)
    (hr : Relation.ReflTransGen (sys_step cfg lm fl) w0 w) :
    0 < w.cstate.vBatt ∧
    ∀ (nanos : Nat) (enc : Int → Int) (w1 : World K M),
      position_controller cfg lm fl nanos enc w = tick_result.done w1 →
      w1.D1.gain = cfg.D1_GAIN * cfg.V_NOMINAL / w.cstate.vBatt ∧
      w1.D2.gain = cfg.D2_GAIN * cfg.V_NOMINAL / w.cstate.vBatt ∧
      w1.D3.gain = cfg.D3_GAIN * cfg.V_NOMINAL / w.cstate.vBatt ∧
      w1.D4.gain = cfg.D4_GAIN * cfg.V_NOMINAL / w.cstate.vBatt ∧
      w1.D5.gain = cfg.D5_GAIN * cfg.V_NOMINAL / w.cstate.vBatt := by
  have hw := reachable_vbatt_written cfg lm fl w0 w h0 hr
  constructor
  · rcases hw with ⟨h1, -⟩ | h1
    · exact lt_of_lt_of_le (by norm_num) h1
    · rw [h1]
      exact hnom
  · intro nanos enc w1 ht
    obtain ⟨-, wp, hp, rfl⟩ := position_controller_done cfg lm fl nanos enc w w1 ht
    have hv := (traject_new_keeps cfg lm nanos w wp hp).1
    rw [← hv]
    exact ⟨rfl, rfl, rfl, rfl, rfl⟩

/-- C19, at a concrete input: the armed test world (battery at 12 V) after a
battery iteration that reads 11 V. -/
theorem vbatt_positive_and_gains_witness :
    0 < (battery_checker_iter (test_defs ℝ Real.pi) 11 (armed_world ℝ Unit () 0)).cstate.vBatt :=
  (vbatt_positive_and_gains (test_defs ℝ Real.pi) ⟨Real.sqrt, Real.cos, Real.sin, Real.pi⟩
    (p_filter 10) (armed_world ℝ Unit () 0)
    (battery_checker_iter (test_defs ℝ Real.pi) 11 (armed_world ℝ Unit () 0))
    (by norm_num [test_defs])
    (Or.inl (by norm_num [armed_world, cstate_zero]))
    (Relation.ReflTransGen.single
      (sys_step.battery 11 (armed_world ℝ Unit () 0) (by simp [armed_world])))).1

/-! ## EXITING and the arm state -/

/-- An iteration of the reader loop either requests EXITING and disarms, or
keeps the process state. -/
theorem estop_reader_iter_exit {K M : Type} [LinearOrderedField K] (cfg : jb_main_defs K)
    (fl : rc_filter_lib K M) (inp : dsm_input) (w : World K M) :
    ((estop_reader_iter cfg fl inp w).rc_state = rc_state_t.EXITING ∧
        (estop_reader_iter cfg fl inp w).setpoint.arm_state = arm_state_t.DISARMED) ∨
      (estop_reader_iter cfg fl inp w).rc_state = w.rc_state := by
  unfold estop_reader_iter
  simp only
  split_ifs <;> first | exact Or.inl ⟨rfl, rfl⟩ | exact Or.inr rfl

theorem sys_step_keeps_exit_disarmed {K M : Type} [LinearOrderedField K]
    (cfg : jb_main_defs K) (lm : libm K) (fl : rc_filter_lib K M) (w w1 : World K M)
    (hs : sys_step cfg lm fl w w1)
    (h : w.rc_state = rc_state_t.EXITING → w.setpoint.arm_state = arm_state_t.DISARMED) :
    w1.rc_state = rc_state_t.EXITING → w1.setpoint.arm_state = arm_state_t.DISARMED := by
  cases hs with
  | tick nanos enc _ _ ht =>
    obtain ⟨hna, wp, hp, rfl⟩ := position_controller_done cfg lm fl nanos enc w w1 ht
    obtain ⟨-, -, hk⟩ := traject_new_keeps cfg lm nanos w wp hp
    intro hex
    have hex1 : wp.rc_state = rc_state_t.EXITING := hex
    show wp.setpoint.arm_state = arm_state_t.DISARMED
    rcases hk with ⟨r, -⟩ | ⟨-, a⟩
    · exact absurd (h (r ▸ hex1)) hna
    · exact a
  | reader inp _ hne =>
    intro hex
    rcases estop_reader_iter_exit cfg fl inp w with ⟨-, a⟩ | r
    · exact a
    · exact absurd (r ▸ hex) hne
  | battery v _ hne =>
    intro hex
    exact absurd hex hne

/-- C20: from a state in which EXITING is not requested, in every state reached
by Position Controller ticks and reader (and battery) iterations, each atomic and the
loop iterations only while the process state is not EXITING: if the process state is
EXITING then `arm_state` is DISARMED. -/
theorem exiting_implies_disarmed {K M : Type} [LinearOrderedField K]
    (cfg : jb_main_defs K) (lm : libm K) (fl : rc_filter_lib K M) (w0 w : World K M)
    (h0 : w0.rc_state ≠ rc_state_t.EXITING)
    (hr : Relation.ReflTransGen (sys_step cfg lm fl) w0 w) :
    w.rc_state = rc_state_t.EXITING → w.setpoint.arm_state = arm_state_t.DISARMED := by
  induction hr with
  | refl => exact fun hex => absurd hex h0
  | tail _ hs ih => exact sys_step_keeps_exit_disarmed cfg lm fl _ _ hs ih

/-- C20, at a concrete input: the armed test world after a reader iteration
with e-stop value 1000, which requests EXITING. -/
theorem exiting_implies_disarmed_witness :
    (estop_reader_iter (test_defs ℝ Real.pi) (p_filter 10) (dsm_new_data 1000 7000000000)
        (armed_world ℝ Unit () 0)).rc_state = rc_state_t.EXITING ∧
      (estop_reader_iter (test_defs ℝ Real.pi) (p_filter 10) (dsm_new_data 1000 7000000000)
        (armed_world ℝ Unit () 0)).setpoint.arm_state = arm_state_t.DISARMED := by
  have hex : (estop_reader_iter (test_defs ℝ Real.pi) (p_filter 10)
      (dsm_new_data 1000 7000000000) (armed_world ℝ Unit () 0)).rc_state
      = rc_state_t.EXITING := by
    norm_num [estop_reader_iter, dsm_new_data, rc_saturate_double, armed_world,
      disarm_controller]
  exact ⟨hex, exiting_implies_disarmed (test_defs ℝ Real.pi)
    ⟨Real.sqrt, Real.cos, Real.sin, Real.pi⟩ (p_filter 10) (armed_world ℝ Unit () 0) _
    (by simp [armed_world])
    (Relation.ReflTransGen.single
      (sys_step.reader (dsm_new_data 1000 7000000000) (armed_world ℝ Unit () 0)
        (by simp [armed_world]))) hex⟩

/-! ## The saturation counter -/

/-- A tick that starts armed on a valid segment whose end time is not reached
runs to its end and keeps the arm state, the process state, the table, `step` and
`test_start`. -/
theorem position_controller_hold_tick {K M : Type} [LinearOrderedField K]
    (cfg : jb_main_defs K) (lm : libm K) (fl : rc_filter_lib K M) (nanos : Nat)
    (enc : Int → Int) (w : World K M) (r1 : traj_row K)
    (harmed : w.setpoint.arm_state = arm_state_t.ARMED) (hin : step_in_table w)
    (hr1 : row_at w.trajec_mat (w.cstate.step + 1) = some r1)
    (hnow : elapsed_s (nanos % U64 / 1000000) w.test_start < r1.t) :
    ∃ w1, position_controller cfg lm fl nanos enc w = tick_result.done w1 ∧
      w1.setpoint.arm_state = arm_state_t.ARMED ∧ w1.rc_state = w.rc_state ∧
      w1.trajec_mat = w.trajec_mat ∧ w1.cstate.step = w.cstate.step ∧
      w1.test_start = w.test_start := by
  have hrows : 2 ≤ rows w.trajec_mat := by
    have := hin.1
    have := hin.2
    omega
  have hc := traject_clock_of_rows nanos w hrows
  have hs := traject_select_hold (traject_clock nanos w) r1
    (by rw [hc]; exact hr1) (by rw [hc]; exact hnow)
  obtain ⟨wp, hwp, g1, -, -, g4, g5, g6, g7⟩ := traject_rest_defined cfg lm
    (traject_clock nanos w) (by rw [hc]; exact hin.1)
    (by rw [hc]; have := hin.2; show w.cstate.step + 1 < rows w.trajec_mat; omega)
  have hnew : traject_new cfg lm nanos w = some wp := by
    unfold traject_new
    rw [hs]
    exact hwp
  have hna : ¬ (w.setpoint.arm_state = arm_state_t.DISARMED) := by
    rw [harmed]
    decide
  rw [hc] at g1 g4 g5 g6 g7
  refine ⟨control cfg fl { wp with cstate := state_estimation cfg lm enc wp.cstate },
    ?_, ?_, g7, g4, g1, g5⟩
  · unfold position_controller
    rw [if_neg hna, hnew]
  · exact g6.trans harmed

theorem c_int_of_range (x : Int) (h0 : INT_MIN ≤ x) (h1 : x ≤ INT_MAX) : c_int x = x := by
  unfold INT_MIN at h0
  unfold INT_MAX at h1
  unfold c_int
  omega

theorem c_int_range (x : Int) : INT_MIN ≤ c_int x ∧ c_int x ≤ INT_MAX := by
  unfold INT_MIN INT_MAX c_int
  omega

/-- The saturation counter after a tick that runs to its end. -/
theorem position_controller_counter {K M : Type} [LinearOrderedField K]
    (cfg : jb_main_defs K) (lm : libm K) (fl : rc_filter_lib K M) (nanos : Nat)
    (enc : Int → Int) (w w1 : World K M)
    (h : position_controller cfg lm fl nanos enc w = tick_result.done w1) :
    w1.inner_saturation_counter =
      if |w1.cstate.d1_u| > 0.95 then c_int (w.inner_saturation_counter + 1) else 0 := by
  obtain ⟨-, wp, hp, rfl⟩ := position_controller_done cfg lm fl nanos enc w w1 h
  rw [← (traject_new_keeps cfg lm nanos w wp hp).2.1]
  rfl

/-- C17, as the code has it: the saturation test of `__position_controller`
only counts.  A tick whose D1 output has magnitude above 0.95 (0.96, say) increments the
`int` `inner_saturation_counter`, which adds 1 to it while it is below `INT_MAX` (and
wraps to `INT_MIN` from `INT_MAX`); any other tick sets it to 0; and whatever the counter
has reached no fault action is taken: the arm state and the process state are those the
planner left, and the five motor commands are written. -/
theorem saturation_only_counts {K M : Type} [LinearOrderedField K]
    (cfg : jb_main_defs K) (lm : libm K) (fl : rc_filter_lib K M) (nanos : Nat)
    (enc : Int → Int) (w w1 : World K M)
    (h : position_controller cfg lm fl nanos enc w = tick_result.done w1) :
    (|w1.cstate.d1_u| > 0.95 →
      w1.inner_saturation_counter = c_int (w.inner_saturation_counter + 1) ∧
      (INT_MIN ≤ w.inner_saturation_counter → w.inner_saturation_counter < INT_MAX →
        w1.inner_saturation_counter = w.inner_saturation_counter + 1) ∧
      (w.inner_saturation_counter = INT_MAX → w1.inner_saturation_counter = INT_MIN)) ∧
    (¬ (|w1.cstate.d1_u| > 0.95) → w1.inner_saturation_counter = 0) ∧
    ∃ wp, traject_new cfg lm nanos w = some wp ∧ w1.setpoint = wp.setpoint ∧
      w1.rc_state = wp.rc_state ∧
      w1.hw = wp.hw ++ [
        hw_call.jb_rc_motor_set cfg.MOTOR_CHANNEL_1 (cfg.MOTOR_POLARITY_1 * w1.cstate.d1_u),
        hw_call.jb_rc_motor_set cfg.MOTOR_CHANNEL_4 (cfg.MOTOR_POLARITY_4 * w1.cstate.d4_u),
        hw_call.jb_rc_motor_set cfg.MOTOR_CHANNEL_2 (cfg.MOTOR_POLARITY_2 * w1.cstate.d2_u),
        hw_call.jb_rc_motor_set cfg.MOTOR_CHANNEL_3 (cfg.MOTOR_POLARITY_3 * w1.cstate.d3_u),
        hw_call.jb_rc_motor_set cfg.MOTOR_CHANNEL_5
          (cfg.MOTOR_POLARITY_5 * w1.cstate.d5_u)] := by
  have hcnt := position_controller_counter cfg lm fl nanos enc w w1 h
  obtain ⟨-, wp, hp, hw1⟩ := position_controller_done cfg lm fl nanos enc w w1 h
  refine ⟨fun hs => ?_, fun hs => by rw [hcnt, if_neg hs], wp, hp, ?_⟩
  · rw [if_pos hs] at hcnt
    refine ⟨hcnt, fun h0 h1 => ?_, fun hmax => ?_⟩
    · rw [hcnt]
      exact c_int_of_range _ (by unfold INT_MIN at *; omega) (by unfold INT_MAX at *; omega)
    · rw [hcnt, hmax]
      decide
  · subst hw1
    exact ⟨rfl, rfl, rfl⟩

/-- Ticks with the D1 output held at `u`, `|u| > 0.95`, on a segment whose end
time is not reached: after `k` ticks that do not take the counter above `INT_MAX`, the
world is still armed, the process state is unchanged and the counter has grown by `k`. -/
theorem tick_run_held {K : Type} [LinearOrderedField K] (cfg : jb_main_defs K) (lm : libm K)
    (u : K) (hu : |u| > 0.95) (nanos : Nat) (enc : Int → Int) (tbl : List (traj_row K))
    (st : Int) (ts : Nat) (rs : rc_state_t) (r1 : traj_row K) (h0 : 0 ≤ st)
    (h2 : st + 2 ≤ rows tbl) (hr1 : row_at tbl (st + 1) = some r1)
    (hnow : elapsed_s (nanos % U64 / 1000000) ts < r1.t) :
    ∀ (k : Nat) (w : World K Unit), w.setpoint.arm_state = arm_state_t.ARMED →
      w.rc_state = rs → w.trajec_mat = tbl → w.cstate.step = st → w.test_start = ts →
      INT_MIN ≤ w.inner_saturation_counter → w.inner_saturation_counter + k ≤ INT_MAX →
      ∃ w1, tick_run cfg lm (held_filter u) (List.replicate k (nanos, enc)) w = some w1 ∧
        w1.setpoint.arm_state = arm_state_t.ARMED ∧ w1.rc_state = rs ∧
        w1.inner_saturation_counter = w.inner_saturation_counter + k ∧
        (0 < k → w1.cstate.d1_u = u)
  | 0, w, ha, hrs, _, _, _, _, _ =>
    ⟨w, rfl, ha, hrs, by simp, fun h => absurd h (lt_irrefl 0)⟩
  | k + 1, w, ha, hrs, htbl, hst, hts, hlo, hhi => by
    obtain ⟨w1, hw1, a1, a2, a3, a4, a5⟩ := position_controller_hold_tick cfg lm
      (held_filter u) nanos enc w r1 ha
      (by unfold step_in_table; rw [htbl, hst]; exact ⟨h0, h2⟩)
      (by rw [htbl, hst]; exact hr1) (by rw [hts]; exact hnow)
    have hd : w1.cstate.d1_u = u := by
      obtain ⟨-, wp, -, rfl⟩ := position_controller_done cfg lm (held_filter u) nanos enc
        w w1 hw1
      rfl
    have hcnt := position_controller_counter cfg lm (held_filter u) nanos enc w w1 hw1
    rw [hd, if_pos hu, c_int_of_range _ (by omega) (by push_cast at hhi; omega)] at hcnt
    obtain ⟨w2, hw2, b1, b2, b3, b4⟩ := tick_run_held cfg lm u hu nanos enc tbl st ts rs r1
      h0 h2 hr1 hnow k w1 a1 (a2.trans hrs) (a3.trans htbl) (a4.trans hst) (a5.trans hts)
      (by rw [hcnt]; omega) (by rw [hcnt]; push_cast at hhi; omega)
    refine ⟨w2, ?_, b1, b2, ?_, ?_⟩
    · rw [List.replicate_succ]
      simp only [tick_run]
      rw [hw1]
      exact hw2
    · rw [b3, hcnt]
      push_cast
      ring
    · intro _
      rcases Nat.eq_zero_or_pos k with hk | hk
      · subst hk
        simp only [List.replicate, tick_run, Option.some.injEq] at hw2
        rw [← hw2]
        exact hd
      · exact b4 hk

/-- C17, at a concrete input: the armed test world with the counter at 79, one
below `N = 80`, and the D1 output held at 0.96, 5 s into the test table.  The tick takes
the counter to 80 and runs to its end: the five motor commands are written, the first
with duty 0.96, and the world is still ARMED and RUNNING. -/
theorem saturation_only_counts_witness :
    ∃ w1, position_controller (test_defs ℝ Real.pi) ⟨Real.sqrt, Real.cos, Real.sin, Real.pi⟩
        (held_filter 0.96) 5000000000 (enc_single 2 0)
        (armed_world_counting ℝ Unit () 79)
        = tick_result.done w1 ∧
      w1.inner_saturation_counter = 80 ∧ w1.cstate.d1_u = 0.96 ∧
      w1.setpoint.arm_state = arm_state_t.ARMED ∧ w1.rc_state = rc_state_t.RUNNING ∧
      duties_written w1.hw = [0.96, 0.96, 0.96, 0.96, 0.96] := by
  obtain ⟨w1, hw1, harm, hrc, -⟩ := position_controller_hold_tick (test_defs ℝ Real.pi)
    ⟨Real.sqrt, Real.cos, Real.sin, Real.pi⟩ (held_filter 0.96) 5000000000 (enc_single 2 0)
    (armed_world_counting ℝ Unit () 79) ⟨10, 125, 0, 0⟩ rfl
    (by simp [step_in_table, rows, armed_world_counting, armed_world, test_table, cstate_zero])
    (by simp [row_at, armed_world_counting, armed_world, test_table, cstate_zero])
    (by norm_num [elapsed_s, U64, armed_world_counting, armed_world])
  obtain ⟨-, wp, hp, hwp⟩ := position_controller_done _ _ _ _ _ _ w1 hw1
  have hd : w1.cstate.d1_u = 0.96 := by
    rw [hwp]
    rfl
  have hs := saturation_only_counts (test_defs ℝ Real.pi)
    ⟨Real.sqrt, Real.cos, Real.sin, Real.pi⟩ (held_filter 0.96) 5000000000 (enc_single 2 0)
    (armed_world_counting ℝ Unit () 79) w1 hw1
  have hsat : |w1.cstate.d1_u| > 0.95 := by
    rw [hd]
    norm_num [abs_of_pos]
  have hrows : 2 ≤ rows (armed_world_counting ℝ Unit () 79).trajec_mat := by
    simp [rows, armed_world_counting, armed_world, test_table]
  have hc := traject_clock_of_rows 5000000000 (armed_world_counting ℝ Unit () 79) hrows
  have hsel := traject_select_hold
    (traject_clock 5000000000 (armed_world_counting ℝ Unit () 79)) ⟨10, 125, 0, 0⟩
    (by rw [hc]; simp [row_at, armed_world_counting, armed_world, test_table, cstate_zero])
    (by rw [hc]; norm_num [elapsed_s, U64, armed_world_counting, armed_world])
  have hnew := traject_new_profile (test_defs ℝ Real.pi)
    ⟨Real.sqrt, Real.cos, Real.sin, Real.pi⟩ 5000000000 (armed_world_counting ℝ Unit () 79) _
    ⟨0, 0, 0, 0⟩ ⟨10, 125, 0, 0⟩ hsel
    (by rw [hc]; norm_num [armed_world_counting, armed_world])
    (by rw [hc]; simp [row_at, armed_world_counting, armed_world, test_table, cstate_zero])
    (by rw [hc]; simp [row_at, armed_world_counting, armed_world, test_table, cstate_zero])
  rw [hnew] at hp
  simp only [Option.some.injEq] at hp
  have hhw : wp.hw = [] := by
    rw [← hp, hc]
    rfl
  refine ⟨w1, hw1, ?_, hd, harm, hrc, ?_⟩
  · rw [((hs.1 hsat).2.1) (by decide) (by decide)]
    rfl
  · rw [hwp]
    simp [duties_written, control, held_filter, test_defs, hhw]

/-- C17 fails as stated.  With `SAMPLE_RATE_HZ = 200` and
`D1_SATURATION_TIMEOUT = 0.4`, `N` is 80; after 80 consecutive ticks with the D1 output
held at 0.96 the counter is 80 and no fault has been acted on: the controller is still
ARMED, the process state still RUNNING, and the last tick wrote its output. -/
theorem saturation_only_counts_counterexample :
    ∃ w1, tick_run (test_defs ℝ Real.pi) ⟨Real.sqrt, Real.cos, Real.sin, Real.pi⟩
        (held_filter 0.96) (List.replicate 80 (5000000000, enc_single 2 0))
        (armed_world ℝ Unit () 0) = some w1 ∧
      w1.setpoint.arm_state = arm_state_t.ARMED ∧ w1.rc_state = rc_state_t.RUNNING ∧
      w1.inner_saturation_counter = 80 ∧ w1.cstate.d1_u = 0.96 := by
  obtain ⟨w1, h1, h2, h3, h4, h5⟩ := tick_run_held (test_defs ℝ Real.pi)
    ⟨Real.sqrt, Real.cos, Real.sin, Real.pi⟩ (0.96 : ℝ) (by norm_num [abs_of_pos])
    5000000000 (enc_single 2 0) (test_table ℝ) 0 1000 rc_state_t.RUNNING ⟨10, 125, 0, 0⟩
    (le_refl 0) (by simp [rows, test_table]) (by simp [row_at, test_table])
    (by norm_num [elapsed_s, U64]) 80 (armed_world ℝ Unit () 0) rfl rfl rfl rfl rfl
    (by decide) (by decide)
  refine ⟨w1, h1, h2, h3, ?_, h5 (by norm_num)⟩
  rw [h4]
  rfl

/-! ## The time check -/

/-- The segment choice, when it does not terminate the run, leaves the
desired velocities, the setpoint and the process state. -/
theorem traject_select_false_keeps {K M : Type} [LinearOrderedField K] (w w1 : World K M)
    (h : traject_select w = some (false, w1)) :
    w1.cstate.v_xr_des = w.cstate.v_xr_des ∧ w1.cstate.v_yr_des = w.cstate.v_yr_des ∧
      w1.cstate.v_z_des = w.cstate.v_z_des ∧ w1.setpoint = w.setpoint ∧
      w1.rc_state = w.rc_state ∧ w1.trajec_mat = w.trajec_mat := by
  unfold traject_select at h
  cases hr1 : row_at w.trajec_mat (w.cstate.step + 1) with
  | none =>
    rw [hr1] at h
    exact Option.noConfusion h
  | some r1 =>
    rw [hr1] at h
    simp only at h
    by_cases hlt : w.cstate.step + 2 < rows w.trajec_mat
    · rw [if_pos hlt] at h
      by_cases hnow : elapsed_s w.cstate.t_curr w.test_start ≥ r1.t
      · rw [if_pos hnow] at h
        cases hr2 : row_at w.trajec_mat (w.cstate.step + 1 + 1) with
        | none =>
          rw [hr2] at h
          exact Option.noConfusion h
        | some r2 =>
          rw [hr2] at h
          simp only [Option.some.injEq, Prod.mk.injEq] at h
          obtain ⟨-, rfl⟩ := h
          exact ⟨rfl, rfl, rfl, rfl, rfl, rfl⟩
      · rw [if_neg hnow] at h
        simp only [Option.some.injEq, Prod.mk.injEq] at h
        obtain ⟨-, rfl⟩ := h
        exact ⟨rfl, rfl, rfl, rfl, rfl, rfl⟩
    · rw [if_neg hlt] at h
      by_cases hnow : elapsed_s w.cstate.t_curr w.test_start ≥ r1.t
      · rw [if_pos hnow] at h
        simp only [Option.some.injEq, Prod.mk.injEq] at h
        exact absurd h.1 (by decide)
      · rw [if_neg hnow] at h
        simp only [Option.some.injEq, Prod.mk.injEq] at h
        obtain ⟨-, rfl⟩ := h
        exact ⟨rfl, rfl, rfl, rfl, rfl, rfl⟩

/-- C21: on a table of at least 2 rows, when the segment choice of the call
does not terminate the run and leaves `t_1 > t_2`, the call returns at the time check:
the desired velocities `v_xr_des`, `v_yr_des`, `v_z_des`, the setpoint (the five wheel
targets and `arm_state`) and the process state are those before the call. -/
theorem traject_new_time_check_returns {K M : Type} [LinearOrderedField K]
    (cfg : jb_main_defs K) (lm : libm K) (nanos : Nat) (w w2 : World K M)
    (hrows : 2 ≤ rows w.trajec_mat)
    (hsel : traject_select (traject_clock nanos w) = some (false, w2))
    (ht : w2.cstate.t_1 > w2.cstate.t_2) :
    traject_new cfg lm nanos w = some w2 ∧
      w2.cstate.v_xr_des = w.cstate.v_xr_des ∧ w2.cstate.v_yr_des = w.cstate.v_yr_des ∧
      w2.cstate.v_z_des = w.cstate.v_z_des ∧
      w2.setpoint.wheelAngle1 = w.setpoint.wheelAngle1 ∧
      w2.setpoint.wheelAngle2 = w.setpoint.wheelAngle2 ∧
      w2.setpoint.wheelAngle3 = w.setpoint.wheelAngle3 ∧
      w2.setpoint.wheelAngle4 = w.setpoint.wheelAngle4 ∧
      w2.setpoint.wheelAngle5 = w.setpoint.wheelAngle5 ∧
      w2.setpoint.arm_state = w.setpoint.arm_state ∧ w2.rc_state = w.rc_state := by
  obtain ⟨k1, k2, k3, k4, k5, -⟩ := traject_select_false_keeps _ _ hsel
  rw [traject_clock_of_rows nanos w hrows] at k1 k2 k3 k4 k5
  refine ⟨?_, k1, k2, k3, ?_, ?_, ?_, ?_, ?_, ?_, k5⟩
  · unfold traject_new
    rw [hsel]
    show traject_rest cfg lm w2 = some w2
    unfold traject_rest
    rw [if_pos ht]
  all_goals rw [k4]

/-- C21, at a concrete input: the test world with stale times `t_1 = 20`,
`t_2 = 10`, 4 s into the run; the call returns the world with only the clock updated. -/
theorem traject_new_time_check_returns_witness :
    ∃ w2, traject_new (test_defs ℝ Real.pi) ⟨Real.sqrt, Real.cos, Real.sin, Real.pi⟩
        5000000000 (stale_times_world ℝ Unit () 0.3) = some w2 ∧
      w2.cstate.t_1 > w2.cstate.t_2 ∧
      w2.setpoint.wheelAngle1 = 0.3 ∧ w2.setpoint.arm_state = arm_state_t.ARMED ∧
      w2.rc_state = rc_state_t.RUNNING := by
  have hrows : 2 ≤ rows (stale_times_world ℝ Unit () 0.3).trajec_mat := by
    simp [rows, stale_times_world, armed_world, test_table]
  have hsel := traject_select_hold (traject_clock 5000000000 (stale_times_world ℝ Unit () 0.3))
    ⟨10, 125, 0, 0⟩
    (by rw [traject_clock_of_rows _ _ hrows]
        simp [row_at, stale_times_world, armed_world, test_table, cstate_zero])
    (by rw [traject_clock_of_rows _ _ hrows]
        norm_num [elapsed_s, U64, stale_times_world, armed_world])
  have ht : (traject_clock 5000000000 (stale_times_world ℝ Unit () 0.3)).cstate.t_1 >
      (traject_clock 5000000000 (stale_times_world ℝ Unit () 0.3)).cstate.t_2 := by
    rw [traject_clock_of_rows _ _ hrows]
    norm_num [stale_times_world]
  have h := traject_new_time_check_returns (test_defs ℝ Real.pi)
    ⟨Real.sqrt, Real.cos, Real.sin, Real.pi⟩ 5000000000 (stale_times_world ℝ Unit () 0.3)
    _ hrows hsel ht
  exact ⟨_, h.1, ht, h.2.2.2.2.1, h.2.2.2.2.2.2.2.2.2.1, h.2.2.2.2.2.2.2.2.2.2⟩

/-! ## The vertical axis -/

theorem traject_select_keeps_vertical {K M : Type} [LinearOrderedField K] (w w1 : World K M)
    (b : Bool) (h : traject_select w = some (b, w1)) :
    w1.cstate.wheelAngle5 = w.cstate.wheelAngle5 ∧ w1.cstate.z = w.cstate.z ∧
      w1.D5 = w.D5 := by
  unfold traject_select at h
  cases hr1 : row_at w.trajec_mat (w.cstate.step + 1) with
  | none =>
    rw [hr1] at h
    exact Option.noConfusion h
  | some r1 =>
    rw [hr1] at h
    simp only at h
    by_cases hlt : w.cstate.step + 2 < rows w.trajec_mat
    · rw [if_pos hlt] at h
      by_cases hnow : elapsed_s w.cstate.t_curr w.test_start ≥ r1.t
      · rw [if_pos hnow] at h
        cases hr2 : row_at w.trajec_mat (w.cstate.step + 1 + 1) with
        | none =>
          rw [hr2] at h
          exact Option.noConfusion h
        | some r2 =>
          rw [hr2] at h
          simp only [Option.some.injEq, Prod.mk.injEq] at h
          obtain ⟨-, rfl⟩ := h
          exact ⟨rfl, rfl, rfl⟩
      · rw [if_neg hnow] at h
        simp only [Option.some.injEq, Prod.mk.injEq] at h
        obtain ⟨-, rfl⟩ := h
        exact ⟨rfl, rfl, rfl⟩
    · rw [if_neg hlt] at h
      by_cases hnow : elapsed_s w.cstate.t_curr w.test_start ≥ r1.t
      · rw [if_pos hnow] at h
        simp only [Option.some.injEq, Prod.mk.injEq] at h
        obtain ⟨-, rfl⟩ := h
        exact ⟨rfl, rfl, rfl⟩
      · rw [if_neg hnow] at h
        simp only [Option.some.injEq, Prod.mk.injEq] at h
        obtain ⟨-, rfl⟩ := h
        exact ⟨rfl, rfl, rfl⟩

theorem traject_rest_keeps_vertical {K M : Type} [LinearOrderedField K] (cfg : jb_main_defs K)
    (lm : libm K) (w w1 : World K M) (h : traject_rest cfg lm w = some w1) :
    w1.cstate.wheelAngle5 = w.cstate.wheelAngle5 ∧ w1.cstate.z = w.cstate.z ∧
      w1.D5 = w.D5 := by
  unfold traject_rest at h
  by_cases ht : w.cstate.t_1 > w.cstate.t_2
  · rw [if_pos ht] at h
    simp only [Option.some.injEq] at h
    subst h
    exact ⟨rfl, rfl, rfl⟩
  · rw [if_neg ht] at h
    cases hrb : row_at w.trajec_mat (w.cstate.step + 1) with
    | none =>
      rw [hrb] at h
      exact Option.noConfusion h
    | some rb =>
      cases hra : row_at w.trajec_mat w.cstate.step with
      | none =>
        rw [hrb, hra] at h
        exact Option.noConfusion h
      | some ra =>
        rw [hrb, hra] at h
        simp only [Option.some.injEq] at h
        subst h
        exact ⟨rfl, rfl, rfl⟩

/-- A defined call of `__traject_new` keeps the measured vertical wheel angle,
the vertical position and the filter D5. -/
theorem traject_new_keeps_vertical {K M : Type} [LinearOrderedField K] (cfg : jb_main_defs K)
    (lm : libm K) (nanos : Nat) (w w1 : World K M)
    (h : traject_new cfg lm nanos w = some w1) :
    w1.cstate.wheelAngle5 = w.cstate.wheelAngle5 ∧ w1.cstate.z = w.cstate.z ∧
      w1.D5 = w.D5 := by
  have hc : (traject_clock nanos w).cstate.wheelAngle5 = w.cstate.wheelAngle5 ∧
      (traject_clock nanos w).cstate.z = w.cstate.z ∧ (traject_clock nanos w).D5 = w.D5 := by
    unfold traject_clock
    simp only
    split_ifs <;> exact ⟨rfl, rfl, rfl⟩
  unfold traject_new at h
  cases hs : traject_select (traject_clock nanos w) with
  | none =>
    rw [hs] at h
    exact Option.noConfusion h
  | some p =>
    obtain ⟨b, w2⟩ := p
    obtain ⟨s1, s2, s3⟩ := traject_select_keeps_vertical _ _ _ hs
    rw [hs] at h
    cases b with
    | true =>
      simp only [Option.some.injEq] at h
      subst h
      exact ⟨s1.trans hc.1, s2.trans hc.2.1, s3.trans hc.2.2⟩
    | false =>
      simp only at h
      obtain ⟨r1, r2, r3⟩ := traject_rest_keeps_vertical cfg lm w2 w1 h
      exact ⟨(r1.trans s1).trans hc.1, (r2.trans s2).trans hc.2.1, (r3.trans s3).trans hc.2.2⟩

/-- A tick that runs to its end stores `wheelAngle5 = 0`, moves `z` by
`WHEEL_RADIUS_Z * (0 - wheelAngle5)` of the old angle, and feeds D5 with the planner's
`setpoint.wheelAngle5 - 0`. -/
theorem position_controller_vertical {K M : Type} [LinearOrderedField K]
    (cfg : jb_main_defs K) (lm : libm K) (fl : rc_filter_lib K M) (nanos : Nat)
    (enc : Int → Int) (w w1 : World K M)
    (h : position_controller cfg lm fl nanos enc w = tick_result.done w1) :
    w1.cstate.wheelAngle5 = 0 ∧
      w1.cstate.z = w.cstate.z + cfg.WHEEL_RADIUS_Z * (0 - w.cstate.wheelAngle5) ∧
      ∃ wp, traject_new cfg lm nanos w = some wp ∧ w1.setpoint = wp.setpoint ∧
        w1.cstate.d5_u = (fl.march (cfg.D5_GAIN * cfg.V_NOMINAL / w.cstate.vBatt) w.D5.mem
          (wp.setpoint.wheelAngle5 - 0)).2 := by
  obtain ⟨-, wp, hp, rfl⟩ := position_controller_done cfg lm fl nanos enc w w1 h
  obtain ⟨v1, v2, v3⟩ := traject_new_keeps_vertical cfg lm nanos w wp hp
  have hv := (traject_new_keeps cfg lm nanos w wp hp).1
  refine ⟨rfl, ?_, wp, hp, rfl, ?_⟩
  · rw [← v1, ← v2]
    rfl
  · rw [← v3, ← hv]
    rfl

theorem sys_step_keeps_vertical {K M : Type} [LinearOrderedField K]
    (cfg : jb_main_defs K) (lm : libm K) (fl : rc_filter_lib K M) (w w1 : World K M)
    (hs : sys_step cfg lm fl w w1)
    (h : w.cstate.wheelAngle5 = 0 ∧ w.cstate.z = 0) :
    w1.cstate.wheelAngle5 = 0 ∧ w1.cstate.z = 0 := by
  cases hs with
  | tick nanos enc _ _ ht =>
    obtain ⟨a, b, -⟩ := position_controller_vertical cfg lm fl nanos enc w w1 ht
    refine ⟨a, ?_⟩
    rw [b, h.1, h.2]
    simp
  | reader inp _ _ =>
    have e : (estop_reader_iter cfg fl inp w).cstate = w.cstate := by
      unfold estop_reader_iter
      simp only
      split_ifs <;> rfl
    rw [e]
    exact h
  | battery v _ _ => exact h

/-- C24: from a core state with `wheelAngle5 = 0` and `z = 0` (the
zero-initialised one), in every state reached by ticks (and reader and battery
iterations) `wheelAngle5` is 0 and `z` is still 0; the next tick again stores
`wheelAngle5 = 0` and `z = 0`, feeds D5 exactly `setpoint.wheelAngle5 - 0`, and its D5
output is the same whatever the encoder readings. -/
theorem vertical_axis_unmeasured {K M : Type} [LinearOrderedField K]
    (cfg : jb_main_defs K) (lm : libm K) (fl : rc_filter_lib K M) (w0 w : World K M)
    (h5 : w0.cstate.wheelAngle5 = 0) (hz : w0.cstate.z = 0)
    (hr : Relation.ReflTransGen (sys_step cfg lm fl) w0 w) :
    w.cstate.wheelAngle5 = 0 ∧ w.cstate.z = 0 ∧
    (∀ (nanos : Nat) (enc : Int → Int) (w1 : World K M),
      position_controller cfg lm fl nanos enc w = tick_result.done w1 →
      w1.cstate.wheelAngle5 = 0 ∧ w1.cstate.z = 0 ∧
      w1.cstate.d5_u = (fl.march (cfg.D5_GAIN * cfg.V_NOMINAL / w.cstate.vBatt) w.D5.mem
        (w1.setpoint.wheelAngle5 - 0)).2) ∧
    (∀ (nanos : Nat) (enc1 enc2 : Int → Int) (w1 w2 : World K M),
      position_controller cfg lm fl nanos enc1 w = tick_result.done w1 →
      position_controller cfg lm fl nanos enc2 w = tick_result.done w2 →
      w1.cstate.d5_u = w2.cstate.d5_u) := by
  have hinv : w.cstate.wheelAngle5 = 0 ∧ w.cstate.z = 0 := by
    induction hr with
    | refl => exact ⟨h5, hz⟩
    | tail _ hs ih => exact sys_step_keeps_vertical cfg lm fl _ _ hs ih
  refine ⟨hinv.1, hinv.2, ?_, ?_⟩
  · intro nanos enc w1 ht
    obtain ⟨a, b, wp, -, hsp, hd⟩ := position_controller_vertical cfg lm fl nanos enc w w1 ht
    refine ⟨a, ?_, ?_⟩
    · rw [b, hinv.1, hinv.2]
      simp
    · rw [hd, hsp]
  · intro nanos enc1 enc2 w1 w2 ht1 ht2
    obtain ⟨-, -, wp1, hp1, -, hd1⟩ :=
      position_controller_vertical cfg lm fl nanos enc1 w w1 ht1
    obtain ⟨-, -, wp2, hp2, -, hd2⟩ :=
      position_controller_vertical cfg lm fl nanos enc2 w w2 ht2
    have e : wp1 = wp2 := Option.some.inj (hp1.symm.trans hp2)
    rw [hd1, hd2, e]

/-- C24, at a concrete input: the armed test world (zero core state) after one
tick at 5 s with 1000 counts on wheel 4. -/
theorem vertical_axis_unmeasured_witness :
    ∃ w1, position_controller (test_defs ℝ Real.pi) ⟨Real.sqrt, Real.cos, Real.sin, Real.pi⟩
        (p_filter 10) 5000000000 (enc_single 2 1000) (armed_world ℝ Unit () 0)
        = tick_result.done w1 ∧
      w1.cstate.wheelAngle5 = 0 ∧ w1.cstate.z = 0 := by
  obtain ⟨w1, hw1, -⟩ := position_controller_hold_tick (test_defs ℝ Real.pi)
    ⟨Real.sqrt, Real.cos, Real.sin, Real.pi⟩ (p_filter 10) 5000000000 (enc_single 2 1000)
    (armed_world ℝ Unit () 0) ⟨10, 125, 0, 0⟩ rfl
    (by simp [step_in_table, rows, armed_world, test_table, cstate_zero])
    (by simp [row_at, armed_world, test_table, cstate_zero])
    (by norm_num [elapsed_s, U64, armed_world])
  have h := vertical_axis_unmeasured (test_defs ℝ Real.pi)
    ⟨Real.sqrt, Real.cos, Real.sin, Real.pi⟩ (p_filter 10) (armed_world ℝ Unit () 0) w1
    rfl rfl (Relation.ReflTransGen.single (sys_step.tick _ _ _ _ hw1))
  exact ⟨w1, hw1, h.1, h.2.1⟩

/-! ## The profile of the single-axis variant -/

/-- On a segment that starts at time 0 with a non-negative displacement, the
velocity of the single-axis variant is the three-branch assignment of `jb_main.c`. -/
theorem motorpid_v_des_first (lm : libm ℝ) (t_2 x_diff t : ℝ) :
    motorpid.v_des lm 0 t_2 x_diff t = trapezoid 10 t_2 (t_accel lm t_2 x_diff 10) t := by
  simp only [motorpid.v_des, motorpid.ACCEL_MAX, trapezoid, t_accel, sub_zero]

theorem motorpid_first_segment_integral :
    ∫ t in (0 : ℝ)..10,
      motorpid.v_des ⟨Real.sqrt, Real.cos, Real.sin, Real.pi⟩ 0 10 (125 - 0) t = 125 := by
  have hb := t_accel_bounds ⟨Real.sqrt, Real.cos, Real.sin, Real.pi⟩ rfl 10 125 10
    (by norm_num) (by norm_num) (by norm_num) (by norm_num)
  obtain ⟨h0, h1, h2⟩ := hb
  have he : (fun t => motorpid.v_des ⟨Real.sqrt, Real.cos, Real.sin, Real.pi⟩ 0 10 (125 - 0) t)
      = fun t => 10 * min t (min (t_accel ⟨Real.sqrt, Real.cos, Real.sin, Real.pi⟩ 10 125 10)
        (10 - t)) := by
    funext t
    rw [motorpid_v_des_first, sub_zero]
    exact trapezoid_eq_min 10 10 _ t h1
  rw [he, integral_min_profile 10 10 _ h0 h1]
  exact h2

theorem sqrt_120_bounds : (10.94 : ℝ) < Real.sqrt 120 ∧ Real.sqrt 120 < 10.96 := by
  constructor
  · rw [Real.lt_sqrt (by norm_num)]
    norm_num
  · rw [Real.sqrt_lt' (by norm_num)]
    norm_num

/-- On the second segment of the test table the single-axis variant holds the
velocity at `ACCEL_MAX * t_a` with `t_a = (10 - sqrt 120) / 2`, which is negative. -/
theorem motorpid_v_des_second (t : ℝ) (h0 : 0 ≤ t) (h1 : t ≤ 10) :
    motorpid.v_des ⟨Real.sqrt, Real.cos, Real.sin, Real.pi⟩ 10 20 (75 - 125) t
      = 10 * ((10 - Real.sqrt 120) / 2) := by
  obtain ⟨s1, s2⟩ := sqrt_120_bounds
  have e : (10 : ℝ) ^ 2 - 4 * (75 - 125) / 10 = 120 := by norm_num
  have e2 : (20 : ℝ) - 10 = 10 := by norm_num
  simp only [motorpid.v_des, motorpid.ACCEL_MAX, e2, e]
  rw [if_neg (by linarith), if_neg (by linarith)]

theorem motorpid_second_segment_integral :
    ∫ t in (0 : ℝ)..10,
      motorpid.v_des ⟨Real.sqrt, Real.cos, Real.sin, Real.pi⟩ 10 20 (75 - 125) t
      = 500 - 50 * Real.sqrt 120 := by
  have hc : ∫ t in (0 : ℝ)..10,
      motorpid.v_des ⟨Real.sqrt, Real.cos, Real.sin, Real.pi⟩ 10 20 (75 - 125) t
      = ∫ _ in (0 : ℝ)..10, 10 * ((10 - Real.sqrt 120) / 2) := by
    apply intervalIntegral.integral_congr
    intro t ht
    rw [Set.uIcc_of_le (by norm_num)] at ht
    exact motorpid_v_des_second t ht.1 ht.2
  rw [hc, intervalIntegral.integral_const, smul_eq_mul]
  ring

/-- C22, the code at the failing input: on the test's own table the desired
velocity of `jb_test_motorpid.c` integrates to 125 over the first segment, and over the
second segment (from 125 to 75) to `500 - 50 * sqrt 120`, between -48 and -47, not
to -50. -/
theorem motorpid_profile_integrals :
    (∫ t in (0 : ℝ)..10, (motorpid.traject_profile ⟨Real.sqrt, Real.cos, Real.sin, Real.pi⟩
        (motorpid.test_world ℝ (motorpid.test_table ℝ) 0 0 10 5000)
        ⟨0, 0⟩ ⟨10, 125⟩ t).cstate.v_des) = 125 ∧
    (∫ t in (0 : ℝ)..10, (motorpid.traject_profile ⟨Real.sqrt, Real.cos, Real.sin, Real.pi⟩
        (motorpid.test_world ℝ (motorpid.test_table ℝ) 1 10 20 15000)
        ⟨10, 125⟩ ⟨20, 75⟩ t).cstate.v_des) = 500 - 50 * Real.sqrt 120 ∧
    -48 < 500 - 50 * Real.sqrt 120 ∧ 500 - 50 * Real.sqrt 120 < -47 ∧
    500 - 50 * Real.sqrt 120 ≠ -50 := by
  obtain ⟨s1, s2⟩ := sqrt_120_bounds
  refine ⟨motorpid_first_segment_integral, motorpid_second_segment_integral,
    by linarith, by linarith, ?_⟩
  intro h
  linarith

/-! ## The segment decision of the two variants -/

/-- The decision of `jb_main.c` when row `step + 1` exists. -/
theorem segment_decision_eq {K M : Type} [LinearOrderedField K] (w : World K M)
    (r1 : traj_row K) (hr1 : row_at w.trajec_mat (w.cstate.step + 1) = some r1) :
    segment_decision w = some
      (if elapsed_s w.cstate.t_curr w.test_start ≥ r1.t then
        (if w.cstate.step + 2 < rows w.trajec_mat then seg_decision.advance
          else seg_decision.terminate)
        else seg_decision.hold) := by
  have hb := row_at_bounds hr1
  unfold segment_decision
  by_cases hnow : elapsed_s w.cstate.t_curr w.test_start ≥ r1.t
  · by_cases hlt : w.cstate.step + 2 < rows w.trajec_mat
    · obtain ⟨r2, hr2⟩ := row_at_defined w.trajec_mat (w.cstate.step + 2) (by omega) hlt
      rw [traject_select_advance w r1 r2 hr1 hr2 hnow, if_pos hnow, if_pos hlt]
      simp
    · rw [traject_select_final w r1 hr1 (by omega) hnow, if_pos hnow, if_neg hlt]
  · rw [traject_select_hold w r1 hr1 (not_le.mp hnow), if_neg hnow]
    simp

theorem segment_decision_none {K M : Type} [LinearOrderedField K] (w : World K M)
    (hr1 : row_at w.trajec_mat (w.cstate.step + 1) = none) : segment_decision w = none := by
  unfold segment_decision traject_select
  rw [hr1]

/-- The decision of `jb_test_motorpid.c` when row `step + 1` exists. -/
theorem motorpid_decision_eq {K : Type} [LinearOrderedField K] (w : motorpid.World K)
    (r1 : motorpid.traj_row K)
    (hr1 : motorpid.row_at w.trajec_mat (w.cstate.step + 1) = some r1) :
    motorpid_decision w = some
      (if motorpid.elapsed_whole_s w.cstate.t_curr w.test_start ≥ r1.t then
        (if w.cstate.step + 2 < motorpid.rows w.trajec_mat then seg_decision.advance
          else seg_decision.terminate)
        else seg_decision.hold) := by
  unfold motorpid_decision motorpid.traject_select
  rw [hr1]
  simp only
  by_cases hnow : motorpid.elapsed_whole_s w.cstate.t_curr w.test_start ≥ r1.t
  · by_cases hlt : w.cstate.step + 2 < motorpid.rows w.trajec_mat
    · have h2 : ∃ r2, motorpid.row_at w.trajec_mat (w.cstate.step + 1 + 1) = some r2 := by
        have h0 : 0 ≤ w.cstate.step + 1 := by
          unfold motorpid.row_at at hr1
          by_contra hc
          rw [if_neg hc] at hr1
          exact Option.noConfusion hr1
        unfold motorpid.rows at hlt
        have hl : (w.cstate.step + 1 + 1).toNat < w.trajec_mat.length := by omega
        exact ⟨w.trajec_mat[(w.cstate.step + 1 + 1).toNat], by
          unfold motorpid.row_at
          rw [if_pos (by omega), List.getElem?_eq_getElem hl]⟩
      obtain ⟨r2, hr2⟩ := h2
      rw [if_pos hlt, if_pos hnow, hr2, if_pos hnow, if_pos hlt]
      simp
    · rw [if_neg hlt, if_pos hnow, if_pos hnow, if_neg hlt]
  · rw [if_neg hnow, if_neg hnow, if_neg hnow]
    split_ifs <;> simp

theorem motorpid_decision_none {K : Type} [LinearOrderedField K] (w : motorpid.World K)
    (hr1 : motorpid.row_at w.trajec_mat (w.cstate.step + 1) = none) :
    motorpid_decision w = none := by
  unfold motorpid_decision motorpid.traject_select
  rw [hr1]

/-- Whole elapsed seconds reach a whole number of seconds exactly when the
elapsed time does. -/
theorem whole_seconds_iff {K : Type} [LinearOrderedField K] (e : Nat) (n : Int) :
    (((e / 1000 : Nat) : K) ≥ (n : K)) ↔ ((e : K) / 1000 ≥ (n : K)) := by
  have c1 : ((e / 1000 : Nat) : K) = (((e / 1000 : Nat) : Int) : K) :=
    (Int.cast_natCast _).symm
  have c2 : (e : K) = ((e : Int) : K) := (Int.cast_natCast e).symm
  have c3 : (n : K) * 1000 = ((n * 1000 : Int) : K) := by push_cast; ring
  have h1 : (((e / 1000 : Nat) : K) ≥ (n : K)) ↔ n ≤ ((e / 1000 : Nat) : Int) := by
    rw [ge_iff_le, c1, Int.cast_le]
  have h2 : ((e : K) / 1000 ≥ (n : K)) ↔ n * 1000 ≤ (e : Int) := by
    rw [ge_iff_le, le_div_iff₀ (by norm_num : (0 : K) < 1000), c3, c2, Int.cast_le]
  rw [h1, h2]
  omega

/-- Tables with the same times have the same rows, up to the time column. -/
theorem row_at_times {K : Type} (tm : List (traj_row K)) (tt : List (motorpid.traj_row K))
    (h : tm.map (fun r => r.t) = tt.map (fun r => r.t)) (i : Int) :
    (row_at tm i).map (fun r => r.t) = (motorpid.row_at tt i).map (fun r => r.t) := by
  unfold row_at motorpid.row_at
  by_cases h0 : 0 ≤ i
  · rw [if_pos h0, if_pos h0, ← List.getElem?_map, ← List.getElem?_map, h]
  · rw [if_neg h0, if_neg h0]
    rfl

/-- C23, as the code has it: on tables with the same times, at the same `step`,
clock and clock origin, the single-axis variant makes the segment decision of
`jb_main.c` (advance, terminate or hold) whenever the waypoint time `time[step+1]` is a
whole number of seconds, as the times 0, 10, 20 of its own table are. -/
theorem segment_decisions_agree {K M : Type} [LinearOrderedField K] (wm : World K M)
    (wt : motorpid.World K) (hstep : wm.cstate.step = wt.cstate.step)
    (htimes : wm.trajec_mat.map (fun r => r.t) = wt.trajec_mat.map (fun r => r.t))
    (hclock : wm.cstate.t_curr = wt.cstate.t_curr) (hstart : wm.test_start = wt.test_start)
    (hwhole : ∀ r, row_at wm.trajec_mat (wm.cstate.step + 1) = some r →
      ∃ n : Int, r.t = (n : K)) :
    segment_decision wm = motorpid_decision wt := by
  have hrows : rows wm.trajec_mat = motorpid.rows wt.trajec_mat := by
    unfold rows motorpid.rows
    have := congrArg List.length htimes
    simp only [List.length_map] at this
    rw [this]
  have hrow := row_at_times wm.trajec_mat wt.trajec_mat htimes (wm.cstate.step + 1)
  cases hm : row_at wm.trajec_mat (wm.cstate.step + 1) with
  | none =>
    rw [hm] at hrow
    have ht : motorpid.row_at wt.trajec_mat (wt.cstate.step + 1) = none := by
      rw [← hstep]
      cases hx : motorpid.row_at wt.trajec_mat (wm.cstate.step + 1) with
      | none => rfl
      | some r =>
        rw [hx] at hrow
        exact Option.noConfusion hrow
    rw [segment_decision_none wm hm, motorpid_decision_none wt ht]
  | some rm =>
    rw [hm] at hrow
    obtain ⟨n, hn⟩ := hwhole rm hm
    cases hx : motorpid.row_at wt.trajec_mat (wm.cstate.step + 1) with
    | none =>
      rw [hx] at hrow
      exact Option.noConfusion hrow
    | some rt =>
      rw [hx] at hrow
      simp only [Option.map_some', Option.some.injEq] at hrow
      have ht : motorpid.row_at wt.trajec_mat (wt.cstate.step + 1) = some rt := by
        rw [← hstep]
        exact hx
      rw [segment_decision_eq wm rm hm, motorpid_decision_eq wt rt ht, ← hstep, ← hrows,
        ← hclock, ← hstart, ← hrow, hn]
      have hiff : (motorpid.elapsed_whole_s wm.cstate.t_curr wm.test_start ≥ (n : K)) ↔
          (elapsed_s wm.cstate.t_curr wm.test_start ≥ (n : K)) :=
        whole_seconds_iff ((wm.cstate.t_curr % U64 + U64 - wm.test_start % U64) % U64) n
      by_cases hnow : elapsed_s wm.cstate.t_curr wm.test_start ≥ (n : K)
      · rw [if_pos hnow, if_pos (hiff.mpr hnow)]
      · rw [if_neg hnow, if_neg (fun hc => hnow (hiff.mp hc))]

/-- C23, at a concrete input: both variants on the test table, 10 s into the
run, at `step = 0`. -/
theorem segment_decisions_agree_witness :
    segment_decision (armed_world_at ℝ Unit () 11000) =
      motorpid_decision (motorpid.test_world ℝ (motorpid.test_table ℝ) 0 0 10 11000) :=
  segment_decisions_agree (armed_world_at ℝ Unit () 11000)
    (motorpid.test_world ℝ (motorpid.test_table ℝ) 0 0 10 11000) rfl
    (by simp [armed_world_at, armed_world, test_table, motorpid.test_world,
      motorpid.test_table])
    rfl rfl
    (by
      intro r hr
      refine ⟨10, ?_⟩
      simp [row_at, armed_world_at, armed_world, test_table, cstate_zero] at hr
      rw [← hr]
      norm_num)

/-- C23 fails as stated.  On the table with times 0, 10.5 and 20, at `step = 0`
and 10500 ms into the run, `jb_main.c` advances (10.5 ≥ 10.5) and the single-axis
variant holds: it compares the whole seconds 10500 / 1000 = 10 with 10.5. -/
theorem segment_decisions_agree_counterexample :
    (half_second_world ℝ Unit () 11500).cstate.step
        = (motorpid.test_world ℝ [⟨0, 0⟩, ⟨10.5, 125⟩, ⟨20, 75⟩] 0 0 10.5 11500).cstate.step ∧
    (half_second_world ℝ Unit () 11500).trajec_mat.map (fun r => r.t)
        = (motorpid.test_world ℝ [⟨0, 0⟩, ⟨10.5, 125⟩, ⟨20, 75⟩] 0 0 10.5
          11500).trajec_mat.map (fun r => r.t) ∧
    (half_second_world ℝ Unit () 11500).cstate.t_curr
        = (motorpid.test_world ℝ [⟨0, 0⟩, ⟨10.5, 125⟩, ⟨20, 75⟩] 0 0 10.5 11500).cstate.t_curr ∧
    (half_second_world ℝ Unit () 11500).test_start
        = (motorpid.test_world ℝ [⟨0, 0⟩, ⟨10.5, 125⟩, ⟨20, 75⟩] 0 0 10.5 11500).test_start ∧
    segment_decision (half_second_world ℝ Unit () 11500) = some seg_decision.advance ∧
    motorpid_decision (motorpid.test_world ℝ [⟨0, 0⟩, ⟨10.5, 125⟩, ⟨20, 75⟩] 0 0 10.5 11500)
      = some seg_decision.hold := by
  refine ⟨rfl, ?_, rfl, rfl, ?_, ?_⟩
  · simp [half_second_world, motorpid.test_world]
  · rw [segment_decision_eq (half_second_world ℝ Unit () 11500) ⟨10.5, 125, 0, 0⟩
      (by simp [row_at, half_second_world, armed_world, cstate_zero])]
    norm_num [elapsed_s, U64, half_second_world, armed_world, rows, cstate_zero]
  · rw [motorpid_decision_eq (motorpid.test_world ℝ [⟨0, 0⟩, ⟨10.5, 125⟩, ⟨20, 75⟩] 0 0 10.5
      11500) ⟨10.5, 125⟩ (by simp [motorpid.row_at, motorpid.test_world])]
    norm_num [motorpid.elapsed_whole_s, U64, motorpid.test_world, motorpid.rows]

end Jerbobot
